import Mathlib

/-!
Verification of the BOON binary codec (TypeScript sources) against its
specification.  The development shallowly embeds the encoder
(`encode/encoder.ts`), the eager decoder (`decode/decoder.ts`), the streaming
decoder (`decode/stream.ts`), the shared buffer reader (`shared/buffer.ts`,
both the primary reader and the self-contained BOON-v2 codec in the same
file), the common-keys dictionary and the wire constants.

Modelling conventions:
* a byte buffer is a `List Nat` of values `< 256`; the growable write buffer
  only affects capacity, never content, so writers return the bytes appended;
* a JavaScript string is the list of its Unicode scalar values (code points);
  `TextEncoder`/`TextDecoder` become `utf8Encode`/`utf8Decode`, and the
  JavaScript `.length` (UTF-16 code units) becomes `utf16Len`;
* a JavaScript number is either an integral double (`JSNumber.int`) or a
  finite non-integral double carried as its IEEE-754 bit pattern
  (`JSNumber.float`); `DataView` float accesses move those bit patterns;
* JavaScript 32-bit operator semantics (`|`, `<<`, `>>>`) are modelled
  explicitly with `% 2 ^ 32` and two's-complement reinterpretation;
* exceptions become `Except` values: the reader's `RangeError('Buffer
  underflow ...')` is `DecodeError.truncated`, every `SyntaxError` of the
  decoders is `DecodeError.invalidData`.
-/

namespace Boon

/-! ### Wire constants (constants.ts) -/

def FORMAT_VERSION : Nat := 1

/-- Magic number "BOON". -/
def MAGIC_NUMBER : List Nat := [0x42, 0x4F, 0x4F, 0x4E]

namespace TYPE_TAG

def NULL : Nat := 0x00
def FALSE : Nat := 0x01
def TRUE : Nat := 0x02
def INT8 : Nat := 0x10
def INT16 : Nat := 0x11
def INT32 : Nat := 0x12
def INT64 : Nat := 0x13
def UINT8 : Nat := 0x14
def UINT16 : Nat := 0x15
def UINT32 : Nat := 0x16
def FLOAT32 : Nat := 0x20
def FLOAT64 : Nat := 0x21
def STRING_EMPTY : Nat := 0x30
def STRING_SHORT : Nat := 0x31
def STRING_MEDIUM : Nat := 0x32
def STRING_LONG : Nat := 0x33
def ARRAY_EMPTY : Nat := 0x40
def ARRAY_SHORT : Nat := 0x41
def ARRAY_MEDIUM : Nat := 0x42
def ARRAY_LONG : Nat := 0x43
def OBJECT_EMPTY : Nat := 0x50
def OBJECT_SHORT : Nat := 0x51
def OBJECT_MEDIUM : Nat := 0x52
def OBJECT_LONG : Nat := 0x53
def HEADER_WITH_STRING_TABLE : Nat := 0x60

end TYPE_TAG

def MAX_SHORT_LENGTH : Nat := 255
def MAX_MEDIUM_LENGTH : Nat := 65535

def INT8_MIN : Int := -128
def INT8_MAX : Int := 127
def INT16_MIN : Int := -32768
def INT16_MAX : Int := 32767
def INT32_MIN : Int := -2147483648
def INT32_MAX : Int := 2147483647
def UINT8_MAX : Int := 255
def UINT16_MAX : Int := 65535
def UINT32_MAX : Int := 4294967295

/-! ### Big-endian fixed-width scalars (DataView accesses in buffer.ts) -/

/-- The `w` big-endian bytes of `m % 2 ^ (8 * w)` (most significant first),
as written by `DataView.setUint8/16/32/BigUint64` with big-endian flag. -/
def natBytesBE : Nat → Nat → List Nat
  | 0, _ => []
  | w + 1, m => (m / 2 ^ (8 * w)) % 256 :: natBytesBE w m

/-- Reassemble a big-endian byte list into a natural number
(`DataView.getUint*` with big-endian flag). -/
def natFromBytesBE (l : List Nat) : Nat :=
  l.foldl (fun acc b => acc * 256 + b % 256) 0

/-- Two's-complement reinterpretation of a `k`-bit unsigned value, as done by
`DataView.getInt8/16/32/BigInt64`. -/
def toSigned (k : Nat) (m : Nat) : Int :=
  if m < 2 ^ (k - 1) then (m : Int) else (m : Int) - 2 ^ k

/-- The `w`-byte big-endian two's-complement image of an integer, as written
by `DataView.setInt8/16/32/BigInt64` with big-endian flag. -/
def intBytesBE (w : Nat) (n : Int) : List Nat :=
  natBytesBE w (n % (2 ^ (8 * w))).toNat

/-! ### JavaScript 32-bit operator semantics -/

/-- Reinterpret a 32-bit unsigned value as the signed JavaScript number that
a `|` / `<<` expression evaluates to. -/
def toInt32 (m : Nat) : Int :=
  if m % 2 ^ 32 < 2 ^ 31 then (m % 2 ^ 32 : Nat) else (m % 2 ^ 32 : Nat) - 2 ^ 32

/-- JavaScript `result | ((byte & 0x7F) << shift)` on 32-bit integers:
both operands are coerced to int32, `<<` masks the shift count to five bits,
and `|` is a bitwise or on the 32-bit patterns.  `result` is tracked as its
unsigned 32-bit pattern. -/
def jsOrShl (result : Nat) (b : Nat) (shift : Nat) : Nat :=
  ((result % 2 ^ 32) ||| ((b % 128) * 2 ^ (shift % 32) % 2 ^ 32)) % 2 ^ 32

/-! ### Varint writer of the fixed-width scheme (encode/encoder.ts writeVarint)

`value & 0x7F` is `value % 128`; or-ing `0x80` onto a value `< 128` adds
`128`; `value >>> k` is `value / 2 ^ k` for `value < 2 ^ 32`. -/

def writeVarint (value : Nat) : List Nat :=
  if value < 128 then
    [value]
  else if value < 16384 then
    [value % 128 + 128, value / 128]
  else if value < 2097152 then
    [value % 128 + 128, (value / 128) % 128 + 128, value / 16384]
  else
    [value % 128 + 128, (value / 128) % 128 + 128, (value / 16384) % 128 + 128,
      value / 2097152]

/-! ### Decode errors -/

inductive DecodeError where
  /-- `RangeError('Buffer underflow ...')` raised by the binary reader. -/
  | truncated
  /-- Any `SyntaxError` raised by the decoders. -/
  | invalidData
deriving DecidableEq, Repr

/-! ### Binary reader (shared/buffer.ts, `createBinaryReader`)

The reader is a cursor over borrowed bytes; we model the remaining suffix of
the input directly, each read returning the value and the new suffix. -/

def readUint8 : List Nat → Except DecodeError (Nat × List Nat)
  | [] => .error .truncated
  | b :: rest => .ok (b, rest)

def readBytes (n : Nat) (l : List Nat) : Except DecodeError (List Nat × List Nat) :=
  if l.length < n then .error .truncated else .ok (l.take n, l.drop n)

def readUint16 (l : List Nat) : Except DecodeError (Nat × List Nat) := do
  let (bs, rest) ← readBytes 2 l
  .ok (natFromBytesBE bs, rest)

def readUint32 (l : List Nat) : Except DecodeError (Nat × List Nat) := do
  let (bs, rest) ← readBytes 4 l
  .ok (natFromBytesBE bs, rest)

def readInt8 (l : List Nat) : Except DecodeError (Int × List Nat) := do
  let (b, rest) ← readUint8 l
  .ok (toSigned 8 b, rest)

def readInt16 (l : List Nat) : Except DecodeError (Int × List Nat) := do
  let (bs, rest) ← readBytes 2 l
  .ok (toSigned 16 (natFromBytesBE bs), rest)

def readInt32 (l : List Nat) : Except DecodeError (Int × List Nat) := do
  let (bs, rest) ← readBytes 4 l
  .ok (toSigned 32 (natFromBytesBE bs), rest)

def readBigInt64 (l : List Nat) : Except DecodeError (Int × List Nat) := do
  let (bs, rest) ← readBytes 8 l
  .ok (toSigned 64 (natFromBytesBE bs), rest)

/-! ### JavaScript numbers as IEEE-754 doubles

A JavaScript number is an IEEE-754 binary64 value.  The codec distinguishes
(via `Number.isInteger`) integral doubles, which it stores as fixed-width
two's-complement integers, from the rest, which it stores as raw float
bit patterns.  We model a number as either its exact integer value or its
64-bit pattern `sign(1) | exponent(11) | mantissa(52)`. -/

def f64Sign (b : Nat) : Nat := b / 2 ^ 63 % 2

def f64Exp (b : Nat) : Nat := b / 2 ^ 52 % 2 ^ 11

def f64Man (b : Nat) : Nat := b % 2 ^ 52

/-- `Number.isInteger` on the double with bit pattern `b`: the value is
finite and has no fractional part. -/
def f64IsFiniteIntegral (b : Nat) : Bool :=
  let e := f64Exp b
  let m := f64Man b
  if e = 2047 then false          -- NaN / ±Infinity
  else if e = 0 then m = 0        -- zero is integral, subnormals are not
  else if 1075 ≤ e then true      -- magnitude ≥ 2^52: always integral
  else if 1023 ≤ e then m % 2 ^ (1075 - e) = 0
  else false                      -- 0 < magnitude < 1

/-- The exact integer value of a finite integral double. -/
def f64IntVal (b : Nat) : Int :=
  let e := f64Exp b
  let m := f64Man b
  let mag : Int :=
    if e = 0 then 0
    else if 1075 ≤ e then ((2 ^ 52 + m) * 2 ^ (e - 1075) : Nat)
    else ((2 ^ 52 + m) / 2 ^ (1075 - e) : Nat)
  if f64Sign b = 1 then -mag else mag

/-- `Math.fround(v) === v`: the double with pattern `b` is exactly
representable as an IEEE-754 binary32 (including ±0 and ±Infinity; false for
NaN because `NaN !== NaN`). -/
def isF32Exact (b : Nat) : Bool :=
  let e := f64Exp b
  let m := f64Man b
  if e = 2047 then m = 0                                  -- ±Infinity yes, NaN no
  else if e = 0 then m = 0                                -- ±0 yes, subnormal doubles no
  else if 897 ≤ e ∧ e ≤ 1150 then m % 2 ^ 29 = 0          -- binary32 normal range
  else if 874 ≤ e ∧ e ≤ 896 then m % 2 ^ (926 - e) = 0    -- binary32 subnormal range
  else false

/-- `DataView.setFloat32`: the binary32 bit pattern of the double `b`
(exact on `isF32Exact` patterns, which is the only way the encoder uses it). -/
def f64ToF32 (b : Nat) : Nat :=
  let s := f64Sign b
  let e := f64Exp b
  let m := f64Man b
  if e = 2047 then s * 2 ^ 31 + 255 * 2 ^ 23
  else if e = 0 then s * 2 ^ 31
  else if 897 ≤ e then s * 2 ^ 31 + (e - 896) * 2 ^ 23 + m / 2 ^ 29
  else s * 2 ^ 31 + (2 ^ (e - 874) + m / 2 ^ (926 - e))

/-- `DataView.getFloat32` followed by the exact widening to a double: the
binary64 bit pattern denoting the same value as the binary32 pattern `b32`. -/
def f32ToF64 (b32 : Nat) : Nat :=
  let s := b32 / 2 ^ 31 % 2
  let e32 := b32 / 2 ^ 23 % 256
  let m32 := b32 % 2 ^ 23
  if e32 = 255 then s * 2 ^ 63 + 2047 * 2 ^ 52 + m32 * 2 ^ 29
  else if e32 = 0 then
    if m32 = 0 then s * 2 ^ 63
    else
      let t := Nat.log 2 m32
      s * 2 ^ 63 + (t + 874) * 2 ^ 52 + (m32 - 2 ^ t) * 2 ^ (52 - t)
  else s * 2 ^ 63 + (e32 + 896) * 2 ^ 52 + m32 * 2 ^ 29

/-- A JavaScript number: an integral double carried as its exact value, or a
non-integral double carried as its binary64 bit pattern.  (The well-formedness
predicates below keep the representation canonical.) -/
inductive JSNumber where
  | int (n : Int)
  | float (b : Nat)
deriving DecidableEq, Repr

/-- Canonicalize a double bit pattern into the `JSNumber` representation. -/
def numOfBits (b : Nat) : JSNumber :=
  if f64IsFiniteIntegral b then .int (f64IntVal b) else .float b

/-! ### Strings

A JavaScript string is modelled as the list of its Unicode scalar values.
`TextEncoder.encode` is `utf8Encode`; `TextDecoder.decode` is `utf8Decode`
(the replacement-character behaviour of a non-fatal decoder is modelled
coarsely; the roundtrip theorems only exercise it on valid UTF-8); the
UTF-16 `.length` property is `utf16Len`. -/

def utf8EncodeChar (c : Nat) : List Nat :=
  if c < 0x80 then [c]
  else if c < 0x800 then [0xC0 + c / 64, 0x80 + c % 64]
  else if c < 0x10000 then [0xE0 + c / 4096, 0x80 + c / 64 % 64, 0x80 + c % 64]
  else [0xF0 + c / 262144, 0x80 + c / 4096 % 64, 0x80 + c / 64 % 64, 0x80 + c % 64]

def utf8Encode : List Nat → List Nat
  | [] => []
  | c :: cs => utf8EncodeChar c ++ utf8Encode cs

mutual

def utf8Decode : List Nat → List Nat
  | [] => []
  | b0 :: r =>
    if b0 < 0x80 then b0 :: utf8Decode r
    else if b0 < 0xC0 then 0xFFFD :: utf8Decode r
    else if b0 < 0xE0 then utf8DecodeTwo b0 r
    else if b0 < 0xF0 then utf8DecodeThree b0 r
    else utf8DecodeFour b0 r

def utf8DecodeTwo (b0 : Nat) : List Nat → List Nat
  | [] => [0xFFFD]
  | b1 :: r1 =>
    if 0x80 ≤ b1 ∧ b1 < 0xC0 then ((b0 - 0xC0) * 64 + (b1 - 0x80)) :: utf8Decode r1
    else 0xFFFD :: utf8Decode r1

def utf8DecodeThree (b0 : Nat) : List Nat → List Nat
  | b1 :: b2 :: r2 =>
    if (0x80 ≤ b1 ∧ b1 < 0xC0) ∧ (0x80 ≤ b2 ∧ b2 < 0xC0) then
      ((b0 - 0xE0) * 4096 + (b1 - 0x80) * 64 + (b2 - 0x80)) :: utf8Decode r2
    else 0xFFFD :: utf8Decode r2
  | _ => [0xFFFD]

def utf8DecodeFour (b0 : Nat) : List Nat → List Nat
  | b1 :: b2 :: b3 :: r3 =>
    if (0x80 ≤ b1 ∧ b1 < 0xC0) ∧ (0x80 ≤ b2 ∧ b2 < 0xC0) ∧ (0x80 ≤ b3 ∧ b3 < 0xC0) then
      ((b0 - 0xF0) * 262144 + (b1 - 0x80) * 4096 + (b2 - 0x80) * 64 + (b3 - 0x80))
        :: utf8Decode r3
    else 0xFFFD :: utf8Decode r3
  | _ => [0xFFFD]

end

/-- JavaScript `.length` of the string (UTF-16 code units). -/
def utf16Len (s : List Nat) : Nat :=
  (s.map fun c => if c < 0x10000 then 1 else 2).sum

/-- A Unicode scalar value: a code point that is not a surrogate. -/
def ValidScalar (c : Nat) : Prop :=
  c < 0x110000 ∧ (c < 0xD800 ∨ 0xE000 ≤ c)

instance (c : Nat) : Decidable (ValidScalar c) := by
  unfold ValidScalar; infer_instance

/-! ### Common keys dictionary (common-keys.ts) -/

/-- Code points of a string literal. -/
def keyStr (s : String) : List Nat := s.data.map Char.toNat

/-- The 128 pre-assigned common object keys (ids 0x80–0xFF, in order). -/
def COMMON_KEYS : List (List Nat) :=
  [keyStr "id", keyStr "name", keyStr "type", keyStr "value", keyStr "data",
   keyStr "key", keyStr "label", keyStr "text", keyStr "title", keyStr "description",
   keyStr "status", keyStr "code", keyStr "message", keyStr "error", keyStr "result",
   keyStr "success",
   keyStr "user", keyStr "email", keyStr "password", keyStr "token", keyStr "created",
   keyStr "updated", keyStr "deleted", keyStr "timestamp", keyStr "date", keyStr "time",
   keyStr "url", keyStr "link", keyStr "href", keyStr "src", keyStr "image", keyStr "icon",
   keyStr "count", keyStr "total", keyStr "size", keyStr "length", keyStr "width",
   keyStr "height", keyStr "index", keyStr "position", keyStr "order", keyStr "level",
   keyStr "priority", keyStr "score", keyStr "rating", keyStr "price", keyStr "amount",
   keyStr "quantity",
   keyStr "active", keyStr "enabled", keyStr "disabled", keyStr "visible", keyStr "hidden",
   keyStr "public", keyStr "private", keyStr "admin", keyStr "owner", keyStr "author",
   keyStr "creator", keyStr "modifier", keyStr "parent", keyStr "child", keyStr "children",
   keyStr "items",
   keyStr "config", keyStr "options", keyStr "settings", keyStr "params", keyStr "metadata",
   keyStr "attributes", keyStr "properties", keyStr "fields", keyStr "columns", keyStr "rows",
   keyStr "records", keyStr "entries", keyStr "tags", keyStr "categories", keyStr "groups",
   keyStr "filter",
   keyStr "action", keyStr "method", keyStr "event", keyStr "callback", keyStr "handler",
   keyStr "response", keyStr "request", keyStr "query", keyStr "search", keyStr "sort",
   keyStr "limit", keyStr "offset", keyStr "page", keyStr "per_page", keyStr "next",
   keyStr "prev",
   keyStr "content", keyStr "body", keyStr "header", keyStr "footer", keyStr "sidebar",
   keyStr "menu", keyStr "nav", keyStr "section", keyStr "article", keyStr "post",
   keyStr "comment", keyStr "reply", keyStr "file", keyStr "folder", keyStr "directory",
   keyStr "path",
   keyStr "info", keyStr "details", keyStr "summary", keyStr "version", keyStr "format",
   keyStr "encoding", keyStr "language", keyStr "locale", keyStr "timezone",
   keyStr "currency", keyStr "unit", keyStr "state", keyStr "mode", keyStr "theme",
   keyStr "style", keyStr "class"]

def COMMON_KEY_MIN : Nat := 0x80
def COMMON_KEY_MAX : Nat := 0xFF

/-- First index of `key` in a key list, offset by `i` (helper realizing the
JavaScript `Map` lookups `COMMON_KEYS_MAP.get` / `keyMap.get`). -/
def lookupIdx : List (List Nat) → List Nat → Nat → Option Nat
  | [], _, _ => none
  | k :: ks, key, i => if k = key then some i else lookupIdx ks key (i + 1)

/-- `COMMON_KEYS_MAP.get(key)`: the single-byte id `0x80 + index` for a key
present in the common keys dictionary. -/
def commonKeyId (key : List Nat) : Option Nat :=
  (lookupIdx COMMON_KEYS key 0).map (fun i => 0x80 + i)

/-! ### JavaScript values

The encoder is typed against `JsonValue` but executes on arbitrary runtime
values, so the embedding uses one inductive covering everything `normalizeValue`
and `writeValue` dispatch on: `undef` is `undefined`; `other s` is a non-JSON
primitive (bigint / symbol / function) whose `String(input)` rendering is `s`;
an object is its ordered entry list (JavaScript enumeration order, unique
keys). -/

inductive JSValue where
  | undef
  | null
  | bool (b : Bool)
  | num (n : JSNumber)
  | str (s : List Nat)
  | other (s : List Nat)
  | arr (items : List JSValue)
  | obj (entries : List (List Nat × JSValue))

/-! ### Encoder (encode/encoder.ts) -/

inductive EncodeError where
  /-- `TypeError('Unsupported value type: ...')` from `writeValue`'s default case. -/
  | unsupportedType
  /-- A `keyMap.get(key)!` lookup found no entry (shown unreachable below). -/
  | missingKey
deriving DecidableEq, Repr

/-- `ResolvedEncodeOptions` (types.ts).  `initialBufferSize` only sizes the
growable buffer; it never changes the bytes produced. -/
structure ResolvedEncodeOptions where
  includeHeader : Bool
  initialBufferSize : Nat
  useStringTable : Bool
deriving DecidableEq, Repr

/-- Defaults resolved by `resolveEncodeOptions` in index.ts. -/
def defaultEncodeOptions : ResolvedEncodeOptions :=
  { includeHeader := true, initialBufferSize := 4096, useStringTable := true }

/-- `keys.add(key)` on the insertion-ordered `Set` used by `collectKeys`. -/
def addKey (keys : List (List Nat)) (k : List Nat) : List (List Nat) :=
  if k ∈ keys then keys else keys ++ [k]

mutual

/-- `collectKeys`: all unique object keys of a value, in first-encounter
pre-order. -/
def collectKeys : JSValue → List (List Nat) → List (List Nat)
  | .arr items, keys => collectKeysList items keys
  | .obj entries, keys => collectKeysEntries entries keys
  | _, keys => keys

def collectKeysList : List JSValue → List (List Nat) → List (List Nat)
  | [], keys => keys
  | v :: vs, keys => collectKeysList vs (collectKeys v keys)

def collectKeysEntries : List (List Nat × JSValue) → List (List Nat) → List (List Nat)
  | [], keys => keys
  | (k, v) :: es, keys => collectKeysEntries es (collectKeys v (addKey keys k))

end

mutual

/-- Number of occurrences of `k` as an object key anywhere in the value: the
count `keyUsage.get(k)` built by `countKeys` inside
`estimateRepetitionSavings`. -/
def countKey (k : List Nat) : JSValue → Nat
  | .arr items => countKeyList k items
  | .obj entries => countKeyEntries k entries
  | _ => 0

def countKeyList (k : List Nat) : List JSValue → Nat
  | [] => 0
  | v :: vs => countKey k v + countKeyList k vs

def countKeyEntries (k : List Nat) : List (List Nat × JSValue) → Nat
  | [] => 0
  | (k', v) :: es => (if k' = k then 1 else 0) + countKey k v + countKeyEntries k es

end

/-- `estimateRepetitionSavings`.  `keys` is the deduplicated key list from
`collectKeys`, so the iteration over the `keyUsage` map is the iteration over
`keys` with `countKey` as the usage count.  `key.length` in the source is the
UTF-16 length.  The two floating-point comparisons are modelled by the exact
integer comparisons they are equivalent to for the reachable magnitudes
(below `2 ^ 52`, where the doubled counts and the rounded quotient are
exact); see the inline comments. -/
def estimateRepetitionSavings (v : JSValue) (keys : List (List Nat)) : Int :=
  let totalKeyBytes := (keys.map (fun k => countKey k v * (1 + utf16Len k))).sum
  let singleUseKeys := (keys.filter (fun k => countKey k v = 1)).length
  -- `singleUseKeys > keys.length * 0.5`: the half is an exact double, so this
  -- is exactly the integer comparison below
  if 2 * singleUseKeys > keys.length then -1000
  else
    let totalCount := (keys.map (fun k => countKey k v)).sum
    -- `avgSavingsPerKey = totalKeyBytes / totalCount > 2`: for integers of
    -- these magnitudes, the rounded double quotient exceeds 2 exactly when
    -- `totalKeyBytes > 2 * totalCount` (JavaScript NaN from `0/0` compares
    -- false, matching `0 > 0` here)
    if totalKeyBytes > 2 * totalCount then 1000 else -1000

/-- `writeHeader`: magic number plus version byte. -/
def writeHeader : List Nat := MAGIC_NUMBER ++ [FORMAT_VERSION]

/-- `writeStringTable`: string-table tag, version byte, key count varint and
the varint-length-prefixed key bytes. -/
def writeStringTable (keys : List (List Nat)) : List Nat :=
  TYPE_TAG.HEADER_WITH_STRING_TABLE :: FORMAT_VERSION ::
    (writeVarint keys.length ++
      (keys.map (fun k => writeVarint (utf8Encode k).length ++ utf8Encode k)).flatten)

/-- `writeNumber`'s integer classification (the `Number.isInteger` branch).
`setUintN` and the raw byte store agree with `intBytesBE` on the guarded
non-negative ranges. -/
def writeIntNumber (n : Int) : List Nat :=
  if INT8_MIN ≤ n ∧ n ≤ INT8_MAX then TYPE_TAG.INT8 :: intBytesBE 1 n
  else if INT16_MIN ≤ n ∧ n ≤ INT16_MAX then TYPE_TAG.INT16 :: intBytesBE 2 n
  else if INT32_MIN ≤ n ∧ n ≤ INT32_MAX then TYPE_TAG.INT32 :: intBytesBE 4 n
  else if 0 ≤ n ∧ n ≤ UINT8_MAX then TYPE_TAG.UINT8 :: intBytesBE 1 n
  else if 0 ≤ n ∧ n ≤ UINT16_MAX then TYPE_TAG.UINT16 :: intBytesBE 2 n
  else if 0 ≤ n ∧ n ≤ UINT32_MAX then TYPE_TAG.UINT32 :: intBytesBE 4 n
  else TYPE_TAG.INT64 :: intBytesBE 8 n

/-- `writeNumber`: integral numbers take the fixed-width integer branches
(`Math.trunc` is the identity on them); other finite numbers take the
`Math.fround` exactness test between FLOAT32 and FLOAT64. -/
def writeNumber : JSNumber → List Nat
  | .int n => writeIntNumber n
  | .float b =>
    if f64IsFiniteIntegral b then writeIntNumber (f64IntVal b)
    else if isF32Exact b then TYPE_TAG.FLOAT32 :: natBytesBE 4 (f64ToF32 b)
    else TYPE_TAG.FLOAT64 :: natBytesBE 8 b

/-- `writeString`: `value.length === 0` is emptiness of the scalar list; the
length fields carry the UTF-8 byte length (a one-byte store for the short
form, big-endian `setUint16`/`setUint32` otherwise). -/
def writeString (s : List Nat) : List Nat :=
  if s = [] then [TYPE_TAG.STRING_EMPTY]
  else
    let bytes := utf8Encode s
    if bytes.length ≤ MAX_SHORT_LENGTH then TYPE_TAG.STRING_SHORT :: bytes.length :: bytes
    else if bytes.length ≤ MAX_MEDIUM_LENGTH then
      TYPE_TAG.STRING_MEDIUM :: natBytesBE 2 bytes.length ++ bytes
    else TYPE_TAG.STRING_LONG :: natBytesBE 4 bytes.length ++ bytes

/-- `writeKeyString`: common-key single byte, or length-prefixed UTF-8 with
lengths `0..127` direct and markers `254`/`255` for 2- and 4-byte lengths. -/
def writeKeyString (key : List Nat) : List Nat :=
  match commonKeyId key with
  | some id => [id]
  | none =>
    let bytes := utf8Encode key
    if bytes.length ≤ 127 then bytes.length :: bytes
    else if bytes.length ≤ MAX_MEDIUM_LENGTH then 254 :: natBytesBE 2 bytes.length ++ bytes
    else 255 :: natBytesBE 4 bytes.length ++ bytes

/-- The array length header shared by `writeArray`'s non-empty branches. -/
def arrayHeader (length : Nat) : List Nat :=
  if length ≤ MAX_SHORT_LENGTH then [TYPE_TAG.ARRAY_SHORT, length]
  else if length ≤ MAX_MEDIUM_LENGTH then TYPE_TAG.ARRAY_MEDIUM :: natBytesBE 2 length
  else TYPE_TAG.ARRAY_LONG :: natBytesBE 4 length

/-- The key count header shared by `writeObject` / `writeObjectWithKeyMap`. -/
def objectHeader (keyCount : Nat) : List Nat :=
  if keyCount ≤ MAX_SHORT_LENGTH then [TYPE_TAG.OBJECT_SHORT, keyCount]
  else if keyCount ≤ MAX_MEDIUM_LENGTH then TYPE_TAG.OBJECT_MEDIUM :: natBytesBE 2 keyCount
  else TYPE_TAG.OBJECT_LONG :: natBytesBE 4 keyCount

mutual

/-- `writeValue`: tag dispatch on the runtime type; the default case is the
`TypeError` for unsupported values (`undefined`, bigint, symbol, function).
The source's `writeArray(buf, value, options)` / `writeObject(buf, value,
options)` helpers — the length header branches followed by the element loop —
are inlined here (see `arrayHeader` / `objectHeader`). -/
def writeValue : JSValue → Except EncodeError (List Nat)
  | .null => .ok [TYPE_TAG.NULL]
  | .bool b => .ok [if b then TYPE_TAG.TRUE else TYPE_TAG.FALSE]
  | .num n => .ok (writeNumber n)
  | .str s => .ok (writeString s)
  | .arr items =>
    if items.length = 0 then .ok [TYPE_TAG.ARRAY_EMPTY]
    else do
      let body ← writeArrayItems items none
      .ok (arrayHeader items.length ++ body)
  | .obj entries =>
    if entries.length = 0 then .ok [TYPE_TAG.OBJECT_EMPTY]
    else do
      let body ← writeObjectEntries entries
      .ok (objectHeader entries.length ++ body)
  | .undef => .error .unsupportedType
  | .other _ => .error .unsupportedType

/-- The element loop of `writeArray` (shared by the plain and key-map paths
via the optional `keyMap` argument, as in the source). -/
def writeArrayItems (items : List JSValue) (keyMap : Option (List (List Nat))) :
    Except EncodeError (List Nat) :=
  match items with
  | [] => .ok []
  | v :: vs => do
    let b ← match keyMap with
            | some km => writeValueWithKeyMap v km
            | none => writeValue v
    let r ← writeArrayItems vs keyMap
    .ok (b ++ r)

/-- The entry loop of `writeObject`: common-key/literal key, then value. -/
def writeObjectEntries (entries : List (List Nat × JSValue)) :
    Except EncodeError (List Nat) :=
  match entries with
  | [] => .ok []
  | (k, v) :: es => do
    let vb ← writeValue v
    let r ← writeObjectEntries es
    .ok (writeKeyString k ++ vb ++ r)

/-- `writeValueWithKeyMap`, with `writeArray` / `writeObjectWithKeyMap`
inlined in the container cases. -/
def writeValueWithKeyMap (v : JSValue) (keyMap : List (List Nat)) :
    Except EncodeError (List Nat) :=
  match v with
  | .null => .ok [TYPE_TAG.NULL]
  | .bool b => .ok [if b then TYPE_TAG.TRUE else TYPE_TAG.FALSE]
  | .num n => .ok (writeNumber n)
  | .str s => .ok (writeString s)
  | .arr items =>
    if items.length = 0 then .ok [TYPE_TAG.ARRAY_EMPTY]
    else do
      let body ← writeArrayItems items (some keyMap)
      .ok (arrayHeader items.length ++ body)
  | .obj entries =>
    if entries.length = 0 then .ok [TYPE_TAG.OBJECT_EMPTY]
    else do
      let body ← writeObjectEntriesKM entries keyMap
      .ok (objectHeader entries.length ++ body)
  | .undef => .error .unsupportedType
  | .other _ => .error .unsupportedType

/-- The entry loop of `writeObjectWithKeyMap`: varint key index, then
value. -/
def writeObjectEntriesKM (entries : List (List Nat × JSValue)) (keyMap : List (List Nat)) :
    Except EncodeError (List Nat) :=
  match entries with
  | [] => .ok []
  | (k, v) :: es =>
    -- keyMap.get(key)!: the lookup in the first-index map built from `keys`
    match lookupIdx keyMap k 0 with
    | none => .error .missingKey
    | some i => do
      let vb ← writeValueWithKeyMap v keyMap
      let r ← writeObjectEntriesKM es keyMap
      .ok (writeVarint i ++ vb ++ r)

end

/-- `encodeValue`: optional string-table pre-pass with the cost estimate, then
the header and value bytes.  (The source falls through to the standard path
when the estimate is not beneficial; the fall-through is written out here.) -/
def encodeValue (value : JSValue) (options : ResolvedEncodeOptions) :
    Except EncodeError (List Nat) :=
  if options.useStringTable then
    let keys := collectKeys value []
    let headerSize : Nat := 10 + (keys.map (fun k => utf16Len k + 2)).sum
    let repetitionSavings := estimateRepetitionSavings value keys
    if (headerSize : Int) < repetitionSavings then do
      let body ← writeValueWithKeyMap value keys
      .ok ((if options.includeHeader then MAGIC_NUMBER else []) ++
        writeStringTable keys ++ body)
    else do
      let body ← writeValue value
      .ok ((if options.includeHeader then writeHeader else []) ++ body)
  else do
    let body ← writeValue value
    .ok ((if options.includeHeader then writeHeader else []) ++ body)

mutual

/-- `normalizeValue`: `undefined` becomes `null`; booleans, numbers and
strings pass through; arrays map recursively; objects drop `undefined`-valued
properties and recurse; any other type is converted with `String(input)`. -/
def normalizeValue : JSValue → JSValue
  | .undef => .null
  | .null => .null
  | .bool b => .bool b
  | .num n => .num n
  | .str s => .str s
  | .arr items => .arr (normalizeList items)
  | .obj entries => .obj (normalizeEntries entries)
  | .other s => .str s

def normalizeList : List JSValue → List JSValue
  | [] => []
  | v :: vs => normalizeValue v :: normalizeList vs

def normalizeEntries : List (List Nat × JSValue) → List (List Nat × JSValue)
  | [] => []
  | (k, v) :: es =>
    -- the `val !== undefined` filter
    match v with
    | .undef => normalizeEntries es
    | _ => (k, normalizeValue v) :: normalizeEntries es

end

/-- `encode` (index.ts): normalize, then encode with resolved options. -/
def encode (input : JSValue) (options : ResolvedEncodeOptions) :
    Except EncodeError (List Nat) :=
  encodeValue (normalizeValue input) options

/-! ### Conversion of wide integers to JavaScript numbers

`Number(bigInt)` rounds to the nearest double (ties to even); it is exact up
to `2 ^ 53`. -/

def jsToNumberNat (n : Nat) : Nat :=
  if n ≤ 2 ^ 53 then n
  else
    let k := Nat.log 2 n
    let ulp := 2 ^ (k - 52)
    let q := n / ulp
    let r := n % ulp
    (if 2 * r < ulp then q
     else if ulp < 2 * r then q + 1
     else if q % 2 = 0 then q else q + 1) * ulp

def jsToNumberInt (n : Int) : Int :=
  if 0 ≤ n then (jsToNumberNat n.toNat : Int) else -((jsToNumberNat (-n).toNat : Int))

/-! ### Eager decoder (decode/decoder.ts) -/

/-- `ResolvedDecodeOptions` (types.ts).  `strict` is carried but never read
by either decode path. -/
structure ResolvedDecodeOptions where
  expectHeader : Bool
  strict : Bool
deriving DecidableEq, Repr

/-- Defaults resolved by `resolveDecodeOptions` in index.ts. -/
def defaultDecodeOptions : ResolvedDecodeOptions :=
  { expectHeader := true, strict := true }

/-- The decoders' `readVarint` loop:
`do { byte = readUint8(); result |= (byte & 0x7F) << shift; shift += 7 }
while (byte & 0x80)`.  The accumulator is the unsigned 32-bit pattern of the
JavaScript int32 `result`; the returned number is its signed reinterpretation. -/
def readVarintLoop : List Nat → Nat → Nat → Except DecodeError (Int × List Nat)
  | [], _, _ => .error .truncated
  | b :: rest, result, shift =>
    let result := jsOrShl result b shift
    if b &&& 0x80 = 0 then .ok (toInt32 result, rest)
    else readVarintLoop rest result (shift + 7)

/-- `readVarint` of decode/decoder.ts and decode/stream.ts (identical). -/
def readVarint (l : List Nat) : Except DecodeError (Int × List Nat) :=
  readVarintLoop l 0 0

/-- The key-reading loop of `readStringTable` (and of the streaming header):
for each key a varint byte length followed by that many UTF-8 bytes. -/
def readStringTableKeys : Nat → List Nat → Except DecodeError (List (List Nat) × List Nat)
  | 0, l => .ok ([], l)
  | n + 1, l => do
    let (len, r1) ← readVarint l
    let (bytes, r2) ← readBytes len.toNat r1
    let (keys, r3) ← readStringTableKeys n r2
    .ok (utf8Decode bytes :: keys, r3)

/-- `readStringTable`: version byte (read, not validated), key count varint,
then the keys. -/
def readStringTable (l : List Nat) : Except DecodeError (List (List Nat) × List Nat) := do
  let (_version, r1) ← readUint8 l
  let (keyCount, r2) ← readVarint r1
  readStringTableKeys keyCount.toNat r2

/-- `readString`: tag-directed length field, then UTF-8 payload. -/
def readString (tag : Nat) (l : List Nat) : Except DecodeError (List Nat × List Nat) :=
  if tag = TYPE_TAG.STRING_EMPTY then .ok ([], l)
  else do
    let (length, r1) ←
      if tag = TYPE_TAG.STRING_SHORT then readUint8 l
      else if tag = TYPE_TAG.STRING_MEDIUM then readUint16 l
      else if tag = TYPE_TAG.STRING_LONG then readUint32 l
      else .error .invalidData
    let (bytes, r2) ← readBytes length r1
    .ok (utf8Decode bytes, r2)

/-- `readKeyString` of decode/decoder.ts: common-key byte in `0x80..0xFF`
(missing dictionary entries throw), else direct or marker-selected length
prefix followed by UTF-8 bytes. -/
def readKeyString (l : List Nat) : Except DecodeError (List Nat × List Nat) := do
  let (firstByte, r1) ← readUint8 l
  if COMMON_KEY_MIN ≤ firstByte ∧ firstByte ≤ COMMON_KEY_MAX then
    match COMMON_KEYS.get? (firstByte - COMMON_KEY_MIN) with
    | some key => .ok (key, r1)
    | none => .error .invalidData
  else do
    let (length, r2) ←
      if firstByte = 254 then readUint16 r1
      else if firstByte = 255 then readUint32 r1
      else (.ok (firstByte, r1) : Except DecodeError (Nat × List Nat))
    let (bytes, r3) ← readBytes length r2
    .ok (utf8Decode bytes, r3)

/-- `readFloat32`: four big-endian bytes as a binary32 pattern, widened to
the double it denotes. -/
def readFloat32 (l : List Nat) : Except DecodeError (JSNumber × List Nat) := do
  let (bs, rest) ← readBytes 4 l
  .ok (numOfBits (f32ToF64 (natFromBytesBE bs)), rest)

/-- `readFloat64`: eight big-endian bytes as a binary64 pattern. -/
def readFloat64 (l : List Nat) : Except DecodeError (JSNumber × List Nat) := do
  let (bs, rest) ← readBytes 8 l
  .ok (numOfBits (natFromBytesBE bs), rest)

/-- JavaScript `result[key] = value`: overwrite in place when the key exists
(keeping its first-insertion position), else append. -/
def objInsert (entries : List (List Nat × JSValue)) (k : List Nat) (v : JSValue) :
    List (List Nat × JSValue) :=
  if entries.any (fun e => e.1 = k) then
    entries.map (fun e => if e.1 = k then (k, v) else e)
  else entries ++ [(k, v)]

mutual

/-- `readValue`: tag dispatch of the eager decoder.  The `fuel` argument
bounds the recursion depth; `decodeValue` supplies `input.length + 1`, which
the roundtrip theorems show is never exhausted.  (`options` is threaded in the
source but never read, and is omitted.) -/
def readValueF : Nat → List Nat → Except DecodeError (JSValue × List Nat)
  | 0, _ => .error .invalidData
  | fuel + 1, l => do
    let (tag, r1) ← readUint8 l
    if tag = TYPE_TAG.NULL then .ok (.null, r1)
    else if tag = TYPE_TAG.FALSE then .ok (.bool false, r1)
    else if tag = TYPE_TAG.TRUE then .ok (.bool true, r1)
    else if tag = TYPE_TAG.INT8 then do
      let (n, r2) ← readInt8 r1
      .ok (.num (.int n), r2)
    else if tag = TYPE_TAG.INT16 then do
      let (n, r2) ← readInt16 r1
      .ok (.num (.int n), r2)
    else if tag = TYPE_TAG.INT32 then do
      let (n, r2) ← readInt32 r1
      .ok (.num (.int n), r2)
    else if tag = TYPE_TAG.INT64 then do
      -- both source branches return Number(bigInt)
      let (n, r2) ← readBigInt64 r1
      .ok (.num (.int (jsToNumberInt n)), r2)
    else if tag = TYPE_TAG.UINT8 then do
      let (n, r2) ← readUint8 r1
      .ok (.num (.int n), r2)
    else if tag = TYPE_TAG.UINT16 then do
      let (n, r2) ← readUint16 r1
      .ok (.num (.int n), r2)
    else if tag = TYPE_TAG.UINT32 then do
      let (n, r2) ← readUint32 r1
      .ok (.num (.int n), r2)
    else if tag = TYPE_TAG.FLOAT32 then do
      let (n, r2) ← readFloat32 r1
      .ok (.num n, r2)
    else if tag = TYPE_TAG.FLOAT64 then do
      let (n, r2) ← readFloat64 r1
      .ok (.num n, r2)
    else if tag = TYPE_TAG.STRING_EMPTY ∨ tag = TYPE_TAG.STRING_SHORT ∨
        tag = TYPE_TAG.STRING_MEDIUM ∨ tag = TYPE_TAG.STRING_LONG then do
      let (s, r2) ← readString tag r1
      .ok (.str s, r2)
    else if tag = TYPE_TAG.ARRAY_EMPTY then .ok (.arr [], r1)
    else if tag = TYPE_TAG.ARRAY_SHORT then do
      let (len, r2) ← readUint8 r1
      let (items, r3) ← readItemsF fuel len r2
      .ok (.arr items, r3)
    else if tag = TYPE_TAG.ARRAY_MEDIUM then do
      let (len, r2) ← readUint16 r1
      let (items, r3) ← readItemsF fuel len r2
      .ok (.arr items, r3)
    else if tag = TYPE_TAG.ARRAY_LONG then do
      let (len, r2) ← readUint32 r1
      let (items, r3) ← readItemsF fuel len r2
      .ok (.arr items, r3)
    else if tag = TYPE_TAG.OBJECT_EMPTY then .ok (.obj [], r1)
    else if tag = TYPE_TAG.OBJECT_SHORT then do
      let (cnt, r2) ← readUint8 r1
      let (entries, r3) ← readEntriesF fuel cnt [] r2
      .ok (.obj entries, r3)
    else if tag = TYPE_TAG.OBJECT_MEDIUM then do
      let (cnt, r2) ← readUint16 r1
      let (entries, r3) ← readEntriesF fuel cnt [] r2
      .ok (.obj entries, r3)
    else if tag = TYPE_TAG.OBJECT_LONG then do
      let (cnt, r2) ← readUint32 r1
      let (entries, r3) ← readEntriesF fuel cnt [] r2
      .ok (.obj entries, r3)
    else .error .invalidData

/-- Element loop of `readArray`.  The loop ticks the fuel as well, keeping
the recursion structural; `decodeValue`'s `input.length + 1` budget is shown
sufficient by the roundtrip lemmas. -/
def readItemsF : Nat → Nat → List Nat → Except DecodeError (List JSValue × List Nat)
  | 0, _, _ => .error .invalidData
  | _ + 1, 0, l => .ok ([], l)
  | fuel + 1, n + 1, l => do
    let (v, r1) ← readValueF fuel l
    let (vs, r2) ← readItemsF fuel n r1
    .ok (v :: vs, r2)

/-- Entry loop of `readObject` (literal / common keys). -/
def readEntriesF : Nat → Nat → List (List Nat × JSValue) → List Nat →
    Except DecodeError (List (List Nat × JSValue) × List Nat)
  | 0, _, _, _ => .error .invalidData
  | _ + 1, 0, acc, l => .ok (acc, l)
  | fuel + 1, n + 1, acc, l => do
    let (k, r1) ← readKeyString l
    let (v, r2) ← readValueF fuel r1
    readEntriesF fuel n (objInsert acc k v) r2

end

mutual

/-- `readValueWithKeyTable`: the eager decoder with object keys read as
varint indexes into the message key table. -/
def readValueKTF : Nat → List (List Nat) → List Nat →
    Except DecodeError (JSValue × List Nat)
  | 0, _, _ => .error .invalidData
  | fuel + 1, keyTable, l => do
    let (tag, r1) ← readUint8 l
    if tag = TYPE_TAG.NULL then .ok (.null, r1)
    else if tag = TYPE_TAG.FALSE then .ok (.bool false, r1)
    else if tag = TYPE_TAG.TRUE then .ok (.bool true, r1)
    else if tag = TYPE_TAG.INT8 then do
      let (n, r2) ← readInt8 r1
      .ok (.num (.int n), r2)
    else if tag = TYPE_TAG.INT16 then do
      let (n, r2) ← readInt16 r1
      .ok (.num (.int n), r2)
    else if tag = TYPE_TAG.INT32 then do
      let (n, r2) ← readInt32 r1
      .ok (.num (.int n), r2)
    else if tag = TYPE_TAG.INT64 then do
      let (n, r2) ← readBigInt64 r1
      .ok (.num (.int (jsToNumberInt n)), r2)
    else if tag = TYPE_TAG.UINT8 then do
      let (n, r2) ← readUint8 r1
      .ok (.num (.int n), r2)
    else if tag = TYPE_TAG.UINT16 then do
      let (n, r2) ← readUint16 r1
      .ok (.num (.int n), r2)
    else if tag = TYPE_TAG.UINT32 then do
      let (n, r2) ← readUint32 r1
      .ok (.num (.int n), r2)
    else if tag = TYPE_TAG.FLOAT32 then do
      let (n, r2) ← readFloat32 r1
      .ok (.num n, r2)
    else if tag = TYPE_TAG.FLOAT64 then do
      let (n, r2) ← readFloat64 r1
      .ok (.num n, r2)
    else if tag = TYPE_TAG.STRING_EMPTY ∨ tag = TYPE_TAG.STRING_SHORT ∨
        tag = TYPE_TAG.STRING_MEDIUM ∨ tag = TYPE_TAG.STRING_LONG then do
      let (s, r2) ← readString tag r1
      .ok (.str s, r2)
    else if tag = TYPE_TAG.ARRAY_EMPTY then .ok (.arr [], r1)
    else if tag = TYPE_TAG.ARRAY_SHORT then do
      let (len, r2) ← readUint8 r1
      let (items, r3) ← readItemsKTF fuel keyTable len r2
      .ok (.arr items, r3)
    else if tag = TYPE_TAG.ARRAY_MEDIUM then do
      let (len, r2) ← readUint16 r1
      let (items, r3) ← readItemsKTF fuel keyTable len r2
      .ok (.arr items, r3)
    else if tag = TYPE_TAG.ARRAY_LONG then do
      let (len, r2) ← readUint32 r1
      let (items, r3) ← readItemsKTF fuel keyTable len r2
      .ok (.arr items, r3)
    else if tag = TYPE_TAG.OBJECT_EMPTY then .ok (.obj [], r1)
    else if tag = TYPE_TAG.OBJECT_SHORT then do
      let (cnt, r2) ← readUint8 r1
      let (entries, r3) ← readEntriesKTF fuel keyTable cnt [] r2
      .ok (.obj entries, r3)
    else if tag = TYPE_TAG.OBJECT_MEDIUM then do
      let (cnt, r2) ← readUint16 r1
      let (entries, r3) ← readEntriesKTF fuel keyTable cnt [] r2
      .ok (.obj entries, r3)
    else if tag = TYPE_TAG.OBJECT_LONG then do
      let (cnt, r2) ← readUint32 r1
      let (entries, r3) ← readEntriesKTF fuel keyTable cnt [] r2
      .ok (.obj entries, r3)
    else .error .invalidData

def readItemsKTF : Nat → List (List Nat) → Nat → List Nat →
    Except DecodeError (List JSValue × List Nat)
  | 0, _, _, _ => .error .invalidData
  | _ + 1, _, 0, l => .ok ([], l)
  | fuel + 1, keyTable, n + 1, l => do
    let (v, r1) ← readValueKTF fuel keyTable l
    let (vs, r2) ← readItemsKTF fuel keyTable n r1
    .ok (v :: vs, r2)

/-- Entry loop of `readObjectWithKeyTable`: `keyIndex >= keyTable.length`
throws; a negative index (unreachable on encoder output, where indexes are
small non-negative varints) would evaluate to an `undefined` table slot in
JavaScript and is modelled as a decode error. -/
def readEntriesKTF : Nat → List (List Nat) → Nat → List (List Nat × JSValue) →
    List Nat → Except DecodeError (List (List Nat × JSValue) × List Nat)
  | 0, _, _, _, _ => .error .invalidData
  | _ + 1, _, 0, acc, l => .ok (acc, l)
  | fuel + 1, keyTable, n + 1, acc, l => do
    let (keyIndex, r1) ← readVarint l
    if (keyTable.length : Int) ≤ keyIndex then .error .invalidData
    else
      match keyIndex with
      | .ofNat i =>
        match keyTable.get? i with
        | some k => do
          let (v, r2) ← readValueKTF fuel keyTable r1
          readEntriesKTF fuel keyTable n (objInsert acc k v) r2
        | none => .error .invalidData
      | .negSucc _ => .error .invalidData

end

/-- `readHeader`: four magic bytes compared element-wise, then the version
byte, rejected above `FORMAT_VERSION`. -/
def readHeader (l : List Nat) : Except DecodeError (Nat × List Nat) := do
  let (magic, r1) ← readBytes 4 l
  if magic = MAGIC_NUMBER then do
    let (version, r2) ← readUint8 r1
    if FORMAT_VERSION < version then .error .invalidData
    else .ok (version, r2)
  else .error .invalidData

/-- `decodeValue`: header sniffing (magic, magic + string table, bare string
table), then the matching eager read.  Trailing bytes are ignored, as in the
source. -/
def decodeValue (data : List Nat) (options : ResolvedDecodeOptions) :
    Except DecodeError JSValue :=
  let fuel := data.length + 1
  if options.expectHeader then do
    let (firstByte, r1) ← readUint8 data
    if firstByte = 0x42 then do
      let (b1, r2) ← readUint8 r1
      let (b2, r3) ← readUint8 r2
      let (b3, r4) ← readUint8 r3
      if b1 = 0x4F ∧ b2 = 0x4F ∧ b3 = 0x4E then do
        let (versionOrTag, r5) ← readUint8 r4
        if versionOrTag = TYPE_TAG.HEADER_WITH_STRING_TABLE then do
          let (keyTable, r6) ← readStringTable r5
          let (v, _) ← readValueKTF fuel keyTable r6
          .ok v
        else if FORMAT_VERSION < versionOrTag then .error .invalidData
        else do
          let (v, _) ← readValueF fuel r5
          .ok v
      else .error .invalidData
    else if firstByte = TYPE_TAG.HEADER_WITH_STRING_TABLE then do
      let (keyTable, r2) ← readStringTable r1
      let (v, _) ← readValueKTF fuel keyTable r2
      .ok v
    else .error .invalidData
  else do
    let (v, _) ← readValueF fuel data
    .ok v

/-! ### Streaming decoder (decode/stream.ts) -/

inductive BoonStreamEvent where
  | header (version : Nat)
  | startObject (keyCount : Nat)
  | endObject
  | startArray (length : Nat)
  | endArray
  | key (k : List Nat)
  | primitive (v : JSValue)

/-- `readHeaderEvents`: magic bytes, then either the string-table header
(version check, key count, keys — consumed before any structural event) or
the plain version byte; returns the header event and the optional key table. -/
def readHeaderEvents (l : List Nat) :
    Except DecodeError ((List BoonStreamEvent × Option (List (List Nat))) × List Nat) := do
  let (magic, r1) ← readBytes 4 l
  if magic = MAGIC_NUMBER then do
    let (firstByte, r2) ← readUint8 r1
    if firstByte = TYPE_TAG.HEADER_WITH_STRING_TABLE then do
      let (version, r3) ← readUint8 r2
      if FORMAT_VERSION < version then .error .invalidData
      else do
        let (keyCount, r4) ← readVarint r3
        let (keys, r5) ← readStringTableKeys keyCount.toNat r4
        .ok (([.header version], some keys), r5)
    else
      if FORMAT_VERSION < firstByte then .error .invalidData
      else .ok (([.header firstByte], none), r2)
  else .error .invalidData

mutual

/-- `streamValue`: emits the events of one value; containers bracket their
children with start/end events; object keys resolve through the optional key
table (an `undefined` table slot throws). -/
def streamValueF : Nat → Option (List (List Nat)) → List Nat →
    Except DecodeError (List BoonStreamEvent × List Nat)
  | 0, _, _ => .error .invalidData
  | fuel + 1, keyTable, l => do
    let (tag, r1) ← readUint8 l
    if tag = TYPE_TAG.NULL then .ok ([.primitive .null], r1)
    else if tag = TYPE_TAG.FALSE then .ok ([.primitive (.bool false)], r1)
    else if tag = TYPE_TAG.TRUE then .ok ([.primitive (.bool true)], r1)
    else if tag = TYPE_TAG.INT8 then do
      let (n, r2) ← readInt8 r1
      .ok ([.primitive (.num (.int n))], r2)
    else if tag = TYPE_TAG.INT16 then do
      let (n, r2) ← readInt16 r1
      .ok ([.primitive (.num (.int n))], r2)
    else if tag = TYPE_TAG.INT32 then do
      let (n, r2) ← readInt32 r1
      .ok ([.primitive (.num (.int n))], r2)
    else if tag = TYPE_TAG.INT64 then do
      let (n, r2) ← readBigInt64 r1
      .ok ([.primitive (.num (.int (jsToNumberInt n)))], r2)
    else if tag = TYPE_TAG.UINT8 then do
      let (n, r2) ← readUint8 r1
      .ok ([.primitive (.num (.int n))], r2)
    else if tag = TYPE_TAG.UINT16 then do
      let (n, r2) ← readUint16 r1
      .ok ([.primitive (.num (.int n))], r2)
    else if tag = TYPE_TAG.UINT32 then do
      let (n, r2) ← readUint32 r1
      .ok ([.primitive (.num (.int n))], r2)
    else if tag = TYPE_TAG.FLOAT32 then do
      let (n, r2) ← readFloat32 r1
      .ok ([.primitive (.num n)], r2)
    else if tag = TYPE_TAG.FLOAT64 then do
      let (n, r2) ← readFloat64 r1
      .ok ([.primitive (.num n)], r2)
    else if tag = TYPE_TAG.STRING_EMPTY ∨ tag = TYPE_TAG.STRING_SHORT ∨
        tag = TYPE_TAG.STRING_MEDIUM ∨ tag = TYPE_TAG.STRING_LONG then do
      let (s, r2) ← readString tag r1
      .ok ([.primitive (.str s)], r2)
    else if tag = TYPE_TAG.ARRAY_EMPTY then .ok ([.startArray 0, .endArray], r1)
    else if tag = TYPE_TAG.ARRAY_SHORT then do
      let (len, r2) ← readUint8 r1
      let (evs, r3) ← streamItemsF fuel keyTable len r2
      .ok (.startArray len :: evs ++ [.endArray], r3)
    else if tag = TYPE_TAG.ARRAY_MEDIUM then do
      let (len, r2) ← readUint16 r1
      let (evs, r3) ← streamItemsF fuel keyTable len r2
      .ok (.startArray len :: evs ++ [.endArray], r3)
    else if tag = TYPE_TAG.ARRAY_LONG then do
      let (len, r2) ← readUint32 r1
      let (evs, r3) ← streamItemsF fuel keyTable len r2
      .ok (.startArray len :: evs ++ [.endArray], r3)
    else if tag = TYPE_TAG.OBJECT_EMPTY then .ok ([.startObject 0, .endObject], r1)
    else if tag = TYPE_TAG.OBJECT_SHORT then do
      let (cnt, r2) ← readUint8 r1
      let (evs, r3) ← streamEntriesF fuel keyTable cnt r2
      .ok (.startObject cnt :: evs ++ [.endObject], r3)
    else if tag = TYPE_TAG.OBJECT_MEDIUM then do
      let (cnt, r2) ← readUint16 r1
      let (evs, r3) ← streamEntriesF fuel keyTable cnt r2
      .ok (.startObject cnt :: evs ++ [.endObject], r3)
    else if tag = TYPE_TAG.OBJECT_LONG then do
      let (cnt, r2) ← readUint32 r1
      let (evs, r3) ← streamEntriesF fuel keyTable cnt r2
      .ok (.startObject cnt :: evs ++ [.endObject], r3)
    else .error .invalidData

def streamItemsF : Nat → Option (List (List Nat)) → Nat → List Nat →
    Except DecodeError (List BoonStreamEvent × List Nat)
  | 0, _, _, _ => .error .invalidData
  | _ + 1, _, 0, l => .ok ([], l)
  | fuel + 1, keyTable, n + 1, l => do
    let (evs, r1) ← streamValueF fuel keyTable l
    let (rest, r2) ← streamItemsF fuel keyTable n r1
    .ok (evs ++ rest, r2)

def streamEntriesF : Nat → Option (List (List Nat)) → Nat → List Nat →
    Except DecodeError (List BoonStreamEvent × List Nat)
  | 0, _, _, _ => .error .invalidData
  | _ + 1, _, 0, l => .ok ([], l)
  | fuel + 1, keyTable, n + 1, l => do
    let (k, r1) ←
      match keyTable with
      | some table => do
        let (keyIndex, r) ← readVarint l
        match keyIndex with
        | .ofNat i =>
          match table.get? i with
          | some k => (.ok (k, r) : Except DecodeError (List Nat × List Nat))
          | none => .error .invalidData
        | .negSucc _ => .error .invalidData
      | none => readKeyString l
    let (evs, r2) ← streamValueF fuel keyTable r1
    let (rest, r3) ← streamEntriesF fuel keyTable n r2
    .ok (.key k :: evs ++ rest, r3)

end

/-- `decodeStreamSync`: optional header events (with key table consumption),
then the value events; the generator run to completion is its event list. -/
def decodeStreamSync (data : List Nat) (options : ResolvedDecodeOptions) :
    Except DecodeError (List BoonStreamEvent) :=
  let fuel := data.length + 1
  if options.expectHeader then do
    let ((headerEvs, keyTable), r1) ← readHeaderEvents data
    let (evs, _) ← streamValueF fuel keyTable r1
    .ok (headerEvs ++ evs)
  else do
    let (evs, _) ← streamValueF fuel none data
    .ok evs

/-! ### BOON v2 simplified codec (the second half of shared/buffer.ts) -/

namespace V2

/-- `encodeVarint` (LEB128 over BigInt): emit `n & 0x7F` with the high bit
set whenever more bytes follow.  (The source throws on negative input; all
call sites pass non-negative values, and the embedding takes `Nat`.) -/
def encodeVarint (n : Nat) : List Nat :=
  if n / 128 = 0 then [n % 128]
  else (n % 128 + 128) :: encodeVarint (n / 128)
decreasing_by
  simp_wf
  exact Nat.div_lt_self (by omega) (by omega)

/-- `encodeZigzagVarint`: `zigzag = value >= 0 ? value * 2 : -value * 2 - 1`,
then unsigned varint.  (The doubling is exact for the magnitudes the encoder
admits, `|value| ≤ 2 ^ 52`.) -/
def encodeZigzagVarint (value : Int) : List Nat :=
  let zigzag : Int := if 0 ≤ value then value * 2 else -value * 2 - 1
  encodeVarint zigzag.toNat

/-- The v2 `readVarint` loop: a BigInt accumulator (`result |= BigInt(byte &
0x7F) << shift`, exact), the `shift > 63` length guard, and the final
`Number(result)` conversion.  Running off the buffer is `TruncatedData`. -/
def readVarintLoop : List Nat → Nat → Nat → Except DecodeError (Nat × List Nat)
  | [], _, _ => .error .truncated
  | b :: rest, result, shift =>
    let result := result ||| ((b % 128) * 2 ^ shift)
    if b &&& 0x80 = 0 then .ok (jsToNumberNat result, rest)
    else if 63 < shift + 7 then .error .invalidData
    else readVarintLoop rest result (shift + 7)

def readVarint (l : List Nat) : Except DecodeError (Nat × List Nat) :=
  readVarintLoop l 0 0

/-- `readZigzag`: `half = Math.floor(n / 2)` (exact here since `n ≤ 2 ^ 53`
on decodable data), negated and shifted for odd `n`. -/
def readZigzag (l : List Nat) : Except DecodeError (Int × List Nat) := do
  let (n, rest) ← readVarint l
  let half := n / 2
  .ok (if n % 2 = 0 then (half : Int) else -((half : Int) + 1), rest)

end V2

/-! ### Well-formedness of abstract JSON values

`isJson` carves the JSON fragment out of the runtime value type (no
`undefined`, no non-JSON primitives).  `wfValue` additionally restricts to
the abstract model of the spec: safe integers, finite non-integral float
patterns in canonical position, Unicode scalar strings, unique object keys —
plus size bounds under which the fixed-width length fields and the four-byte
varint writer are exact (lengths below `2 ^ 32`, key byte lengths below
`2 ^ 28`). -/

mutual

def isJson : JSValue → Bool
  | .undef => false
  | .other _ => false
  | .null => true
  | .bool _ => true
  | .num _ => true
  | .str _ => true
  | .arr items => isJsonList items
  | .obj entries => isJsonEntries entries

def isJsonList : List JSValue → Bool
  | [] => true
  | v :: vs => isJson v && isJsonList vs

def isJsonEntries : List (List Nat × JSValue) → Bool
  | [] => true
  | (_, v) :: es => isJson v && isJsonEntries es

end

/-- A well-formed number of the abstract model: a safe integer, or a finite
non-integral double bit pattern. -/
def wfNum : JSNumber → Bool
  | .int n => decide (-(2 ^ 53 - 1) ≤ n ∧ n ≤ 2 ^ 53 - 1)
  | .float b =>
    decide (b < 2 ^ 64) && !(decide (f64Exp b = 2047)) && !(f64IsFiniteIntegral b)

/-- A well-formed string: Unicode scalar values only. -/
def wfStr (s : List Nat) : Bool :=
  s.all (fun c => decide (ValidScalar c))

/-- A well-formed object key: scalar values, UTF-8 length at most 127 (the
single-byte literal length range; longer keys hit the marker/common-key
collision recorded at claim C1). -/
def wfKey (k : List Nat) : Bool :=
  wfStr k && decide ((utf8Encode k).length ≤ 127)

mutual

def wfValue : JSValue → Bool
  | .undef => false
  | .other _ => false
  | .null => true
  | .bool _ => true
  | .num n => wfNum n
  | .str s => wfStr s && decide ((utf8Encode s).length < 2 ^ 32)
  | .arr items => decide (items.length < 2 ^ 32) && wfList items
  | .obj entries =>
    decide (entries.length < 2 ^ 32) && decide ((entries.map Prod.fst).Nodup) &&
      wfEntries entries

def wfList : List JSValue → Bool
  | [] => true
  | v :: vs => wfValue v && wfList vs

def wfEntries : List (List Nat × JSValue) → Bool
  | [] => true
  | (k, v) :: es => wfKey k && wfValue v && wfEntries es

end

/-! ### Flattening a value tree into the streaming event alphabet

The event sequence a tree corresponds to (spec §4.5): containers bracket
their children, `key` precedes its value's events, children appear in
encoded order. -/

mutual

def flattenValue : JSValue → List BoonStreamEvent
  | .null => [.primitive .null]
  | .bool b => [.primitive (.bool b)]
  | .num n => [.primitive (.num n)]
  | .str s => [.primitive (.str s)]
  | .arr items => .startArray items.length :: (flattenList items ++ [.endArray])
  | .obj entries => .startObject entries.length :: (flattenEntries entries ++ [.endObject])
  | .undef => []
  | .other _ => []

def flattenList : List JSValue → List BoonStreamEvent
  | [] => []
  | v :: vs => flattenValue v ++ flattenList vs

def flattenEntries : List (List Nat × JSValue) → List BoonStreamEvent
  | [] => []
  | (k, v) :: es => .key k :: (flattenValue v ++ flattenEntries es)

end

/-! ### The string-table decision as claim C4 states it

Modelled from the spec sentence: per distinct key, `occurrences × (1 +
byteLength)` is the no-table cost; the table cost is the one-time cost
(header plus, per distinct key, varint length plus key bytes) plus
`occurrences × varintIndexSize`; table mode is chosen exactly when the
projected savings are positive, unless more than half of the distinct keys
occur exactly once.  (`10` is the header constant the code itself uses for
the one-time cost.) -/

def specClaimedSavings (v : JSValue) : Int :=
  let keys := collectKeys v []
  let noTableCost : Nat :=
    (keys.map (fun k => countKey k v * (1 + (utf8Encode k).length))).sum
  let tableOneTime : Nat :=
    10 + (keys.map (fun k =>
      (writeVarint (utf8Encode k).length).length + (utf8Encode k).length)).sum
  let tableIndexCost : Nat :=
    ((List.range keys.length).map (fun i =>
      countKey (keys.getD i []) v * (writeVarint i).length)).sum
  (noTableCost : Int) - (tableOneTime : Int) - (tableIndexCost : Int)

def specTableDecision (v : JSValue) : Bool :=
  let keys := collectKeys v []
  let singleUseKeys := (keys.filter (fun k => countKey k v = 1)).length
  decide (0 < specClaimedSavings v) && !(decide (2 * singleUseKeys > keys.length))

/-- The byte at offset 4 of an encoder result: the version byte `1` of the
plain header, or the string-table tag `0x60` when the header is followed by
the per-message key table. -/
def headerByteAfterMagic (r : Except EncodeError (List Nat)) : Option Nat :=
  match r with
  | .ok bytes => bytes.get? 4
  | .error _ => none

/-! ## Basic lemmas -/

attribute [simp] TYPE_TAG.NULL TYPE_TAG.FALSE TYPE_TAG.TRUE TYPE_TAG.INT8
  TYPE_TAG.INT16 TYPE_TAG.INT32 TYPE_TAG.INT64 TYPE_TAG.UINT8 TYPE_TAG.UINT16
  TYPE_TAG.UINT32 TYPE_TAG.FLOAT32 TYPE_TAG.FLOAT64 TYPE_TAG.STRING_EMPTY
  TYPE_TAG.STRING_SHORT TYPE_TAG.STRING_MEDIUM TYPE_TAG.STRING_LONG
  TYPE_TAG.ARRAY_EMPTY TYPE_TAG.ARRAY_SHORT TYPE_TAG.ARRAY_MEDIUM
  TYPE_TAG.ARRAY_LONG TYPE_TAG.OBJECT_EMPTY TYPE_TAG.OBJECT_SHORT
  TYPE_TAG.OBJECT_MEDIUM TYPE_TAG.OBJECT_LONG TYPE_TAG.HEADER_WITH_STRING_TABLE
  FORMAT_VERSION COMMON_KEY_MIN COMMON_KEY_MAX MAX_SHORT_LENGTH MAX_MEDIUM_LENGTH

@[simp] theorem ok_bind {ε α β : Type} (a : α) (f : α → Except ε β) :
    (Except.ok a : Except ε α) >>= f = f a := rfl

@[simp] theorem error_bind {ε α β : Type} (e : ε) (f : α → Except ε β) :
    (Except.error e : Except ε α) >>= f = .error e := rfl

/-- Bitwise or acts as addition when the low summand fits below the shifted
one. -/
theorem lor_mul_two_pow {a : Nat} (k b : Nat) (h : a < 2 ^ k) :
    a ||| b * 2 ^ k = a + b * 2 ^ k := by
  apply Nat.eq_of_testBit_eq
  intro i
  rw [Nat.testBit_lor]
  have hbs : b * 2 ^ k = b <<< k := (Nat.shiftLeft_eq b k).symm
  rcases lt_or_ge i k with hik | hik
  · have h1 : (b * 2 ^ k).testBit i = false := by
      rw [hbs, Nat.testBit_shiftLeft]
      simp [show ¬ (i ≥ k) from by omega]
    rw [h1, Bool.or_false, Nat.testBit_to_div_mod, Nat.testBit_to_div_mod]
    have hpow : (2 : Nat) ^ i * 2 ^ (k - i) = 2 ^ k := by
      rw [← pow_add]; congr 1; omega
    have h2 : a + b * 2 ^ k = a + 2 ^ i * (b * 2 ^ (k - i)) := by
      rw [← mul_assoc, mul_comm (2 ^ i) b, mul_assoc, hpow]
    rw [h2, Nat.add_mul_div_left _ _ (Nat.pos_pow_of_pos i (by norm_num))]
    have h3 : b * 2 ^ (k - i) % 2 = 0 := by
      have h4 : (2 : Nat) ^ (k - i) = 2 ^ (k - i - 1) * 2 := by
        rw [← pow_succ]; congr 1; omega
      rw [h4, ← mul_assoc]
      exact Nat.mul_mod_left _ 2
    simp only [decide_eq_decide]
    omega
  · have ha : a.testBit i = false :=
      Nat.testBit_lt_two_pow
        (lt_of_lt_of_le h (Nat.pow_le_pow_right (by norm_num) hik))
    rw [ha, Bool.false_or, hbs, Nat.testBit_shiftLeft, Nat.shiftLeft_eq,
      Nat.testBit_to_div_mod, Nat.testBit_to_div_mod]
    have h3 : (a + b * 2 ^ k) / 2 ^ i = b / 2 ^ (i - k) := by
      have h4 : (2 : Nat) ^ i = 2 ^ k * 2 ^ (i - k) := by
        rw [← pow_add]; congr 1; omega
      rw [h4, ← Nat.div_div_eq_div_mul]
      have h5 : (a + b * 2 ^ k) / 2 ^ k = b := by
        rw [mul_comm, Nat.add_mul_div_left _ _ (Nat.pos_pow_of_pos k (by norm_num)),
          Nat.div_eq_of_lt h]
        omega
      rw [h5]
    rw [h3]
    simp [show i ≥ k from hik]

set_option maxRecDepth 2000 in
/-- On byte values, `b & 0x80` vanishes exactly below 128. -/
theorem land128_iff : ∀ b < 256, (b &&& 128 = 0 ↔ b < 128) := by decide

theorem toInt32_of_lt {n : Nat} (h : n < 2 ^ 31) : toInt32 n = n := by
  unfold toInt32
  rw [Nat.mod_eq_of_lt (by omega)]
  rw [if_pos h]

/-- In the varint accumulation range, the JavaScript or-shift is exact
addition. -/
theorem jsOrShl_add (result b shift : Nat) (h1 : result < 2 ^ shift)
    (h2 : shift ≤ 21) : jsOrShl result b shift = result + b % 128 * 2 ^ shift := by
  unfold jsOrShl
  have hp : (2 : Nat) ^ shift ≤ 2 ^ 21 := Nat.pow_le_pow_right (by norm_num) h2
  have hb : b % 128 ≤ 127 := by omega
  have hx : b % 128 * 2 ^ shift ≤ 127 * 2 ^ 21 := Nat.mul_le_mul hb hp
  rw [Nat.mod_eq_of_lt (show shift < 32 by omega),
    Nat.mod_eq_of_lt (show result < 2 ^ 32 by omega),
    Nat.mod_eq_of_lt (show b % 128 * 2 ^ shift < 2 ^ 32 by omega),
    lor_mul_two_pow shift (b % 128) h1]
  exact Nat.mod_eq_of_lt (by omega)

/-- The fixed-scheme varint roundtrip below `2 ^ 28` (the writer's exact
range). -/
theorem readVarint_writeVarint (n : Nat) (h : n < 2 ^ 28) (rest : List Nat) :
    readVarint (writeVarint n ++ rest) = .ok ((n : Int), rest) := by
  have hlt : ∀ m : Nat, m < 128 → m &&& 128 = 0 := fun m hm =>
    (land128_iff m (by omega)).mpr hm
  have hge : ∀ m : Nat, 128 ≤ m → m < 256 → ¬ (m &&& 128 = 0) := fun m hm1 hm2 h0 =>
    absurd ((land128_iff m hm2).mp h0) (by omega)
  unfold readVarint writeVarint
  by_cases h1 : n < 128
  · rw [if_pos h1]
    simp only [List.cons_append, List.nil_append]
    unfold readVarintLoop
    rw [jsOrShl_add 0 n 0 (by norm_num) (by norm_num),
      show 0 + n % 128 * 2 ^ 0 = n from by omega]
    simp only [if_pos (hlt n (by omega))]
    rw [toInt32_of_lt (by omega)]
  · rw [if_neg h1]
    by_cases h2 : n < 16384
    · rw [if_pos h2]
      simp only [List.cons_append, List.nil_append]
      unfold readVarintLoop
      rw [jsOrShl_add 0 (n % 128 + 128) 0 (by norm_num) (by norm_num),
        show 0 + (n % 128 + 128) % 128 * 2 ^ 0 = n % 128 from by omega]
      rw [if_neg (hge (n % 128 + 128) (by omega) (by omega))]
      unfold readVarintLoop
      rw [jsOrShl_add (n % 128) (n / 128) 7 (by omega) (by norm_num),
        show n % 128 + n / 128 % 128 * 2 ^ 7 = n from by omega]
      rw [if_pos (hlt (n / 128) (by omega))]
      rw [toInt32_of_lt (by omega)]
    · rw [if_neg h2]
      by_cases h3 : n < 2097152
      · rw [if_pos h3]
        simp only [List.cons_append, List.nil_append]
        unfold readVarintLoop
        rw [jsOrShl_add 0 (n % 128 + 128) 0 (by norm_num) (by norm_num),
          show 0 + (n % 128 + 128) % 128 * 2 ^ 0 = n % 128 from by omega]
        rw [if_neg (hge (n % 128 + 128) (by omega) (by omega))]
        unfold readVarintLoop
        rw [jsOrShl_add (n % 128) ((n / 128) % 128 + 128) 7 (by omega) (by norm_num),
          show n % 128 + (n / 128 % 128 + 128) % 128 * 2 ^ 7 = n % 16384 from by omega]
        rw [if_neg (hge ((n / 128) % 128 + 128) (by omega) (by omega))]
        unfold readVarintLoop
        rw [jsOrShl_add (n % 16384) (n / 16384) 14 (by omega) (by norm_num),
          show n % 16384 + n / 16384 % 128 * 2 ^ 14 = n from by omega]
        rw [if_pos (hlt (n / 16384) (by omega))]
        rw [toInt32_of_lt (by omega)]
      · rw [if_neg h3]
        simp only [List.cons_append, List.nil_append]
        unfold readVarintLoop
        rw [jsOrShl_add 0 (n % 128 + 128) 0 (by norm_num) (by norm_num),
          show 0 + (n % 128 + 128) % 128 * 2 ^ 0 = n % 128 from by omega]
        rw [if_neg (hge (n % 128 + 128) (by omega) (by omega))]
        unfold readVarintLoop
        rw [jsOrShl_add (n % 128) ((n / 128) % 128 + 128) 7 (by omega) (by norm_num),
          show n % 128 + (n / 128 % 128 + 128) % 128 * 2 ^ 7 = n % 16384 from by omega]
        rw [if_neg (hge ((n / 128) % 128 + 128) (by omega) (by omega))]
        unfold readVarintLoop
        rw [jsOrShl_add (n % 16384) ((n / 16384) % 128 + 128) 14 (by omega) (by norm_num),
          show n % 16384 + (n / 16384 % 128 + 128) % 128 * 2 ^ 14 = n % 2097152 from by omega]
        rw [if_neg (hge ((n / 16384) % 128 + 128) (by omega) (by omega))]
        unfold readVarintLoop
        rw [jsOrShl_add (n % 2097152) (n / 2097152) 21 (by omega) (by norm_num),
          show n % 2097152 + n / 2097152 % 128 * 2 ^ 21 = n from by omega]
        rw [if_pos (hlt (n / 2097152) (by omega))]
        rw [toInt32_of_lt (by omega)]

theorem natBytesBE_length (w m : Nat) : (natBytesBE w m).length = w := by
  induction w generalizing m with
  | zero => rfl
  | succ w ih => simp [natBytesBE, ih]

theorem foldl_natBytesBE (w : Nat) : ∀ acc m : Nat,
    List.foldl (fun acc b => acc * 256 + b % 256) acc (natBytesBE w m)
      = acc * 2 ^ (8 * w) + m % 2 ^ (8 * w) := by
  induction w with
  | zero => intro acc m; simp [natBytesBE, Nat.mod_one]
  | succ w ih =>
    intro acc m
    simp only [natBytesBE, List.foldl_cons]
    rw [ih]
    have h2 : (2 : Nat) ^ (8 * (w + 1)) = 2 ^ (8 * w) * 256 := by
      rw [show 8 * (w + 1) = 8 * w + 8 by omega, pow_add]
      norm_num
    have h1 : m % 2 ^ (8 * (w + 1)) = m % 2 ^ (8 * w) + 2 ^ (8 * w) * (m / 2 ^ (8 * w) % 256) := by
      rw [h2, Nat.mod_mul]
    have h3 : m / 2 ^ (8 * w) % 256 % 256 = m / 2 ^ (8 * w) % 256 := by omega
    rw [h1, h2, h3]
    ring

theorem natFromBytesBE_natBytesBE (w m : Nat) :
    natFromBytesBE (natBytesBE w m) = m % 2 ^ (8 * w) := by
  unfold natFromBytesBE
  rw [foldl_natBytesBE]
  simp

theorem readBytes_append (l rest : List Nat) :
    readBytes l.length (l ++ rest) = .ok (l, rest) := by
  unfold readBytes
  rw [if_neg (by simp), List.take_left, List.drop_left]

theorem readBytes_natBytes (w m : Nat) (rest : List Nat) :
    readBytes w (natBytesBE w m ++ rest) = .ok (natBytesBE w m, rest) := by
  have h := readBytes_append (natBytesBE w m) rest
  rwa [natBytesBE_length] at h

theorem readUint8_cons (b : Nat) (rest : List Nat) :
    readUint8 (b :: rest) = .ok (b, rest) := rfl

theorem readUint16_natBytes (m : Nat) (rest : List Nat) :
    readUint16 (natBytesBE 2 m ++ rest) = .ok (m % 2 ^ 16, rest) := by
  unfold readUint16
  rw [readBytes_natBytes]
  simp only [ok_bind, natFromBytesBE_natBytesBE]

theorem readUint32_natBytes (m : Nat) (rest : List Nat) :
    readUint32 (natBytesBE 4 m ++ rest) = .ok (m % 2 ^ 32, rest) := by
  unfold readUint32
  rw [readBytes_natBytes]
  simp only [ok_bind, natFromBytesBE_natBytesBE]

theorem readInt8_intBytes (n : Int) (h1 : -128 ≤ n) (h2 : n ≤ 127) (rest : List Nat) :
    readInt8 (intBytesBE 1 n ++ rest) = .ok (n, rest) := by
  have hb : natBytesBE 1 (n % 2 ^ 8).toNat = [(n % 2 ^ 8).toNat % 256] := by
    simp [natBytesBE]
  unfold readInt8 intBytesBE
  rw [hb]
  simp only [List.cons_append, List.nil_append, readUint8_cons, ok_bind]
  have hv : toSigned 8 ((n % 2 ^ 8).toNat % 256) = n := by
    unfold toSigned
    split_ifs <;> omega
  rw [hv]

theorem readInt16_intBytes (n : Int) (h1 : -32768 ≤ n) (h2 : n ≤ 32767) (rest : List Nat) :
    readInt16 (intBytesBE 2 n ++ rest) = .ok (n, rest) := by
  unfold readInt16 intBytesBE
  rw [readBytes_natBytes]
  simp only [ok_bind, natFromBytesBE_natBytesBE]
  have hv : toSigned 16 ((n % 2 ^ 16).toNat % 2 ^ (8 * 2)) = n := by
    unfold toSigned
    rw [show (8 : Nat) * 2 = 16 from rfl]
    split_ifs <;> omega
  rw [hv]

theorem readInt32_intBytes (n : Int) (h1 : -2147483648 ≤ n) (h2 : n ≤ 2147483647)
    (rest : List Nat) : readInt32 (intBytesBE 4 n ++ rest) = .ok (n, rest) := by
  unfold readInt32 intBytesBE
  rw [readBytes_natBytes]
  simp only [ok_bind, natFromBytesBE_natBytesBE]
  have hv : toSigned 32 ((n % 2 ^ 32).toNat % 2 ^ (8 * 4)) = n := by
    unfold toSigned
    rw [show (8 : Nat) * 4 = 32 from rfl]
    split_ifs <;> omega
  rw [hv]

theorem readBigInt64_intBytes (n : Int) (h1 : -(2 ^ 63) ≤ n) (h2 : n < 2 ^ 63)
    (rest : List Nat) : readBigInt64 (intBytesBE 8 n ++ rest) = .ok (n, rest) := by
  unfold readBigInt64 intBytesBE
  rw [readBytes_natBytes]
  simp only [ok_bind, natFromBytesBE_natBytesBE]
  have hv : toSigned 64 ((n % 2 ^ 64).toNat % 2 ^ (8 * 8)) = n := by
    unfold toSigned
    rw [show (8 : Nat) * 8 = 64 from rfl]
    split_ifs <;> omega
  rw [hv]

/-- Unsigned stores of in-range non-negative integers write the plain
big-endian bytes. -/
theorem intBytesBE_of_nonneg (w : Nat) (n : Int) (h : 0 ≤ n) :
    intBytesBE w n = natBytesBE w (n.toNat % 2 ^ (8 * w)) := by
  unfold intBytesBE
  congr 1
  have h1 : (2 : Int) ^ (8 * w) = ((2 ^ (8 * w) : Nat) : Int) := by push_cast; ring
  conv_lhs => rw [← Int.toNat_of_nonneg h, h1, ← Int.natCast_mod, Int.toNat_natCast]

theorem jsToNumberNat_of_le {n : Nat} (h : n ≤ 2 ^ 53) : jsToNumberNat n = n := by
  unfold jsToNumberNat
  rw [if_pos h]

theorem jsToNumberInt_exact {n : Int} (h1 : -(2 ^ 53) ≤ n) (h2 : n ≤ 2 ^ 53) :
    jsToNumberInt n = n := by
  unfold jsToNumberInt
  split
  · rw [jsToNumberNat_of_le (by omega)]
    omega
  · rw [jsToNumberNat_of_le (by omega)]
    omega

/-! ### UTF-8 roundtrip -/

theorem utf8Decode_encodeChar (c : Nat) (h : ValidScalar c) (rest : List Nat) :
    utf8Decode (utf8EncodeChar c ++ rest) = c :: utf8Decode rest := by
  obtain ⟨h1, h2⟩ := h
  unfold utf8EncodeChar
  by_cases c1 : c < 0x80
  · rw [if_pos c1]
    simp only [List.cons_append, List.nil_append]
    rw [utf8Decode]
    rw [if_pos c1]
  · rw [if_neg c1]
    by_cases c2 : c < 0x800
    · rw [if_pos c2]
      simp only [List.cons_append, List.nil_append]
      rw [utf8Decode]
      rw [if_neg (by omega), if_neg (by omega), if_pos (by omega), utf8DecodeTwo]
      rw [if_pos (by omega)]
      refine congrArg (· :: utf8Decode rest) ?_
      omega
    · rw [if_neg c2]
      by_cases c3 : c < 0x10000
      · rw [if_pos c3]
        simp only [List.cons_append, List.nil_append]
        rw [utf8Decode]
        rw [if_neg (by omega), if_neg (by omega), if_neg (by omega), if_pos (by omega),
          utf8DecodeThree]
        rw [if_pos (by omega)]
        refine congrArg (· :: utf8Decode rest) ?_
        omega
      · rw [if_neg c3]
        simp only [List.cons_append, List.nil_append]
        rw [utf8Decode]
        rw [if_neg (by omega), if_neg (by omega), if_neg (by omega), if_neg (by omega),
          utf8DecodeFour]
        rw [if_pos (by omega)]
        refine congrArg (· :: utf8Decode rest) ?_
        omega

theorem utf8Decode_encode_append (s : List Nat) (h : wfStr s = true) (rest : List Nat) :
    utf8Decode (utf8Encode s ++ rest) = s ++ utf8Decode rest := by
  induction s with
  | nil => simp only [utf8Encode, List.nil_append]
  | cons c cs ih =>
    have hall := h
    unfold wfStr at hall
    simp only [List.all_cons, Bool.and_eq_true, decide_eq_true_eq] at hall
    obtain ⟨hc, hcs⟩ := hall
    rw [utf8Encode]
    rw [List.append_assoc, utf8Decode_encodeChar c hc]
    rw [ih (show wfStr cs = true from hcs)]
    rfl

theorem utf8Decode_encode (s : List Nat) (h : wfStr s = true) :
    utf8Decode (utf8Encode s) = s := by
  have h2 := utf8Decode_encode_append s h []
  rw [List.append_nil] at h2
  rw [h2]
  have hnil : utf8Decode [] = [] := by rw [utf8Decode]
  rw [hnil, List.append_nil]

/-! ### Lookup lemmas for the key maps -/

theorem lookupIdx_some {l : List (List Nat)} {key : List Nat} :
    ∀ {i j : Nat}, lookupIdx l key i = some j →
      i ≤ j ∧ j - i < l.length ∧ l.get? (j - i) = some key := by
  induction l with
  | nil => intro i j h; simp [lookupIdx] at h
  | cons k ks ih =>
    intro i j h
    unfold lookupIdx at h
    split at h
    · cases h
      refine ⟨le_refl _, by simp, ?_⟩
      simp [*]
    · obtain ⟨ih1, ih2, ih3⟩ := ih h
      refine ⟨by omega, by simp; omega, ?_⟩
      rw [show j - i = (j - (i + 1)) + 1 by omega]
      simpa using ih3

theorem lookupIdx_isSome {l : List (List Nat)} {key : List Nat} (h : key ∈ l) :
    ∀ i, ∃ j, lookupIdx l key i = some j := by
  induction l with
  | nil => simp at h
  | cons k ks ih =>
    intro i
    unfold lookupIdx
    by_cases hk : k = key
    · exact ⟨i, by rw [if_pos hk]⟩
    · rcases List.mem_cons.mp h with h' | h'
      · exact absurd h'.symm hk
      · obtain ⟨j, hj⟩ := ih h' (i + 1)
        exact ⟨j, by rw [if_neg hk]; exact hj⟩

/-! ### v2 varint and zigzag roundtrips -/

theorem v2_encodeVarint_length (k : Nat) : ∀ n, n < 2 ^ (7 * (k + 1)) →
    (V2.encodeVarint n).length ≤ k + 1 := by
  induction k with
  | zero =>
    intro n hn
    unfold V2.encodeVarint
    rw [if_pos (by omega)]
    simp
  | succ k ih =>
    intro n hn
    unfold V2.encodeVarint
    split
    · simp
    · simp only [List.length_cons]
      have hd : n / 128 < 2 ^ (7 * (k + 1)) := by
        have h7 : (2 : Nat) ^ (7 * (k + 2)) = 2 ^ (7 * (k + 1)) * 128 := by
          rw [show 7 * (k + 2) = 7 * (k + 1) + 7 by omega, pow_add]
          norm_num
        rw [h7] at hn
        omega
      have := ih (n / 128) hd
      omega

theorem v2_readVarintLoop_encode (n : Nat) : ∀ acc shift rest, acc < 2 ^ shift →
    shift + 7 * ((V2.encodeVarint n).length - 1) ≤ 63 →
    V2.readVarintLoop (V2.encodeVarint n ++ rest) acc shift
      = .ok (jsToNumberNat (acc + n * 2 ^ shift), rest) := by
  induction n using Nat.strong_induction_on with
  | _ n ih =>
    intro acc shift rest ha hs
    have hlt : ∀ m : Nat, m < 128 → m &&& 128 = 0 := fun m hm =>
      (land128_iff m (by omega)).mpr hm
    have hge : ∀ m : Nat, 128 ≤ m → m < 256 → ¬ (m &&& 128 = 0) := fun m hm1 hm2 h0 =>
      absurd ((land128_iff m hm2).mp h0) (by omega)
    unfold V2.encodeVarint
    by_cases h0 : n / 128 = 0
    · rw [if_pos h0]
      simp only [List.cons_append, List.nil_append]
      unfold V2.readVarintLoop
      rw [lor_mul_two_pow shift (n % 128 % 128) ha]
      rw [if_pos (hlt (n % 128) (by omega))]
      congr 2
      have : n % 128 % 128 = n := by omega
      rw [this]
    · rw [if_neg h0]
      simp only [List.cons_append]
      unfold V2.readVarintLoop
      rw [lor_mul_two_pow shift ((n % 128 + 128) % 128) ha]
      rw [if_neg (hge (n % 128 + 128) (by omega) (by omega))]
      have hlen : (V2.encodeVarint n).length = (V2.encodeVarint (n / 128)).length + 1 := by
        conv_lhs => rw [V2.encodeVarint]
        rw [if_neg h0]
        simp
      have hlen1 : 1 ≤ (V2.encodeVarint (n / 128)).length := by
        unfold V2.encodeVarint
        split <;> simp
      rw [if_neg (show ¬ (63 < shift + 7) by rw [hlen] at hs; omega)]
      rw [ih (n / 128) (by omega) _ (shift + 7) rest
        (by
          have hp : (2 : Nat) ^ (shift + 7) = 2 ^ shift * 128 := by
            rw [pow_add]; norm_num
          have hm : (n % 128 + 128) % 128 ≤ 127 := by omega
          have := Nat.mul_le_mul_right (2 ^ shift) hm
          rw [hp]
          omega)
        (by rw [hlen] at hs; omega)]
      have harg : acc + (n % 128 + 128) % 128 * 2 ^ shift + n / 128 * 2 ^ (shift + 7)
          = acc + n * 2 ^ shift := by
        have hp2 : (2 : Nat) ^ (shift + 7) = 2 ^ shift * 128 := by
          rw [pow_add]; norm_num
        have hmod2 : (n % 128 + 128) % 128 = n % 128 := by omega
        have hdm : n % 128 + 128 * (n / 128) = n := Nat.mod_add_div n 128
        rw [hp2, hmod2]
        conv_rhs => rw [← hdm]
        ring
      rw [harg]

theorem v2_readVarint_encodeVarint (n : Nat) (h : n ≤ 2 ^ 53) (rest : List Nat) :
    V2.readVarint (V2.encodeVarint n ++ rest) = .ok (n, rest) := by
  unfold V2.readVarint
  have hlen : (V2.encodeVarint n).length ≤ 8 :=
    v2_encodeVarint_length 7 n (by norm_num; omega)
  rw [v2_readVarintLoop_encode n 0 0 rest (by norm_num) (by omega)]
  rw [show 0 + n * 2 ^ 0 = n by omega, jsToNumberNat_of_le h]

theorem v2_readZigzag_encodeZigzag (n : Int) (h1 : -(2 ^ 52) ≤ n) (h2 : n ≤ 2 ^ 52)
    (rest : List Nat) :
    V2.readZigzag (V2.encodeZigzagVarint n ++ rest) = .ok (n, rest) := by
  unfold V2.encodeZigzagVarint V2.readZigzag
  have hz : ((if 0 ≤ n then n * 2 else -n * 2 - 1).toNat : Nat) ≤ 2 ^ 53 := by
    split <;> omega
  rw [v2_readVarint_encodeVarint _ hz]
  simp only [ok_bind, Except.ok.injEq, Prod.mk.injEq]
  exact ⟨by split_ifs <;> omega, trivial⟩

/-! ### Exact float32 widening roundtrip -/

theorem f64_decompose (b : Nat) (hb : b < 2 ^ 64) :
    b = f64Sign b * 2 ^ 63 + f64Exp b * 2 ^ 52 + f64Man b := by
  unfold f64Sign f64Exp f64Man
  omega

/-- Widening the binary32 image of an exactly-representable double recovers
the double. -/
theorem f32ToF64_f64ToF32 (b : Nat) (hb : b < 2 ^ 64) (hx : isF32Exact b = true) :
    f32ToF64 (f64ToF32 b) = b := by
  have hs : f64Sign b < 2 := by unfold f64Sign; omega
  have hm : f64Man b < 2 ^ 52 := by unfold f64Man; omega
  have hdec := f64_decompose b hb
  unfold isF32Exact at hx
  unfold f64ToF32
  simp only at hx ⊢
  by_cases he1 : f64Exp b = 2047
  · rw [if_pos he1] at hx ⊢
    have hm0 : f64Man b = 0 := by simpa using hx
    unfold f32ToF64
    simp only
    rw [show (f64Sign b * 2 ^ 31 + 255 * 2 ^ 23) / 2 ^ 31 % 2 = f64Sign b by omega,
      show (f64Sign b * 2 ^ 31 + 255 * 2 ^ 23) / 2 ^ 23 % 256 = 255 by omega,
      show (f64Sign b * 2 ^ 31 + 255 * 2 ^ 23) % 2 ^ 23 = 0 by omega]
    rw [if_pos rfl]
    omega
  · rw [if_neg he1] at hx ⊢
    by_cases he0 : f64Exp b = 0
    · rw [if_pos he0] at hx ⊢
      have hm0 : f64Man b = 0 := by simpa using hx
      unfold f32ToF64
      simp only
      rw [show f64Sign b * 2 ^ 31 / 2 ^ 31 % 2 = f64Sign b by omega,
        show f64Sign b * 2 ^ 31 / 2 ^ 23 % 256 = 0 by omega,
        show f64Sign b * 2 ^ 31 % 2 ^ 23 = 0 by omega]
      norm_num
      omega
    · rw [if_neg he0] at hx ⊢
      by_cases hen : 897 ≤ f64Exp b ∧ f64Exp b ≤ 1150
      · rw [if_pos hen] at hx
        have hm29 : f64Man b % 2 ^ 29 = 0 := by simpa using hx
        have hrange : 1 ≤ f64Exp b - 896 ∧ f64Exp b - 896 ≤ 254 := by omega
        have hq : f64Man b / 2 ^ 29 < 2 ^ 23 := by omega
        rw [if_pos (show 897 ≤ f64Exp b from hen.1)]
        unfold f32ToF64
        simp only
        rw [show (f64Sign b * 2 ^ 31 + (f64Exp b - 896) * 2 ^ 23 + f64Man b / 2 ^ 29) / 2 ^ 31 % 2
              = f64Sign b by omega,
          show (f64Sign b * 2 ^ 31 + (f64Exp b - 896) * 2 ^ 23 + f64Man b / 2 ^ 29) / 2 ^ 23 % 256
              = f64Exp b - 896 by omega,
          show (f64Sign b * 2 ^ 31 + (f64Exp b - 896) * 2 ^ 23 + f64Man b / 2 ^ 29) % 2 ^ 23
              = f64Man b / 2 ^ 29 by omega]
        rw [if_neg (by omega), if_neg (by omega)]
        omega
      · rw [if_neg hen] at hx
        by_cases hes : 874 ≤ f64Exp b ∧ f64Exp b ≤ 896
        · rw [if_pos hes] at hx
          have hdvd : f64Man b % 2 ^ (926 - f64Exp b) = 0 := by simpa using hx
          rw [if_neg (show ¬ 897 ≤ f64Exp b by omega)]
          have hTD : (2 : Nat) ^ (f64Exp b - 874) * 2 ^ (926 - f64Exp b) = 2 ^ 52 := by
            rw [← pow_add]
            congr 1
            omega
          have hDpos : 0 < (2 : Nat) ^ (926 - f64Exp b) := Nat.pos_pow_of_pos _ (by norm_num)
          have hdivlt : f64Man b / 2 ^ (926 - f64Exp b) < 2 ^ (f64Exp b - 874) := by
            rw [Nat.div_lt_iff_lt_mul hDpos]
            calc f64Man b < 2 ^ 52 := hm
              _ = 2 ^ (f64Exp b - 874) * 2 ^ (926 - f64Exp b) := hTD.symm
          have hTle : (2 : Nat) ^ (f64Exp b - 874) ≤ 2 ^ 22 :=
            Nat.pow_le_pow_right (by norm_num) (by omega)
          have hv32lt : 2 ^ (f64Exp b - 874) + f64Man b / 2 ^ (926 - f64Exp b) < 2 ^ 23 := by
            omega
          have hv32pos : 0 < 2 ^ (f64Exp b - 874) + f64Man b / 2 ^ (926 - f64Exp b) :=
            Nat.lt_of_lt_of_le (Nat.pos_pow_of_pos _ (by norm_num)) (Nat.le_add_right _ _)
          unfold f32ToF64
          simp only
          rw [show (f64Sign b * 2 ^ 31 + (2 ^ (f64Exp b - 874) + f64Man b / 2 ^ (926 - f64Exp b)))
                / 2 ^ 31 % 2 = f64Sign b by omega,
            show (f64Sign b * 2 ^ 31 + (2 ^ (f64Exp b - 874) + f64Man b / 2 ^ (926 - f64Exp b)))
                / 2 ^ 23 % 256 = 0 by omega,
            show (f64Sign b * 2 ^ 31 + (2 ^ (f64Exp b - 874) + f64Man b / 2 ^ (926 - f64Exp b)))
                % 2 ^ 23 = 2 ^ (f64Exp b - 874) + f64Man b / 2 ^ (926 - f64Exp b) by omega]
          rw [if_neg (by norm_num), if_pos rfl, if_neg (by omega)]
          have hlog : Nat.log 2 (2 ^ (f64Exp b - 874) + f64Man b / 2 ^ (926 - f64Exp b))
              = f64Exp b - 874 := by
            apply Nat.log_eq_of_pow_le_of_lt_pow (Nat.le_add_right _ _)
            rw [show f64Exp b - 874 + 1 = (f64Exp b - 873) by omega]
            calc 2 ^ (f64Exp b - 874) + f64Man b / 2 ^ (926 - f64Exp b)
                < 2 ^ (f64Exp b - 874) + 2 ^ (f64Exp b - 874) := by omega
              _ = 2 ^ (f64Exp b - 873) := by
                  rw [show f64Exp b - 873 = (f64Exp b - 874) + 1 by omega, pow_succ]
                  omega
          rw [hlog]
          have hsub : 2 ^ (f64Exp b - 874) + f64Man b / 2 ^ (926 - f64Exp b)
              - 2 ^ (f64Exp b - 874) = f64Man b / 2 ^ (926 - f64Exp b) :=
            Nat.add_sub_cancel_left _ _
          rw [hsub]
          have h52t : 52 - (f64Exp b - 874) = 926 - f64Exp b := by omega
          rw [h52t]
          have hcancel : f64Man b / 2 ^ (926 - f64Exp b) * 2 ^ (926 - f64Exp b) = f64Man b :=
            Nat.div_mul_cancel (Nat.dvd_of_mod_eq_zero hdvd)
          rw [hcancel]
          omega
        · rw [if_neg hes] at hx
          exact absurd hx (by simp)

end Boon

namespace Boon

/-! ### Number writes read back -/

theorem numOfBits_of_not_integral {b : Nat} (h : f64IsFiniteIntegral b = false) :
    numOfBits b = .float b := by
  simp [numOfBits, h]

theorem f64ToF32_lt (b : Nat) (hb : b < 2 ^ 64) (hx : isF32Exact b = true) :
    f64ToF32 b < 2 ^ 32 := by
  have hs : f64Sign b < 2 := by unfold f64Sign; omega
  have hm : f64Man b < 2 ^ 52 := by unfold f64Man; omega
  unfold isF32Exact at hx
  unfold f64ToF32
  simp only at hx ⊢
  by_cases he1 : f64Exp b = 2047
  · rw [if_pos he1]
    omega
  · rw [if_neg he1] at hx ⊢
    by_cases he0 : f64Exp b = 0
    · rw [if_pos he0]
      omega
    · rw [if_neg he0] at hx ⊢
      by_cases hen : 897 ≤ f64Exp b
      · rw [if_pos hen]
        have hcap : f64Exp b ≤ 1150 := by
          by_contra hcon
          rw [if_neg (by omega), if_neg (by omega)] at hx
          simp at hx
        have : f64Man b / 2 ^ 29 < 2 ^ 23 := by omega
        omega
      · rw [if_neg hen]
        have hes : 874 ≤ f64Exp b ∧ f64Exp b ≤ 896 := by
          by_contra hcon
          rw [if_neg (by omega), if_neg (by omega)] at hx
          simp at hx
        have hTD : (2 : Nat) ^ (f64Exp b - 874) * 2 ^ (926 - f64Exp b) = 2 ^ 52 := by
          rw [← pow_add]
          congr 1
          omega
        have hDpos : 0 < (2 : Nat) ^ (926 - f64Exp b) := Nat.pos_pow_of_pos _ (by norm_num)
        have hdivlt : f64Man b / 2 ^ (926 - f64Exp b) < 2 ^ (f64Exp b - 874) := by
          rw [Nat.div_lt_iff_lt_mul hDpos]
          calc f64Man b < 2 ^ 52 := hm
            _ = 2 ^ (f64Exp b - 874) * 2 ^ (926 - f64Exp b) := hTD.symm
        have hTle : (2 : Nat) ^ (f64Exp b - 874) ≤ 2 ^ 22 :=
          Nat.pow_le_pow_right (by norm_num) (by omega)
        omega

theorem readValueF_writeNumber (x : JSNumber) (hwf : wfNum x = true) (fuel : Nat)
    (rest : List Nat) :
    readValueF (fuel + 1) (writeNumber x ++ rest) = .ok (.num x, rest) := by
  cases x with
  | int n =>
    have hn : -(2 ^ 53 - 1) ≤ n ∧ n ≤ 2 ^ 53 - 1 := by
      simpa [wfNum] using hwf
    simp only [writeNumber, writeIntNumber]
    by_cases c1 : INT8_MIN ≤ n ∧ n ≤ INT8_MAX
    · rw [if_pos c1]
      simp only [INT8_MIN, INT8_MAX] at c1
      simp only [List.cons_append, readValueF, readUint8_cons, ok_bind]
      norm_num
      rw [readInt8_intBytes n c1.1 c1.2]
      simp only [ok_bind]
    · rw [if_neg c1]
      simp only [INT8_MIN, INT8_MAX] at c1
      by_cases c2 : INT16_MIN ≤ n ∧ n ≤ INT16_MAX
      · rw [if_pos c2]
        simp only [INT16_MIN, INT16_MAX] at c2
        simp only [List.cons_append, readValueF, readUint8_cons, ok_bind]
        norm_num
        rw [readInt16_intBytes n c2.1 c2.2]
        simp only [ok_bind]
      · rw [if_neg c2]
        simp only [INT16_MIN, INT16_MAX] at c2
        by_cases c3 : INT32_MIN ≤ n ∧ n ≤ INT32_MAX
        · rw [if_pos c3]
          simp only [INT32_MIN, INT32_MAX] at c3
          simp only [List.cons_append, readValueF, readUint8_cons, ok_bind]
          norm_num
          rw [readInt32_intBytes n c3.1 c3.2]
          simp only [ok_bind]
        · rw [if_neg c3]
          simp only [INT32_MIN, INT32_MAX] at c3
          by_cases c4 : 0 ≤ n ∧ n ≤ UINT8_MAX
          · exfalso
            simp only [UINT8_MAX] at c4
            omega
          · rw [if_neg c4]
            by_cases c5 : 0 ≤ n ∧ n ≤ UINT16_MAX
            · exfalso
              simp only [UINT16_MAX] at c5
              omega
            · rw [if_neg c5]
              by_cases c6 : 0 ≤ n ∧ n ≤ UINT32_MAX
              · rw [if_pos c6]
                simp only [UINT32_MAX] at c6
                rw [intBytesBE_of_nonneg 4 n c6.1]
                simp only [List.cons_append, readValueF, readUint8_cons, ok_bind]
                norm_num
                rw [readUint32_natBytes]
                have hv : (((n.toNat % 4294967296) % 2 ^ 32 : Nat) : Int) = n := by
                  omega
                simp only [ok_bind, hv]
              · rw [if_neg c6]
                simp only [UINT32_MAX] at c6
                simp only [List.cons_append, readValueF, readUint8_cons, ok_bind]
                norm_num
                rw [readBigInt64_intBytes n (by omega) (by omega)]
                simp only [ok_bind]
                rw [jsToNumberInt_exact (by omega) (by omega)]
  | float b =>
    have hb : b < 2 ^ 64 ∧ f64Exp b ≠ 2047 ∧ f64IsFiniteIntegral b = false := by
      have h1 := hwf
      unfold wfNum at h1
      simp only [Bool.and_eq_true, Bool.not_eq_true', decide_eq_true_eq,
        decide_eq_false_iff_not] at h1
      exact ⟨h1.1.1, h1.1.2, h1.2⟩
    simp only [writeNumber]
    rw [hb.2.2]
    simp only [Bool.false_eq_true, if_false]
    by_cases hf : isF32Exact b = true
    · rw [hf]
      simp only [if_true]
      simp only [List.cons_append, readValueF, readUint8_cons, ok_bind]
      norm_num
      unfold readFloat32
      rw [readBytes_natBytes]
      simp only [ok_bind, natFromBytesBE_natBytesBE]
      rw [show (2 : Nat) ^ (8 * 4) = 2 ^ 32 from by norm_num,
        Nat.mod_eq_of_lt (f64ToF32_lt b hb.1 hf),
        f32ToF64_f64ToF32 b hb.1 hf, numOfBits_of_not_integral hb.2.2]
    · rw [show isF32Exact b = false from by simpa using hf]
      simp only [Bool.false_eq_true, if_false]
      simp only [List.cons_append, readValueF, readUint8_cons, ok_bind]
      norm_num
      unfold readFloat64
      rw [readBytes_natBytes]
      simp only [ok_bind, natFromBytesBE_natBytesBE]
      rw [show (2 : Nat) ^ (8 * 8) = 2 ^ 64 from by norm_num,
        Nat.mod_eq_of_lt hb.1, numOfBits_of_not_integral hb.2.2]


/-! ### String payload roundtrips -/

theorem readString_empty (l : List Nat) : readString 48 l = .ok ([], l) := rfl

theorem readString_short (bytes rest : List Nat) :
    readString 49 (bytes.length :: (bytes ++ rest)) = .ok (utf8Decode bytes, rest) := by
  unfold readString
  norm_num
  rw [readUint8_cons]
  simp only [ok_bind]
  rw [readBytes_append]
  simp only [ok_bind]

theorem readString_medium (bytes rest : List Nat) (hb : bytes.length < 2 ^ 16) :
    readString 50 (natBytesBE 2 bytes.length ++ (bytes ++ rest)) =
      .ok (utf8Decode bytes, rest) := by
  unfold readString
  norm_num
  rw [readUint16_natBytes]
  simp only [ok_bind]
  rw [Nat.mod_eq_of_lt hb, readBytes_append]
  simp only [ok_bind]

theorem readString_long (bytes rest : List Nat) (hb : bytes.length < 2 ^ 32) :
    readString 51 (natBytesBE 4 bytes.length ++ (bytes ++ rest)) =
      .ok (utf8Decode bytes, rest) := by
  unfold readString
  norm_num
  rw [readUint32_natBytes]
  simp only [ok_bind]
  rw [Nat.mod_eq_of_lt hb, readBytes_append]
  simp only [ok_bind]

theorem readValueF_writeString (s : List Nat) (h : wfStr s = true)
    (hlen : (utf8Encode s).length < 2 ^ 32) (fuel : Nat) (rest : List Nat) :
    readValueF (fuel + 1) (writeString s ++ rest) = .ok (.str s, rest) := by
  by_cases hs : s = []
  · subst hs
    rfl
  · simp only [writeString, if_neg hs]
    by_cases c1 : (utf8Encode s).length ≤ MAX_SHORT_LENGTH
    · rw [if_pos c1]
      simp only [List.cons_append, readValueF, readUint8_cons, ok_bind]
      norm_num
      rw [readString_short]
      simp only [ok_bind]
      rw [utf8Decode_encode s h]
    · rw [if_neg c1]
      simp only [MAX_SHORT_LENGTH] at c1
      by_cases c2 : (utf8Encode s).length ≤ MAX_MEDIUM_LENGTH
      · rw [if_pos c2]
        simp only [MAX_MEDIUM_LENGTH] at c2
        simp only [List.cons_append, List.append_assoc, readValueF, readUint8_cons, ok_bind]
        norm_num
        rw [readString_medium _ _ (by omega)]
        simp only [ok_bind]
        rw [utf8Decode_encode s h]
      · rw [if_neg c2]
        simp only [List.cons_append, List.append_assoc, readValueF, readUint8_cons, ok_bind]
        norm_num
        rw [readString_long _ _ hlen]
        simp only [ok_bind]
        rw [utf8Decode_encode s h]
/-! ### Key-string roundtrip -/

theorem COMMON_KEYS_length : COMMON_KEYS.length = 128 := rfl

set_option maxRecDepth 4000 in
theorem readKeyString_writeKeyString (k : List Nat) (h : wfKey k = true) (rest : List Nat) :
    readKeyString (writeKeyString k ++ rest) = .ok (k, rest) := by
  have hk : wfStr k = true ∧ (utf8Encode k).length ≤ 127 := by
    simpa [wfKey] using h
  cases hck : commonKeyId k with
  | some id =>
    simp only [writeKeyString, hck]
    unfold commonKeyId at hck
    cases hli : lookupIdx COMMON_KEYS k 0 with
    | none => rw [hli] at hck; simp at hck
    | some i =>
      rw [hli] at hck
      simp only [Option.map_some'] at hck
      obtain ⟨-, hi2, hi3⟩ := lookupIdx_some hli
      rw [COMMON_KEYS_length] at hi2
      simp only [Nat.sub_zero] at hi2 hi3
      injection hck with hid
      subst hid
      unfold readKeyString
      simp only [List.cons_append, List.nil_append, readUint8_cons, ok_bind]
      rw [if_pos (by simp only [COMMON_KEY_MIN, COMMON_KEY_MAX]; omega)]
      rw [show 128 + i - COMMON_KEY_MIN = i from by simp only [COMMON_KEY_MIN]; omega, hi3]
  | none =>
    simp only [writeKeyString, hck]
    rw [if_pos hk.2]
    unfold readKeyString
    simp only [List.cons_append, readUint8_cons, ok_bind]
    rw [if_neg (by simp only [COMMON_KEY_MIN, COMMON_KEY_MAX]; omega)]
    rw [if_neg (by omega), if_neg (by omega)]
    rw [readBytes_append]
    simp only [ok_bind]
    rw [utf8Decode_encode k hk.1]

/-! ### Encoder outputs are never empty -/

theorem writeIntNumber_ne_nil (n : Int) : writeIntNumber n ≠ [] := by
  unfold writeIntNumber
  split_ifs <;> simp

theorem writeNumber_ne_nil (n : JSNumber) : writeNumber n ≠ [] := by
  cases n with
  | int m => exact writeIntNumber_ne_nil m
  | float b =>
    simp only [writeNumber]
    split_ifs
    · exact writeIntNumber_ne_nil _
    · simp
    · simp

theorem writeString_ne_nil (s : List Nat) : writeString s ≠ [] := by
  simp only [writeString]
  split_ifs <;> simp

theorem writeKeyString_ne_nil (k : List Nat) : writeKeyString k ≠ [] := by
  cases hck : commonKeyId k with
  | some id => simp [writeKeyString, hck]
  | none =>
    simp only [writeKeyString, hck]
    split_ifs <;> simp

theorem arrayHeader_ne_nil (n : Nat) : arrayHeader n ≠ [] := by
  unfold arrayHeader
  split_ifs <;> simp

theorem objectHeader_ne_nil (n : Nat) : objectHeader n ≠ [] := by
  unfold objectHeader
  split_ifs <;> simp

theorem writeValue_ok_ne_nil {v : JSValue} {b : List Nat} (h : writeValue v = .ok b) :
    b ≠ [] := by
  cases v with
  | undef => exact absurd h (by rw [writeValue]; simp)
  | other s => exact absurd h (by rw [writeValue]; simp)
  | null =>
    rw [writeValue] at h
    injection h with h
    subst h
    simp
  | bool c =>
    rw [writeValue] at h
    injection h with h
    subst h
    cases c <;> simp
  | num n =>
    rw [writeValue] at h
    injection h with h
    subst h
    exact writeNumber_ne_nil n
  | str s =>
    rw [writeValue] at h
    injection h with h
    subst h
    exact writeString_ne_nil s
  | arr items =>
    rw [writeValue] at h
    by_cases hl : items.length = 0
    · rw [if_pos hl] at h
      injection h with h
      subst h
      simp
    · rw [if_neg hl] at h
      cases hw : writeArrayItems items none with
      | error e => rw [hw] at h; simp at h
      | ok body =>
        rw [hw] at h
        simp only [ok_bind] at h
        injection h with h
        subst h
        intro hnil
        exact arrayHeader_ne_nil items.length (List.append_eq_nil.mp hnil).1
  | obj entries =>
    rw [writeValue] at h
    by_cases hl : entries.length = 0
    · rw [if_pos hl] at h
      injection h with h
      subst h
      simp
    · rw [if_neg hl] at h
      cases hw : writeObjectEntries entries with
      | error e => rw [hw] at h; simp at h
      | ok body =>
        rw [hw] at h
        simp only [ok_bind] at h
        injection h with h
        subst h
        intro hnil
        exact objectHeader_ne_nil entries.length (List.append_eq_nil.mp hnil).1

theorem writeValueWithKeyMap_ok_ne_nil {v : JSValue} {km : List (List Nat)} {b : List Nat}
    (h : writeValueWithKeyMap v km = .ok b) : b ≠ [] := by
  cases v with
  | undef => exact absurd h (by rw [writeValueWithKeyMap]; simp)
  | other s => exact absurd h (by rw [writeValueWithKeyMap]; simp)
  | null =>
    rw [writeValueWithKeyMap] at h
    injection h with h
    subst h
    simp
  | bool c =>
    rw [writeValueWithKeyMap] at h
    injection h with h
    subst h
    cases c <;> simp
  | num n =>
    rw [writeValueWithKeyMap] at h
    injection h with h
    subst h
    exact writeNumber_ne_nil n
  | str s =>
    rw [writeValueWithKeyMap] at h
    injection h with h
    subst h
    exact writeString_ne_nil s
  | arr items =>
    rw [writeValueWithKeyMap] at h
    by_cases hl : items.length = 0
    · rw [if_pos hl] at h
      injection h with h
      subst h
      simp
    · rw [if_neg hl] at h
      cases hw : writeArrayItems items (some km) with
      | error e => rw [hw] at h; simp at h
      | ok body =>
        rw [hw] at h
        simp only [ok_bind] at h
        injection h with h
        subst h
        intro hnil
        exact arrayHeader_ne_nil items.length (List.append_eq_nil.mp hnil).1
  | obj entries =>
    rw [writeValueWithKeyMap] at h
    by_cases hl : entries.length = 0
    · rw [if_pos hl] at h
      injection h with h
      subst h
      simp
    · rw [if_neg hl] at h
      cases hw : writeObjectEntriesKM entries km with
      | error e => rw [hw] at h; simp at h
      | ok body =>
        rw [hw] at h
        simp only [ok_bind] at h
        injection h with h
        subst h
        intro hnil
        exact objectHeader_ne_nil entries.length (List.append_eq_nil.mp hnil).1

/-! ### Container header dispatch (eager decoder) -/

theorem arrayHeader_length (n : Nat) :
    2 ≤ (arrayHeader n).length := by
  unfold arrayHeader
  split_ifs <;> simp [natBytesBE_length]

theorem objectHeader_length (n : Nat) :
    2 ≤ (objectHeader n).length := by
  unfold objectHeader
  split_ifs <;> simp [natBytesBE_length]

theorem readValueF_arrayHeader (f len : Nat) (hlen : len < 2 ^ 32) (body rest : List Nat) :
    readValueF (f + 1) ((arrayHeader len ++ body) ++ rest) =
      readItemsF f len (body ++ rest) >>= fun p => .ok (.arr p.1, p.2) := by
  unfold arrayHeader
  by_cases c1 : len ≤ MAX_SHORT_LENGTH
  · rw [if_pos c1]
    simp only [List.cons_append, List.nil_append, readValueF, readUint8_cons, ok_bind]
    norm_num
  · rw [if_neg c1]
    by_cases c2 : len ≤ MAX_MEDIUM_LENGTH
    · rw [if_pos c2]
      simp only [MAX_MEDIUM_LENGTH] at c2
      simp only [List.cons_append, List.append_assoc, readValueF, readUint8_cons, ok_bind]
      norm_num
      rw [readUint16_natBytes]
      simp only [ok_bind]
      rw [Nat.mod_eq_of_lt (show len < 2 ^ 16 by omega)]
    · rw [if_neg c2]
      simp only [List.cons_append, List.append_assoc, readValueF, readUint8_cons, ok_bind]
      norm_num
      rw [readUint32_natBytes]
      simp only [ok_bind]
      rw [Nat.mod_eq_of_lt hlen]

theorem readValueF_objectHeader (f cnt : Nat) (hcnt : cnt < 2 ^ 32) (body rest : List Nat) :
    readValueF (f + 1) ((objectHeader cnt ++ body) ++ rest) =
      readEntriesF f cnt [] (body ++ rest) >>= fun p => .ok (.obj p.1, p.2) := by
  unfold objectHeader
  by_cases c1 : cnt ≤ MAX_SHORT_LENGTH
  · rw [if_pos c1]
    simp only [List.cons_append, List.nil_append, readValueF, readUint8_cons, ok_bind]
    norm_num
  · rw [if_neg c1]
    by_cases c2 : cnt ≤ MAX_MEDIUM_LENGTH
    · rw [if_pos c2]
      simp only [MAX_MEDIUM_LENGTH] at c2
      simp only [List.cons_append, List.append_assoc, readValueF, readUint8_cons, ok_bind]
      norm_num
      rw [readUint16_natBytes]
      simp only [ok_bind]
      rw [Nat.mod_eq_of_lt (show cnt < 2 ^ 16 by omega)]
    · rw [if_neg c2]
      simp only [List.cons_append, List.append_assoc, readValueF, readUint8_cons, ok_bind]
      norm_num
      rw [readUint32_natBytes]
      simp only [ok_bind]
      rw [Nat.mod_eq_of_lt hcnt]

/-! ### Object insertion on fresh keys -/

theorem objInsert_of_not_mem (acc : List (List Nat × JSValue)) (k : List Nat) (v : JSValue)
    (h : k ∉ acc.map Prod.fst) : objInsert acc k v = acc ++ [(k, v)] := by
  unfold objInsert
  have h' : acc.any (fun e => decide (e.1 = k)) = false := by
    by_contra hany
    rw [Bool.not_eq_false, List.any_eq_true] at hany
    obtain ⟨e, he, hek⟩ := hany
    exact h (List.mem_map.mpr ⟨e, he, of_decide_eq_true hek⟩)
  simp only [h', Bool.false_eq_true, if_false]

/-! ### Eager decoder inverts the plain-key encoder -/

theorem eagerRoundtripAux : ∀ fuel : Nat,
    (∀ (v : JSValue) (b rest : List Nat), wfValue v = true → writeValue v = .ok b →
      b.length < fuel → readValueF fuel (b ++ rest) = .ok (v, rest)) ∧
    (∀ (items : List JSValue) (b rest : List Nat), wfList items = true →
      writeArrayItems items none = .ok b → b.length + 1 < fuel →
      readItemsF fuel items.length (b ++ rest) = .ok (items, rest)) ∧
    (∀ (entries acc : List (List Nat × JSValue)) (b rest : List Nat),
      wfEntries entries = true → (entries.map Prod.fst).Nodup →
      writeObjectEntries entries = .ok b → b.length < fuel →
      (∀ k ∈ entries.map Prod.fst, k ∉ acc.map Prod.fst) →
      readEntriesF fuel entries.length acc (b ++ rest) = .ok (acc ++ entries, rest)) := by
  intro fuel
  induction fuel with
  | zero =>
    exact ⟨fun v b rest _ _ hb => absurd hb (by omega),
      fun items b rest _ _ hb => absurd hb (by omega),
      fun entries acc b rest _ _ _ hb _ => absurd hb (by omega)⟩
  | succ f ih =>
    obtain ⟨ihV, ihI, ihE⟩ := ih
    refine ⟨?_, ?_, ?_⟩
    · intro v b rest hwf hw hb
      cases v with
      | undef => rw [wfValue] at hwf; simp at hwf
      | other s => rw [wfValue] at hwf; simp at hwf
      | null =>
        rw [writeValue] at hw
        injection hw with hw
        subst hw
        rfl
      | bool c =>
        rw [writeValue] at hw
        injection hw with hw
        subst hw
        cases c <;> rfl
      | num n =>
        rw [writeValue] at hw
        injection hw with hw
        subst hw
        rw [wfValue] at hwf
        exact readValueF_writeNumber n hwf f rest
      | str s =>
        rw [writeValue] at hw
        injection hw with hw
        subst hw
        rw [wfValue] at hwf
        simp only [Bool.and_eq_true, decide_eq_true_eq] at hwf
        exact readValueF_writeString s hwf.1 hwf.2 f rest
      | arr items =>
        rw [wfValue] at hwf
        simp only [Bool.and_eq_true, decide_eq_true_eq] at hwf
        rw [writeValue] at hw
        by_cases hl : items.length = 0
        · rw [if_pos hl] at hw
          injection hw with hw
          subst hw
          rw [List.length_eq_zero] at hl
          subst hl
          rfl
        · rw [if_neg hl] at hw
          cases hwi : writeArrayItems items none with
          | error e => rw [hwi] at hw; simp at hw
          | ok body =>
            rw [hwi] at hw
            simp only [ok_bind] at hw
            injection hw with hw
            subst hw
            rw [readValueF_arrayHeader f items.length hwf.1]
            have hlen2 : 2 ≤ (arrayHeader items.length).length := arrayHeader_length _
            simp only [List.length_append] at hb
            rw [ihI items body rest hwf.2 hwi (by omega)]
            rfl
      | obj entries =>
        rw [wfValue] at hwf
        simp only [Bool.and_eq_true, decide_eq_true_eq] at hwf
        rw [writeValue] at hw
        by_cases hl : entries.length = 0
        · rw [if_pos hl] at hw
          injection hw with hw
          subst hw
          rw [List.length_eq_zero] at hl
          subst hl
          rfl
        · rw [if_neg hl] at hw
          cases hwe : writeObjectEntries entries with
          | error e => rw [hwe] at hw; simp at hw
          | ok body =>
            rw [hwe] at hw
            simp only [ok_bind] at hw
            injection hw with hw
            subst hw
            rw [readValueF_objectHeader f entries.length hwf.1.1]
            have hlen2 : 2 ≤ (objectHeader entries.length).length := objectHeader_length _
            simp only [List.length_append] at hb
            rw [ihE entries [] body rest hwf.2 hwf.1.2 hwe (by omega) (by simp)]
            rfl
    · intro items b rest hwl hw hb
      cases items with
      | nil =>
        rw [writeArrayItems] at hw
        injection hw with hw
        subst hw
        rfl
      | cons v vs =>
        rw [wfList] at hwl
        simp only [Bool.and_eq_true] at hwl
        rw [writeArrayItems] at hw
        cases hw1 : writeValue v with
        | error e => rw [hw1] at hw; simp at hw
        | ok vb =>
          rw [hw1] at hw
          simp only [ok_bind] at hw
          cases hw2 : writeArrayItems vs none with
          | error e => rw [hw2] at hw; simp at hw
          | ok rb =>
            rw [hw2] at hw
            simp only [ok_bind] at hw
            injection hw with hw
            subst hw
            have hvb1 : 1 ≤ vb.length := List.length_pos.mpr (writeValue_ok_ne_nil hw1)
            simp only [List.length_append] at hb
            simp only [List.length_cons, readItemsF, List.append_assoc]
            rw [ihV v vb (rb ++ rest) hwl.1 hw1 (by omega)]
            simp only [ok_bind]
            rw [ihI vs rb rest hwl.2 hw2 (by omega)]
            rfl
    · intro entries acc b rest hwe hnd hw hb hdisj
      cases entries with
      | nil =>
        rw [writeObjectEntries] at hw
        injection hw with hw
        subst hw
        show readEntriesF (f + 1) 0 acc ([] ++ rest) = _
        rw [List.append_nil]
        rfl
      | cons e es =>
        obtain ⟨k, v⟩ := e
        rw [wfEntries] at hwe
        simp only [Bool.and_eq_true] at hwe
        simp only [List.map_cons, List.nodup_cons] at hnd
        simp only [List.map_cons, List.mem_cons, forall_eq_or_imp] at hdisj
        rw [writeObjectEntries] at hw
        cases hw1 : writeValue v with
        | error e' => rw [hw1] at hw; simp at hw
        | ok vb =>
          rw [hw1] at hw
          simp only [ok_bind] at hw
          cases hw2 : writeObjectEntries es with
          | error e' => rw [hw2] at hw; simp at hw
          | ok rb =>
            rw [hw2] at hw
            simp only [ok_bind] at hw
            injection hw with hw
            subst hw
            have hvb1 : 1 ≤ vb.length := List.length_pos.mpr (writeValue_ok_ne_nil hw1)
            have hwk1 : 1 ≤ (writeKeyString k).length :=
              List.length_pos.mpr (writeKeyString_ne_nil k)
            simp only [List.length_append] at hb
            simp only [List.length_cons, readEntriesF, List.append_assoc]
            rw [readKeyString_writeKeyString k hwe.1.1]
            simp only [ok_bind]
            rw [ihV v vb (rb ++ rest) hwe.1.2 hw1 (by omega)]
            simp only [ok_bind]
            rw [objInsert_of_not_mem acc k v hdisj.1]
            rw [ihE es (acc ++ [(k, v)]) rb rest hwe.2 hnd.2 hw2 (by omega) (by
              intro k' hk'
              simp only [List.map_append, List.map_cons, List.map_nil, List.mem_append,
                List.mem_singleton]
              push_neg
              exact ⟨hdisj.2 k' hk', fun he => hnd.1 (he ▸ hk')⟩)]
            rw [List.append_assoc]
            rfl

/-! ### collectKeys collects every key in use -/

theorem addKey_self (acc : List (List Nat)) (k : List Nat) : k ∈ addKey acc k := by
  unfold addKey
  split_ifs with h
  · exact h
  · simp

theorem addKey_mono {acc : List (List Nat)} {r : List Nat} (k : List Nat) (h : r ∈ acc) :
    r ∈ addKey acc k := by
  unfold addKey
  split_ifs
  · exact h
  · exact List.mem_append_left _ h

theorem collectKeys_mono_aux : ∀ n : Nat,
    (∀ v : JSValue, sizeOf v ≤ n → ∀ acc r, r ∈ acc → r ∈ collectKeys v acc) ∧
    (∀ items : List JSValue, sizeOf items ≤ n → ∀ acc r, r ∈ acc →
      r ∈ collectKeysList items acc) ∧
    (∀ entries : List (List Nat × JSValue), sizeOf entries ≤ n → ∀ acc r, r ∈ acc →
      r ∈ collectKeysEntries entries acc) := by
  intro n
  induction n with
  | zero =>
    refine ⟨fun v hv => absurd hv ?_, fun items hi => absurd hi ?_,
      fun entries he => absurd he ?_⟩
    · cases v <;> simp
    · cases items <;> simp
    · cases entries <;> simp
  | succ n ih =>
    obtain ⟨ihV, ihI, ihE⟩ := ih
    refine ⟨?_, ?_, ?_⟩
    · intro v hv acc r hr
      cases v with
      | arr items =>
        simp only [JSValue.arr.sizeOf_spec] at hv
        exact ihI items (by omega) acc r hr
      | obj entries =>
        simp only [JSValue.obj.sizeOf_spec] at hv
        exact ihE entries (by omega) acc r hr
      | undef => exact hr
      | null => exact hr
      | bool b => exact hr
      | num m => exact hr
      | str s => exact hr
      | other s => exact hr
    · intro items hi acc r hr
      cases items with
      | nil => exact hr
      | cons v vs =>
        simp only [List.cons.sizeOf_spec] at hi
        exact ihI vs (by omega) _ r (ihV v (by omega) acc r hr)
    · intro entries he acc r hr
      cases entries with
      | nil => exact hr
      | cons e es =>
        obtain ⟨k, v⟩ := e
        simp only [List.cons.sizeOf_spec, Prod.mk.sizeOf_spec] at he
        exact ihE es (by omega) _ r (ihV v (by omega) _ r (addKey_mono k hr))

theorem collectKeys_mono (v : JSValue) (acc : List (List Nat)) (r : List Nat)
    (h : r ∈ acc) : r ∈ collectKeys v acc :=
  (collectKeys_mono_aux (sizeOf v)).1 v le_rfl acc r h

theorem collectKeysList_mono (items : List JSValue) (acc : List (List Nat)) (r : List Nat)
    (h : r ∈ acc) : r ∈ collectKeysList items acc :=
  (collectKeys_mono_aux (sizeOf items)).2.1 items le_rfl acc r h

theorem collectKeysEntries_mono (entries : List (List Nat × JSValue))
    (acc : List (List Nat)) (r : List Nat) (h : r ∈ acc) :
    r ∈ collectKeysEntries entries acc :=
  (collectKeys_mono_aux (sizeOf entries)).2.2 entries le_rfl acc r h

theorem collectKeys_complete_aux : ∀ n : Nat,
    (∀ v : JSValue, sizeOf v ≤ n → ∀ acc k, 0 < countKey k v →
      k ∈ collectKeys v acc) ∧
    (∀ items : List JSValue, sizeOf items ≤ n → ∀ acc k, 0 < countKeyList k items →
      k ∈ collectKeysList items acc) ∧
    (∀ entries : List (List Nat × JSValue), sizeOf entries ≤ n → ∀ acc k,
      0 < countKeyEntries k entries → k ∈ collectKeysEntries entries acc) := by
  intro n
  induction n with
  | zero =>
    refine ⟨fun v hv => absurd hv ?_, fun items hi => absurd hi ?_,
      fun entries he => absurd he ?_⟩
    · cases v <;> simp
    · cases items <;> simp
    · cases entries <;> simp
  | succ n ih =>
    obtain ⟨ihV, ihI, ihE⟩ := ih
    refine ⟨?_, ?_, ?_⟩
    · intro v hv acc k hk
      cases v with
      | arr items =>
        simp only [JSValue.arr.sizeOf_spec] at hv
        exact ihI items (by omega) acc k hk
      | obj entries =>
        simp only [JSValue.obj.sizeOf_spec] at hv
        exact ihE entries (by omega) acc k hk
      | undef => exact absurd hk (by have h0 : countKey k .undef = 0 := rfl; omega)
      | null => exact absurd hk (by have h0 : countKey k .null = 0 := rfl; omega)
      | bool b => exact absurd hk (by have h0 : countKey k (.bool b) = 0 := rfl; omega)
      | num m => exact absurd hk (by have h0 : countKey k (.num m) = 0 := rfl; omega)
      | str s => exact absurd hk (by have h0 : countKey k (.str s) = 0 := rfl; omega)
      | other s => exact absurd hk (by have h0 : countKey k (.other s) = 0 := rfl; omega)
    · intro items hi acc k hk
      cases items with
      | nil => rw [countKeyList] at hk; omega
      | cons v vs =>
        simp only [List.cons.sizeOf_spec] at hi
        rw [countKeyList] at hk
        by_cases hv : 0 < countKey k v
        · exact collectKeysList_mono vs _ k (ihV v (by omega) acc k hv)
        · exact ihI vs (by omega) _ k (by omega)
    · intro entries he acc k hk
      cases entries with
      | nil => rw [countKeyEntries] at hk; omega
      | cons e es =>
        obtain ⟨k', v⟩ := e
        simp only [List.cons.sizeOf_spec, Prod.mk.sizeOf_spec] at he
        rw [countKeyEntries] at hk
        by_cases hkk : k' = k
        · subst hkk
          exact collectKeysEntries_mono es _ k'
            (collectKeys_mono v _ k' (addKey_self acc k'))
        · rw [if_neg hkk] at hk
          by_cases hv : 0 < countKey k v
          · exact collectKeysEntries_mono es _ k (ihV v (by omega) _ k hv)
          · exact ihE es (by omega) _ k (by omega)

theorem collectKeys_complete (v : JSValue) (acc : List (List Nat)) (k : List Nat)
    (h : 0 < countKey k v) : k ∈ collectKeys v acc :=
  (collectKeys_complete_aux (sizeOf v)).1 v le_rfl acc k h

/-! ### The writers are total on JSON values -/

theorem writeTotal_aux : ∀ n : Nat,
    (∀ v : JSValue, sizeOf v ≤ n → isJson v = true → ∃ b, writeValue v = .ok b) ∧
    (∀ items : List JSValue, sizeOf items ≤ n → isJsonList items = true →
      ∃ b, writeArrayItems items none = .ok b) ∧
    (∀ entries : List (List Nat × JSValue), sizeOf entries ≤ n →
      isJsonEntries entries = true → ∃ b, writeObjectEntries entries = .ok b) := by
  intro n
  induction n with
  | zero =>
    refine ⟨fun v hv => absurd hv ?_, fun items hi => absurd hi ?_,
      fun entries he => absurd he ?_⟩
    · cases v <;> simp
    · cases items <;> simp
    · cases entries <;> simp
  | succ n ih =>
    obtain ⟨ihV, ihI, ihE⟩ := ih
    refine ⟨?_, ?_, ?_⟩
    · intro v hv hj
      cases v with
      | undef => rw [isJson] at hj; simp at hj
      | other s => rw [isJson] at hj; simp at hj
      | null => exact ⟨_, rfl⟩
      | bool b => exact ⟨_, rfl⟩
      | num m => exact ⟨_, rfl⟩
      | str s => exact ⟨_, rfl⟩
      | arr items =>
        simp only [JSValue.arr.sizeOf_spec] at hv
        rw [isJson] at hj
        by_cases hl : items.length = 0
        · exact ⟨_, by rw [writeValue, if_pos hl]⟩
        · obtain ⟨body, hb⟩ := ihI items (by omega) hj
          exact ⟨_, by rw [writeValue, if_neg hl, hb]; rfl⟩
      | obj entries =>
        simp only [JSValue.obj.sizeOf_spec] at hv
        rw [isJson] at hj
        by_cases hl : entries.length = 0
        · exact ⟨_, by rw [writeValue, if_pos hl]⟩
        · obtain ⟨body, hb⟩ := ihE entries (by omega) hj
          exact ⟨_, by rw [writeValue, if_neg hl, hb]; rfl⟩
    · intro items hi hj
      cases items with
      | nil => exact ⟨_, rfl⟩
      | cons v vs =>
        simp only [List.cons.sizeOf_spec] at hi
        rw [isJsonList] at hj
        simp only [Bool.and_eq_true] at hj
        obtain ⟨vb, hv1⟩ := ihV v (by omega) hj.1
        obtain ⟨rb, hv2⟩ := ihI vs (by omega) hj.2
        exact ⟨_, by rw [writeArrayItems, hv1, hv2]; rfl⟩
    · intro entries he hj
      cases entries with
      | nil => exact ⟨_, rfl⟩
      | cons e es =>
        obtain ⟨k, v⟩ := e
        simp only [List.cons.sizeOf_spec, Prod.mk.sizeOf_spec] at he
        rw [isJsonEntries] at hj
        simp only [Bool.and_eq_true] at hj
        obtain ⟨vb, hv1⟩ := ihV v (by omega) hj.1
        obtain ⟨rb, hv2⟩ := ihE es (by omega) hj.2
        exact ⟨_, by rw [writeObjectEntries, hv1, hv2]; rfl⟩

theorem writeKMTotal_aux (km : List (List Nat)) : ∀ n : Nat,
    (∀ v : JSValue, sizeOf v ≤ n → isJson v = true →
      (∀ k, 0 < countKey k v → k ∈ km) → ∃ b, writeValueWithKeyMap v km = .ok b) ∧
    (∀ items : List JSValue, sizeOf items ≤ n → isJsonList items = true →
      (∀ k, 0 < countKeyList k items → k ∈ km) →
      ∃ b, writeArrayItems items (some km) = .ok b) ∧
    (∀ entries : List (List Nat × JSValue), sizeOf entries ≤ n →
      isJsonEntries entries = true →
      (∀ k, 0 < countKeyEntries k entries → k ∈ km) →
      ∃ b, writeObjectEntriesKM entries km = .ok b) := by
  intro n
  induction n with
  | zero =>
    refine ⟨fun v hv => absurd hv ?_, fun items hi => absurd hi ?_,
      fun entries he => absurd he ?_⟩
    · cases v <;> simp
    · cases items <;> simp
    · cases entries <;> simp
  | succ n ih =>
    obtain ⟨ihV, ihI, ihE⟩ := ih
    refine ⟨?_, ?_, ?_⟩
    · intro v hv hj hcov
      cases v with
      | undef => rw [isJson] at hj; simp at hj
      | other s => rw [isJson] at hj; simp at hj
      | null => exact ⟨_, rfl⟩
      | bool b => exact ⟨_, rfl⟩
      | num m => exact ⟨_, rfl⟩
      | str s => exact ⟨_, rfl⟩
      | arr items =>
        simp only [JSValue.arr.sizeOf_spec] at hv
        rw [isJson] at hj
        by_cases hl : items.length = 0
        · exact ⟨_, by rw [writeValueWithKeyMap, if_pos hl]⟩
        · obtain ⟨body, hb⟩ := ihI items (by omega) hj
              (fun k hk => hcov k (by
              have h0 : countKey k (.arr items) = countKeyList k items := rfl
              omega))
          exact ⟨_, by rw [writeValueWithKeyMap, if_neg hl, hb]; rfl⟩
      | obj entries =>
        simp only [JSValue.obj.sizeOf_spec] at hv
        rw [isJson] at hj
        by_cases hl : entries.length = 0
        · exact ⟨_, by rw [writeValueWithKeyMap, if_pos hl]⟩
        · obtain ⟨body, hb⟩ := ihE entries (by omega) hj
              (fun k hk => hcov k (by
              have h0 : countKey k (.obj entries) = countKeyEntries k entries := rfl
              omega))
          exact ⟨_, by rw [writeValueWithKeyMap, if_neg hl, hb]; rfl⟩
    · intro items hi hj hcov
      cases items with
      | nil => exact ⟨_, rfl⟩
      | cons v vs =>
        simp only [List.cons.sizeOf_spec] at hi
        rw [isJsonList] at hj
        simp only [Bool.and_eq_true] at hj
        obtain ⟨vb, hv1⟩ := ihV v (by omega) hj.1
          (fun k hk => hcov k (by rw [countKeyList]; omega))
        obtain ⟨rb, hv2⟩ := ihI vs (by omega) hj.2
          (fun k hk => hcov k (by rw [countKeyList]; omega))
        exact ⟨_, by rw [writeArrayItems, hv1, hv2]; rfl⟩
    · intro entries he hj hcov
      cases entries with
      | nil => exact ⟨_, rfl⟩
      | cons e es =>
        obtain ⟨k', v⟩ := e
        simp only [List.cons.sizeOf_spec, Prod.mk.sizeOf_spec] at he
        rw [isJsonEntries] at hj
        simp only [Bool.and_eq_true] at hj
        have hkm : k' ∈ km := hcov k' (by rw [countKeyEntries, if_pos rfl]; omega)
        obtain ⟨i, hi⟩ := lookupIdx_isSome hkm 0
        obtain ⟨vb, hv1⟩ := ihV v (by omega) hj.1
          (fun k hk => hcov k (by rw [countKeyEntries]; omega))
        obtain ⟨rb, hv2⟩ := ihE es (by omega) hj.2
          (fun k hk => hcov k (by rw [countKeyEntries]; omega))
        exact ⟨_, by rw [writeObjectEntriesKM, hi, hv1, hv2]; rfl⟩

/-! ### Normalization lands in the JSON fragment -/

theorem normalize_isJson_aux : ∀ n : Nat,
    (∀ v : JSValue, sizeOf v ≤ n → isJson (normalizeValue v) = true) ∧
    (∀ items : List JSValue, sizeOf items ≤ n →
      isJsonList (normalizeList items) = true) ∧
    (∀ entries : List (List Nat × JSValue), sizeOf entries ≤ n →
      isJsonEntries (normalizeEntries entries) = true) := by
  intro n
  induction n with
  | zero =>
    refine ⟨fun v hv => absurd hv ?_, fun items hi => absurd hi ?_,
      fun entries he => absurd he ?_⟩
    · cases v <;> simp
    · cases items <;> simp
    · cases entries <;> simp
  | succ n ih =>
    obtain ⟨ihV, ihI, ihE⟩ := ih
    refine ⟨?_, ?_, ?_⟩
    · intro v hv
      cases v with
      | undef => rfl
      | null => rfl
      | bool b => rfl
      | num m => rfl
      | str s => rfl
      | other s => rfl
      | arr items =>
        simp only [JSValue.arr.sizeOf_spec] at hv
        exact ihI items (by omega)
      | obj entries =>
        simp only [JSValue.obj.sizeOf_spec] at hv
        exact ihE entries (by omega)
    · intro items hi
      cases items with
      | nil => rfl
      | cons v vs =>
        simp only [List.cons.sizeOf_spec] at hi
        show isJsonList (normalizeValue v :: normalizeList vs) = true
        rw [isJsonList]
        simp only [Bool.and_eq_true]
        exact ⟨ihV v (by omega), ihI vs (by omega)⟩
    · intro entries he
      cases entries with
      | nil => rfl
      | cons e es =>
        obtain ⟨k, v⟩ := e
        simp only [List.cons.sizeOf_spec, Prod.mk.sizeOf_spec] at he
        cases v with
        | undef =>
          show isJsonEntries (normalizeEntries es) = true
          exact ihE es (by omega)
        | null =>
          show isJsonEntries ((k, normalizeValue .null) :: normalizeEntries es) = true
          rw [isJsonEntries]
          simp only [Bool.and_eq_true]
          exact ⟨ihV _ (by omega), ihE es (by omega)⟩
        | bool b =>
          show isJsonEntries ((k, normalizeValue (.bool b)) :: normalizeEntries es) = true
          rw [isJsonEntries]
          simp only [Bool.and_eq_true]
          exact ⟨ihV _ (by omega), ihE es (by omega)⟩
        | num m =>
          show isJsonEntries ((k, normalizeValue (.num m)) :: normalizeEntries es) = true
          rw [isJsonEntries]
          simp only [Bool.and_eq_true]
          exact ⟨ihV _ (by omega), ihE es (by omega)⟩
        | str s =>
          show isJsonEntries ((k, normalizeValue (.str s)) :: normalizeEntries es) = true
          rw [isJsonEntries]
          simp only [Bool.and_eq_true]
          exact ⟨ihV _ (by omega), ihE es (by omega)⟩
        | other s =>
          show isJsonEntries ((k, normalizeValue (.other s)) :: normalizeEntries es) = true
          rw [isJsonEntries]
          simp only [Bool.and_eq_true]
          exact ⟨ihV _ (by omega), ihE es (by omega)⟩
        | arr items =>
          show isJsonEntries ((k, normalizeValue (.arr items)) :: normalizeEntries es) = true
          rw [isJsonEntries]
          simp only [Bool.and_eq_true]
          exact ⟨ihV _ (by omega), ihE es (by omega)⟩
        | obj oentries =>
          show isJsonEntries ((k, normalizeValue (.obj oentries)) :: normalizeEntries es)
            = true
          rw [isJsonEntries]
          simp only [Bool.and_eq_true]
          exact ⟨ihV _ (by omega), ihE es (by omega)⟩

theorem normalize_isJson (v : JSValue) : isJson (normalizeValue v) = true :=
  (normalize_isJson_aux (sizeOf v)).1 v le_rfl

theorem writeValue_total (v : JSValue) (h : isJson v = true) :
    ∃ b, writeValue v = .ok b :=
  (writeTotal_aux (sizeOf v)).1 v le_rfl h

theorem writeValueWithKeyMap_total (v : JSValue) (km : List (List Nat))
    (h : isJson v = true) (hcov : ∀ k, 0 < countKey k v → k ∈ km) :
    ∃ b, writeValueWithKeyMap v km = .ok b :=
  (writeKMTotal_aux km (sizeOf v)).1 v le_rfl h hcov

theorem encodeValue_total (v : JSValue) (opts : ResolvedEncodeOptions)
    (h : isJson v = true) : ∃ b, encodeValue v opts = .ok b := by
  unfold encodeValue
  by_cases hu : opts.useStringTable
  · rw [if_pos hu]
    by_cases hc : ((10 + ((collectKeys v []).map (fun k => utf16Len k + 2)).sum : Nat) : Int)
        < estimateRepetitionSavings v (collectKeys v [])
    · rw [if_pos hc]
      obtain ⟨b, hb⟩ := writeValueWithKeyMap_total v (collectKeys v []) h
        (fun k hk => collectKeys_complete v [] k hk)
      exact ⟨_, by rw [hb]; rfl⟩
    · rw [if_neg hc]
      obtain ⟨b, hb⟩ := writeValue_total v h
      exact ⟨_, by rw [hb]; rfl⟩
  · rw [if_neg hu]
    obtain ⟨b, hb⟩ := writeValue_total v h
    exact ⟨_, by rw [hb]; rfl⟩

theorem encode_total (x : JSValue) (opts : ResolvedEncodeOptions) :
    ∃ b, encode x opts = .ok b :=
  encodeValue_total (normalizeValue x) opts (normalize_isJson x)

/-! ### Key-table decoder: primitive payloads and container headers -/

theorem readValueKTF_writeNumber (kt : List (List Nat)) (x : JSNumber) (hwf : wfNum x = true) (fuel : Nat)
    (rest : List Nat) :
    readValueKTF (fuel + 1) kt (writeNumber x ++ rest) = .ok (.num x, rest) := by
  cases x with
  | int n =>
    have hn : -(2 ^ 53 - 1) ≤ n ∧ n ≤ 2 ^ 53 - 1 := by
      simpa [wfNum] using hwf
    simp only [writeNumber, writeIntNumber]
    by_cases c1 : INT8_MIN ≤ n ∧ n ≤ INT8_MAX
    · rw [if_pos c1]
      simp only [INT8_MIN, INT8_MAX] at c1
      simp only [List.cons_append, readValueKTF, readUint8_cons, ok_bind]
      norm_num
      rw [readInt8_intBytes n c1.1 c1.2]
      simp only [ok_bind]
    · rw [if_neg c1]
      simp only [INT8_MIN, INT8_MAX] at c1
      by_cases c2 : INT16_MIN ≤ n ∧ n ≤ INT16_MAX
      · rw [if_pos c2]
        simp only [INT16_MIN, INT16_MAX] at c2
        simp only [List.cons_append, readValueKTF, readUint8_cons, ok_bind]
        norm_num
        rw [readInt16_intBytes n c2.1 c2.2]
        simp only [ok_bind]
      · rw [if_neg c2]
        simp only [INT16_MIN, INT16_MAX] at c2
        by_cases c3 : INT32_MIN ≤ n ∧ n ≤ INT32_MAX
        · rw [if_pos c3]
          simp only [INT32_MIN, INT32_MAX] at c3
          simp only [List.cons_append, readValueKTF, readUint8_cons, ok_bind]
          norm_num
          rw [readInt32_intBytes n c3.1 c3.2]
          simp only [ok_bind]
        · rw [if_neg c3]
          simp only [INT32_MIN, INT32_MAX] at c3
          by_cases c4 : 0 ≤ n ∧ n ≤ UINT8_MAX
          · exfalso
            simp only [UINT8_MAX] at c4
            omega
          · rw [if_neg c4]
            by_cases c5 : 0 ≤ n ∧ n ≤ UINT16_MAX
            · exfalso
              simp only [UINT16_MAX] at c5
              omega
            · rw [if_neg c5]
              by_cases c6 : 0 ≤ n ∧ n ≤ UINT32_MAX
              · rw [if_pos c6]
                simp only [UINT32_MAX] at c6
                rw [intBytesBE_of_nonneg 4 n c6.1]
                simp only [List.cons_append, readValueKTF, readUint8_cons, ok_bind]
                norm_num
                rw [readUint32_natBytes]
                have hv : (((n.toNat % 4294967296) % 2 ^ 32 : Nat) : Int) = n := by
                  omega
                simp only [ok_bind, hv]
              · rw [if_neg c6]
                simp only [UINT32_MAX] at c6
                simp only [List.cons_append, readValueKTF, readUint8_cons, ok_bind]
                norm_num
                rw [readBigInt64_intBytes n (by omega) (by omega)]
                simp only [ok_bind]
                rw [jsToNumberInt_exact (by omega) (by omega)]
  | float b =>
    have hb : b < 2 ^ 64 ∧ f64Exp b ≠ 2047 ∧ f64IsFiniteIntegral b = false := by
      have h1 := hwf
      unfold wfNum at h1
      simp only [Bool.and_eq_true, Bool.not_eq_true', decide_eq_true_eq,
        decide_eq_false_iff_not] at h1
      exact ⟨h1.1.1, h1.1.2, h1.2⟩
    simp only [writeNumber]
    rw [hb.2.2]
    simp only [Bool.false_eq_true, if_false]
    by_cases hf : isF32Exact b = true
    · rw [hf]
      simp only [if_true]
      simp only [List.cons_append, readValueKTF, readUint8_cons, ok_bind]
      norm_num
      unfold readFloat32
      rw [readBytes_natBytes]
      simp only [ok_bind, natFromBytesBE_natBytesBE]
      rw [show (2 : Nat) ^ (8 * 4) = 2 ^ 32 from by norm_num,
        Nat.mod_eq_of_lt (f64ToF32_lt b hb.1 hf),
        f32ToF64_f64ToF32 b hb.1 hf, numOfBits_of_not_integral hb.2.2]
    · rw [show isF32Exact b = false from by simpa using hf]
      simp only [Bool.false_eq_true, if_false]
      simp only [List.cons_append, readValueKTF, readUint8_cons, ok_bind]
      norm_num
      unfold readFloat64
      rw [readBytes_natBytes]
      simp only [ok_bind, natFromBytesBE_natBytesBE]
      rw [show (2 : Nat) ^ (8 * 8) = 2 ^ 64 from by norm_num,
        Nat.mod_eq_of_lt hb.1, numOfBits_of_not_integral hb.2.2]


/-! ### String payload roundtrips -/

theorem readValueKTF_writeString (kt : List (List Nat)) (s : List Nat) (h : wfStr s = true)
    (hlen : (utf8Encode s).length < 2 ^ 32) (fuel : Nat) (rest : List Nat) :
    readValueKTF (fuel + 1) kt (writeString s ++ rest) = .ok (.str s, rest) := by
  by_cases hs : s = []
  · subst hs
    rfl
  · simp only [writeString, if_neg hs]
    by_cases c1 : (utf8Encode s).length ≤ MAX_SHORT_LENGTH
    · rw [if_pos c1]
      simp only [List.cons_append, readValueKTF, readUint8_cons, ok_bind]
      norm_num
      rw [readString_short]
      simp only [ok_bind]
      rw [utf8Decode_encode s h]
    · rw [if_neg c1]
      simp only [MAX_SHORT_LENGTH] at c1
      by_cases c2 : (utf8Encode s).length ≤ MAX_MEDIUM_LENGTH
      · rw [if_pos c2]
        simp only [MAX_MEDIUM_LENGTH] at c2
        simp only [List.cons_append, List.append_assoc, readValueKTF, readUint8_cons, ok_bind]
        norm_num
        rw [readString_medium _ _ (by omega)]
        simp only [ok_bind]
        rw [utf8Decode_encode s h]
      · rw [if_neg c2]
        simp only [List.cons_append, List.append_assoc, readValueKTF, readUint8_cons, ok_bind]
        norm_num
        rw [readString_long _ _ hlen]
        simp only [ok_bind]
        rw [utf8Decode_encode s h]
/-! ### Key-string roundtrip -/

theorem readValueKTF_arrayHeader (kt : List (List Nat)) (f len : Nat) (hlen : len < 2 ^ 32) (body rest : List Nat) :
    readValueKTF (f + 1) kt ((arrayHeader len ++ body) ++ rest) =
      readItemsKTF f kt len (body ++ rest) >>= fun p => .ok (.arr p.1, p.2) := by
  unfold arrayHeader
  by_cases c1 : len ≤ MAX_SHORT_LENGTH
  · rw [if_pos c1]
    simp only [List.cons_append, List.nil_append, readValueKTF, readUint8_cons, ok_bind]
    norm_num
  · rw [if_neg c1]
    by_cases c2 : len ≤ MAX_MEDIUM_LENGTH
    · rw [if_pos c2]
      simp only [MAX_MEDIUM_LENGTH] at c2
      simp only [List.cons_append, List.append_assoc, readValueKTF, readUint8_cons, ok_bind]
      norm_num
      rw [readUint16_natBytes]
      simp only [ok_bind]
      rw [Nat.mod_eq_of_lt (show len < 2 ^ 16 by omega)]
    · rw [if_neg c2]
      simp only [List.cons_append, List.append_assoc, readValueKTF, readUint8_cons, ok_bind]
      norm_num
      rw [readUint32_natBytes]
      simp only [ok_bind]
      rw [Nat.mod_eq_of_lt hlen]

theorem readValueKTF_objectHeader (kt : List (List Nat)) (f cnt : Nat) (hcnt : cnt < 2 ^ 32) (body rest : List Nat) :
    readValueKTF (f + 1) kt ((objectHeader cnt ++ body) ++ rest) =
      readEntriesKTF f kt cnt [] (body ++ rest) >>= fun p => .ok (.obj p.1, p.2) := by
  unfold objectHeader
  by_cases c1 : cnt ≤ MAX_SHORT_LENGTH
  · rw [if_pos c1]
    simp only [List.cons_append, List.nil_append, readValueKTF, readUint8_cons, ok_bind]
    norm_num
  · rw [if_neg c1]
    by_cases c2 : cnt ≤ MAX_MEDIUM_LENGTH
    · rw [if_pos c2]
      simp only [MAX_MEDIUM_LENGTH] at c2
      simp only [List.cons_append, List.append_assoc, readValueKTF, readUint8_cons, ok_bind]
      norm_num
      rw [readUint16_natBytes]
      simp only [ok_bind]
      rw [Nat.mod_eq_of_lt (show cnt < 2 ^ 16 by omega)]
    · rw [if_neg c2]
      simp only [List.cons_append, List.append_assoc, readValueKTF, readUint8_cons, ok_bind]
      norm_num
      rw [readUint32_natBytes]
      simp only [ok_bind]
      rw [Nat.mod_eq_of_lt hcnt]

/-! ### Object insertion on fresh keys -/

/-! ### Key-table decoder inverts the key-map encoder -/

theorem readVarint_writeVarint_ofNat (n : Nat) (h : n < 2 ^ 28) (rest : List Nat) :
    readVarint (writeVarint n ++ rest) = .ok (Int.ofNat n, rest) := by
  rw [readVarint_writeVarint n h rest]
  exact rfl

theorem writeVarint_ne_nil (n : Nat) : writeVarint n ≠ [] := by
  unfold writeVarint
  split_ifs <;> simp

theorem ktRoundtripAux (km : List (List Nat)) (hkm : km.length < 2 ^ 28) : ∀ fuel : Nat,
    (∀ (v : JSValue) (b rest : List Nat), wfValue v = true →
      writeValueWithKeyMap v km = .ok b → b.length < fuel →
      readValueKTF fuel km (b ++ rest) = .ok (v, rest)) ∧
    (∀ (items : List JSValue) (b rest : List Nat), wfList items = true →
      writeArrayItems items (some km) = .ok b → b.length + 1 < fuel →
      readItemsKTF fuel km items.length (b ++ rest) = .ok (items, rest)) ∧
    (∀ (entries acc : List (List Nat × JSValue)) (b rest : List Nat),
      wfEntries entries = true → (entries.map Prod.fst).Nodup →
      writeObjectEntriesKM entries km = .ok b → b.length < fuel →
      (∀ k ∈ entries.map Prod.fst, k ∉ acc.map Prod.fst) →
      readEntriesKTF fuel km entries.length acc (b ++ rest) = .ok (acc ++ entries, rest)) := by
  intro fuel
  induction fuel with
  | zero =>
    exact ⟨fun v b rest _ _ hb => absurd hb (by omega),
      fun items b rest _ _ hb => absurd hb (by omega),
      fun entries acc b rest _ _ _ hb _ => absurd hb (by omega)⟩
  | succ f ih =>
    obtain ⟨ihV, ihI, ihE⟩ := ih
    refine ⟨?_, ?_, ?_⟩
    · intro v b rest hwf hw hb
      cases v with
      | undef => rw [wfValue] at hwf; simp at hwf
      | other s => rw [wfValue] at hwf; simp at hwf
      | null =>
        rw [writeValueWithKeyMap] at hw
        injection hw with hw
        subst hw
        rfl
      | bool c =>
        rw [writeValueWithKeyMap] at hw
        injection hw with hw
        subst hw
        cases c <;> rfl
      | num n =>
        rw [writeValueWithKeyMap] at hw
        injection hw with hw
        subst hw
        rw [wfValue] at hwf
        exact readValueKTF_writeNumber km n hwf f rest
      | str s =>
        rw [writeValueWithKeyMap] at hw
        injection hw with hw
        subst hw
        rw [wfValue] at hwf
        simp only [Bool.and_eq_true, decide_eq_true_eq] at hwf
        exact readValueKTF_writeString km s hwf.1 hwf.2 f rest
      | arr items =>
        rw [wfValue] at hwf
        simp only [Bool.and_eq_true, decide_eq_true_eq] at hwf
        rw [writeValueWithKeyMap] at hw
        by_cases hl : items.length = 0
        · rw [if_pos hl] at hw
          injection hw with hw
          subst hw
          rw [List.length_eq_zero] at hl
          subst hl
          rfl
        · rw [if_neg hl] at hw
          cases hwi : writeArrayItems items (some km) with
          | error e => rw [hwi] at hw; simp at hw
          | ok body =>
            rw [hwi] at hw
            simp only [ok_bind] at hw
            injection hw with hw
            subst hw
            rw [readValueKTF_arrayHeader km f items.length hwf.1]
            have hlen2 : 2 ≤ (arrayHeader items.length).length := arrayHeader_length _
            simp only [List.length_append] at hb
            rw [ihI items body rest hwf.2 hwi (by omega)]
            rfl
      | obj entries =>
        rw [wfValue] at hwf
        simp only [Bool.and_eq_true, decide_eq_true_eq] at hwf
        rw [writeValueWithKeyMap] at hw
        by_cases hl : entries.length = 0
        · rw [if_pos hl] at hw
          injection hw with hw
          subst hw
          rw [List.length_eq_zero] at hl
          subst hl
          rfl
        · rw [if_neg hl] at hw
          cases hwe : writeObjectEntriesKM entries km with
          | error e => rw [hwe] at hw; simp at hw
          | ok body =>
            rw [hwe] at hw
            simp only [ok_bind] at hw
            injection hw with hw
            subst hw
            rw [readValueKTF_objectHeader km f entries.length hwf.1.1]
            have hlen2 : 2 ≤ (objectHeader entries.length).length := objectHeader_length _
            simp only [List.length_append] at hb
            rw [ihE entries [] body rest hwf.2 hwf.1.2 hwe (by omega) (by simp)]
            rfl
    · intro items b rest hwl hw hb
      cases items with
      | nil =>
        rw [writeArrayItems] at hw
        injection hw with hw
        subst hw
        rfl
      | cons v vs =>
        rw [wfList] at hwl
        simp only [Bool.and_eq_true] at hwl
        rw [writeArrayItems] at hw
        cases hw1 : writeValueWithKeyMap v km with
        | error e => rw [hw1] at hw; simp at hw
        | ok vb =>
          rw [hw1] at hw
          simp only [ok_bind] at hw
          cases hw2 : writeArrayItems vs (some km) with
          | error e => rw [hw2] at hw; simp at hw
          | ok rb =>
            rw [hw2] at hw
            simp only [ok_bind] at hw
            injection hw with hw
            subst hw
            have hvb1 : 1 ≤ vb.length :=
              List.length_pos.mpr (writeValueWithKeyMap_ok_ne_nil hw1)
            simp only [List.length_append] at hb
            simp only [List.length_cons, readItemsKTF, List.append_assoc]
            rw [ihV v vb (rb ++ rest) hwl.1 hw1 (by omega)]
            simp only [ok_bind]
            rw [ihI vs rb rest hwl.2 hw2 (by omega)]
            rfl
    · intro entries acc b rest hwe hnd hw hb hdisj
      cases entries with
      | nil =>
        rw [writeObjectEntriesKM] at hw
        injection hw with hw
        subst hw
        show readEntriesKTF (f + 1) km 0 acc ([] ++ rest) = _
        rw [List.append_nil]
        rfl
      | cons e es =>
        obtain ⟨k, v⟩ := e
        rw [wfEntries] at hwe
        simp only [Bool.and_eq_true] at hwe
        simp only [List.map_cons, List.nodup_cons] at hnd
        simp only [List.map_cons, List.mem_cons, forall_eq_or_imp] at hdisj
        cases hlk : lookupIdx km k 0 with
        | none =>
          simp only [writeObjectEntriesKM, hlk] at hw
          exact Except.noConfusion hw
        | some i =>
          simp only [writeObjectEntriesKM, hlk] at hw
          obtain ⟨-, hi2, hget⟩ := lookupIdx_some hlk
          simp only [Nat.sub_zero] at hi2 hget
          cases hw1 : writeValueWithKeyMap v km with
          | error e' => rw [hw1] at hw; simp at hw
          | ok vb =>
            rw [hw1] at hw
            simp only [ok_bind] at hw
            cases hw2 : writeObjectEntriesKM es km with
            | error e' => rw [hw2] at hw; simp at hw
            | ok rb =>
              rw [hw2] at hw
              simp only [ok_bind] at hw
              injection hw with hw
              subst hw
              have hvb1 : 1 ≤ vb.length :=
                List.length_pos.mpr (writeValueWithKeyMap_ok_ne_nil hw1)
              have hwv1 : 1 ≤ (writeVarint i).length :=
                List.length_pos.mpr (writeVarint_ne_nil i)
              simp only [List.length_append] at hb
              simp only [List.length_cons, readEntriesKTF, List.append_assoc]
              rw [readVarint_writeVarint_ofNat i (by omega)]
              simp only [ok_bind]
              rw [if_neg (by simp only [Int.ofNat_eq_natCast]; omega)]
              simp only [hget]
              rw [ihV v vb (rb ++ rest) hwe.1.2 hw1 (by omega)]
              simp only [ok_bind]
              rw [objInsert_of_not_mem acc k v hdisj.1]
              rw [ihE es (acc ++ [(k, v)]) rb rest hwe.2 hnd.2 hw2 (by omega) (by
                intro k' hk'
                simp only [List.map_append, List.map_cons, List.map_nil, List.mem_append,
                  List.mem_singleton]
                push_neg
                exact ⟨hdisj.2 k' hk', fun he => hnd.1 (he ▸ hk')⟩)]
              rw [List.append_assoc]
              rfl

/-! ### Streaming decoder: primitive payloads and container headers -/

theorem streamValueF_writeNumber (kt : Option (List (List Nat))) (x : JSNumber) (hwf : wfNum x = true) (fuel : Nat)
    (rest : List Nat) :
    streamValueF (fuel + 1) kt (writeNumber x ++ rest) = .ok ([.primitive (.num x)], rest) := by
  cases x with
  | int n =>
    have hn : -(2 ^ 53 - 1) ≤ n ∧ n ≤ 2 ^ 53 - 1 := by
      simpa [wfNum] using hwf
    simp only [writeNumber, writeIntNumber]
    by_cases c1 : INT8_MIN ≤ n ∧ n ≤ INT8_MAX
    · rw [if_pos c1]
      simp only [INT8_MIN, INT8_MAX] at c1
      simp only [List.cons_append, streamValueF, readUint8_cons, ok_bind]
      norm_num
      rw [readInt8_intBytes n c1.1 c1.2]
      simp only [ok_bind]
    · rw [if_neg c1]
      simp only [INT8_MIN, INT8_MAX] at c1
      by_cases c2 : INT16_MIN ≤ n ∧ n ≤ INT16_MAX
      · rw [if_pos c2]
        simp only [INT16_MIN, INT16_MAX] at c2
        simp only [List.cons_append, streamValueF, readUint8_cons, ok_bind]
        norm_num
        rw [readInt16_intBytes n c2.1 c2.2]
        simp only [ok_bind]
      · rw [if_neg c2]
        simp only [INT16_MIN, INT16_MAX] at c2
        by_cases c3 : INT32_MIN ≤ n ∧ n ≤ INT32_MAX
        · rw [if_pos c3]
          simp only [INT32_MIN, INT32_MAX] at c3
          simp only [List.cons_append, streamValueF, readUint8_cons, ok_bind]
          norm_num
          rw [readInt32_intBytes n c3.1 c3.2]
          simp only [ok_bind]
        · rw [if_neg c3]
          simp only [INT32_MIN, INT32_MAX] at c3
          by_cases c4 : 0 ≤ n ∧ n ≤ UINT8_MAX
          · exfalso
            simp only [UINT8_MAX] at c4
            omega
          · rw [if_neg c4]
            by_cases c5 : 0 ≤ n ∧ n ≤ UINT16_MAX
            · exfalso
              simp only [UINT16_MAX] at c5
              omega
            · rw [if_neg c5]
              by_cases c6 : 0 ≤ n ∧ n ≤ UINT32_MAX
              · rw [if_pos c6]
                simp only [UINT32_MAX] at c6
                rw [intBytesBE_of_nonneg 4 n c6.1]
                simp only [List.cons_append, streamValueF, readUint8_cons, ok_bind]
                norm_num
                rw [readUint32_natBytes]
                have hv : (((n.toNat % 4294967296) % 2 ^ 32 : Nat) : Int) = n := by
                  omega
                simp only [ok_bind, hv]
              · rw [if_neg c6]
                simp only [UINT32_MAX] at c6
                simp only [List.cons_append, streamValueF, readUint8_cons, ok_bind]
                norm_num
                rw [readBigInt64_intBytes n (by omega) (by omega)]
                simp only [ok_bind]
                rw [jsToNumberInt_exact (by omega) (by omega)]
  | float b =>
    have hb : b < 2 ^ 64 ∧ f64Exp b ≠ 2047 ∧ f64IsFiniteIntegral b = false := by
      have h1 := hwf
      unfold wfNum at h1
      simp only [Bool.and_eq_true, Bool.not_eq_true', decide_eq_true_eq,
        decide_eq_false_iff_not] at h1
      exact ⟨h1.1.1, h1.1.2, h1.2⟩
    simp only [writeNumber]
    rw [hb.2.2]
    simp only [Bool.false_eq_true, if_false]
    by_cases hf : isF32Exact b = true
    · rw [hf]
      simp only [if_true]
      simp only [List.cons_append, streamValueF, readUint8_cons, ok_bind]
      norm_num
      unfold readFloat32
      rw [readBytes_natBytes]
      simp only [ok_bind, natFromBytesBE_natBytesBE]
      rw [show (2 : Nat) ^ (8 * 4) = 2 ^ 32 from by norm_num,
        Nat.mod_eq_of_lt (f64ToF32_lt b hb.1 hf),
        f32ToF64_f64ToF32 b hb.1 hf, numOfBits_of_not_integral hb.2.2]
    · rw [show isF32Exact b = false from by simpa using hf]
      simp only [Bool.false_eq_true, if_false]
      simp only [List.cons_append, streamValueF, readUint8_cons, ok_bind]
      norm_num
      unfold readFloat64
      rw [readBytes_natBytes]
      simp only [ok_bind, natFromBytesBE_natBytesBE]
      rw [show (2 : Nat) ^ (8 * 8) = 2 ^ 64 from by norm_num,
        Nat.mod_eq_of_lt hb.1, numOfBits_of_not_integral hb.2.2]


/-! ### String payload roundtrips -/

theorem streamValueF_writeString (kt : Option (List (List Nat))) (s : List Nat) (h : wfStr s = true)
    (hlen : (utf8Encode s).length < 2 ^ 32) (fuel : Nat) (rest : List Nat) :
    streamValueF (fuel + 1) kt (writeString s ++ rest) = .ok ([.primitive (.str s)], rest) := by
  by_cases hs : s = []
  · subst hs
    rfl
  · simp only [writeString, if_neg hs]
    by_cases c1 : (utf8Encode s).length ≤ MAX_SHORT_LENGTH
    · rw [if_pos c1]
      simp only [List.cons_append, streamValueF, readUint8_cons, ok_bind]
      norm_num
      rw [readString_short]
      simp only [ok_bind]
      rw [utf8Decode_encode s h]
    · rw [if_neg c1]
      simp only [MAX_SHORT_LENGTH] at c1
      by_cases c2 : (utf8Encode s).length ≤ MAX_MEDIUM_LENGTH
      · rw [if_pos c2]
        simp only [MAX_MEDIUM_LENGTH] at c2
        simp only [List.cons_append, List.append_assoc, streamValueF, readUint8_cons, ok_bind]
        norm_num
        rw [readString_medium _ _ (by omega)]
        simp only [ok_bind]
        rw [utf8Decode_encode s h]
      · rw [if_neg c2]
        simp only [List.cons_append, List.append_assoc, streamValueF, readUint8_cons, ok_bind]
        norm_num
        rw [readString_long _ _ hlen]
        simp only [ok_bind]
        rw [utf8Decode_encode s h]
/-! ### Key-string roundtrip -/

theorem streamValueF_arrayHeader (kt : Option (List (List Nat))) (f len : Nat) (hlen : len < 2 ^ 32) (body rest : List Nat) :
    streamValueF (f + 1) kt ((arrayHeader len ++ body) ++ rest) =
      streamItemsF f kt len (body ++ rest) >>=
        fun p => .ok (.startArray len :: p.1 ++ [.endArray], p.2) := by
  unfold arrayHeader
  by_cases c1 : len ≤ MAX_SHORT_LENGTH
  · rw [if_pos c1]
    simp only [List.cons_append, List.nil_append, streamValueF, readUint8_cons, ok_bind]
    norm_num
  · rw [if_neg c1]
    by_cases c2 : len ≤ MAX_MEDIUM_LENGTH
    · rw [if_pos c2]
      simp only [MAX_MEDIUM_LENGTH] at c2
      simp only [List.cons_append, List.append_assoc, streamValueF, readUint8_cons, ok_bind]
      norm_num
      rw [readUint16_natBytes]
      simp only [ok_bind]
      rw [Nat.mod_eq_of_lt (show len < 2 ^ 16 by omega)]
    · rw [if_neg c2]
      simp only [List.cons_append, List.append_assoc, streamValueF, readUint8_cons, ok_bind]
      norm_num
      rw [readUint32_natBytes]
      simp only [ok_bind]
      rw [Nat.mod_eq_of_lt hlen]

theorem streamValueF_objectHeader (kt : Option (List (List Nat))) (f cnt : Nat) (hcnt : cnt < 2 ^ 32) (body rest : List Nat) :
    streamValueF (f + 1) kt ((objectHeader cnt ++ body) ++ rest) =
      streamEntriesF f kt cnt (body ++ rest) >>=
        fun p => .ok (.startObject cnt :: p.1 ++ [.endObject], p.2) := by
  unfold objectHeader
  by_cases c1 : cnt ≤ MAX_SHORT_LENGTH
  · rw [if_pos c1]
    simp only [List.cons_append, List.nil_append, streamValueF, readUint8_cons, ok_bind]
    norm_num
  · rw [if_neg c1]
    by_cases c2 : cnt ≤ MAX_MEDIUM_LENGTH
    · rw [if_pos c2]
      simp only [MAX_MEDIUM_LENGTH] at c2
      simp only [List.cons_append, List.append_assoc, streamValueF, readUint8_cons, ok_bind]
      norm_num
      rw [readUint16_natBytes]
      simp only [ok_bind]
      rw [Nat.mod_eq_of_lt (show cnt < 2 ^ 16 by omega)]
    · rw [if_neg c2]
      simp only [List.cons_append, List.append_assoc, streamValueF, readUint8_cons, ok_bind]
      norm_num
      rw [readUint32_natBytes]
      simp only [ok_bind]
      rw [Nat.mod_eq_of_lt hcnt]

/-! ### Object insertion on fresh keys -/

/-! ### Streaming decoder emits the flattened tree of the encoder output -/

theorem streamRoundtripAux (kt : Option (List (List Nat)))
    (hkt : ∀ km, kt = some km → km.length < 2 ^ 28) : ∀ fuel : Nat,
    (∀ (v : JSValue) (b rest : List Nat), wfValue v = true →
      (match kt with
        | none => writeValue v
        | some km => writeValueWithKeyMap v km) = .ok b → b.length < fuel →
      streamValueF fuel kt (b ++ rest) = .ok (flattenValue v, rest)) ∧
    (∀ (items : List JSValue) (b rest : List Nat), wfList items = true →
      writeArrayItems items kt = .ok b → b.length + 1 < fuel →
      streamItemsF fuel kt items.length (b ++ rest) = .ok (flattenList items, rest)) ∧
    (∀ (entries : List (List Nat × JSValue)) (b rest : List Nat),
      wfEntries entries = true →
      (match kt with
        | none => writeObjectEntries entries
        | some km => writeObjectEntriesKM entries km) = .ok b → b.length < fuel →
      streamEntriesF fuel kt entries.length (b ++ rest) = .ok (flattenEntries entries, rest)) := by
  intro fuel
  induction fuel with
  | zero =>
    exact ⟨fun v b rest _ _ hb => absurd hb (by omega),
      fun items b rest _ _ hb => absurd hb (by omega),
      fun entries b rest _ _ hb => absurd hb (by omega)⟩
  | succ f ih =>
    obtain ⟨ihV, ihI, ihE⟩ := ih
    refine ⟨?_, ?_, ?_⟩
    · intro v b rest hwf hw hb
      cases v with
      | undef => rw [wfValue] at hwf; simp at hwf
      | other s => rw [wfValue] at hwf; simp at hwf
      | null =>
        have hw2 : b = [TYPE_TAG.NULL] := by
          cases kt with
          | none =>
            have hw3 : writeValue .null = .ok b := hw
            rw [writeValue] at hw3
            injection hw3 with hw3
            exact hw3.symm
          | some km =>
            have hw3 : writeValueWithKeyMap .null km = .ok b := hw
            rw [writeValueWithKeyMap] at hw3
            injection hw3 with hw3
            exact hw3.symm
        subst hw2
        rfl
      | bool c =>
        have hw2 : b = [if c then TYPE_TAG.TRUE else TYPE_TAG.FALSE] := by
          cases kt with
          | none =>
            have hw3 : writeValue (.bool c) = .ok b := hw
            rw [writeValue] at hw3
            injection hw3 with hw3
            exact hw3.symm
          | some km =>
            have hw3 : writeValueWithKeyMap (.bool c) km = .ok b := hw
            rw [writeValueWithKeyMap] at hw3
            injection hw3 with hw3
            exact hw3.symm
        subst hw2
        cases c <;> rfl
      | num n =>
        have hw2 : b = writeNumber n := by
          cases kt with
          | none =>
            have hw3 : writeValue (.num n) = .ok b := hw
            rw [writeValue] at hw3
            injection hw3 with hw3
            exact hw3.symm
          | some km =>
            have hw3 : writeValueWithKeyMap (.num n) km = .ok b := hw
            rw [writeValueWithKeyMap] at hw3
            injection hw3 with hw3
            exact hw3.symm
        subst hw2
        rw [wfValue] at hwf
        exact streamValueF_writeNumber kt n hwf f rest
      | str s =>
        have hw2 : b = writeString s := by
          cases kt with
          | none =>
            have hw3 : writeValue (.str s) = .ok b := hw
            rw [writeValue] at hw3
            injection hw3 with hw3
            exact hw3.symm
          | some km =>
            have hw3 : writeValueWithKeyMap (.str s) km = .ok b := hw
            rw [writeValueWithKeyMap] at hw3
            injection hw3 with hw3
            exact hw3.symm
        subst hw2
        rw [wfValue] at hwf
        simp only [Bool.and_eq_true, decide_eq_true_eq] at hwf
        exact streamValueF_writeString kt s hwf.1 hwf.2 f rest
      | arr items =>
        rw [wfValue] at hwf
        simp only [Bool.and_eq_true, decide_eq_true_eq] at hwf
        have hw' : (if items.length = 0 then
              (.ok [TYPE_TAG.ARRAY_EMPTY] : Except EncodeError (List Nat))
            else do
              let body ← writeArrayItems items kt
              .ok (arrayHeader items.length ++ body)) = .ok b := by
          cases kt with
          | none => exact hw
          | some km => exact hw
        by_cases hl : items.length = 0
        · rw [if_pos hl] at hw'
          injection hw' with hw'
          subst hw'
          rw [List.length_eq_zero] at hl
          subst hl
          rfl
        · rw [if_neg hl] at hw'
          cases hwi : writeArrayItems items kt with
          | error e => rw [hwi] at hw'; simp at hw'
          | ok body =>
            rw [hwi] at hw'
            simp only [ok_bind] at hw'
            injection hw' with hw'
            subst hw'
            rw [streamValueF_arrayHeader kt f items.length hwf.1]
            have hlen2 : 2 ≤ (arrayHeader items.length).length := arrayHeader_length _
            simp only [List.length_append] at hb
            rw [ihI items body rest hwf.2 hwi (by omega)]
            rfl
      | obj entries =>
        rw [wfValue] at hwf
        simp only [Bool.and_eq_true, decide_eq_true_eq] at hwf
        have hw' : (if entries.length = 0 then
              (.ok [TYPE_TAG.OBJECT_EMPTY] : Except EncodeError (List Nat))
            else do
              let body ← (match kt with
                | none => writeObjectEntries entries
                | some km => writeObjectEntriesKM entries km)
              .ok (objectHeader entries.length ++ body)) = .ok b := by
          cases kt with
          | none => exact hw
          | some km => exact hw
        by_cases hl : entries.length = 0
        · rw [if_pos hl] at hw'
          injection hw' with hw'
          subst hw'
          rw [List.length_eq_zero] at hl
          subst hl
          rfl
        · rw [if_neg hl] at hw'
          cases hwe : (match kt with
            | none => writeObjectEntries entries
            | some km => writeObjectEntriesKM entries km) with
          | error e => rw [hwe] at hw'; simp at hw'
          | ok body =>
            rw [hwe] at hw'
            simp only [ok_bind] at hw'
            injection hw' with hw'
            subst hw'
            rw [streamValueF_objectHeader kt f entries.length hwf.1.1]
            have hlen2 : 2 ≤ (objectHeader entries.length).length := objectHeader_length _
            simp only [List.length_append] at hb
            rw [ihE entries body rest hwf.2 hwe (by omega)]
            rfl
    · intro items b rest hwl hw hb
      cases items with
      | nil =>
        rw [writeArrayItems] at hw
        injection hw with hw
        subst hw
        rfl
      | cons v vs =>
        rw [wfList] at hwl
        simp only [Bool.and_eq_true] at hwl
        cases kt with
        | none =>
          rw [writeArrayItems] at hw
          cases hw1 : writeValue v with
          | error e => rw [hw1] at hw; simp at hw
          | ok vb =>
            rw [hw1] at hw
            simp only [ok_bind] at hw
            cases hw2 : writeArrayItems vs none with
            | error e => rw [hw2] at hw; simp at hw
            | ok rb =>
              rw [hw2] at hw
              simp only [ok_bind] at hw
              injection hw with hw
              subst hw
              have hvb1 : 1 ≤ vb.length := List.length_pos.mpr (writeValue_ok_ne_nil hw1)
              simp only [List.length_append] at hb
              simp only [List.length_cons, streamItemsF, List.append_assoc]
              rw [ihV v vb (rb ++ rest) hwl.1 hw1 (by omega)]
              simp only [ok_bind]
              rw [ihI vs rb rest hwl.2 hw2 (by omega)]
              rfl
        | some km =>
          rw [writeArrayItems] at hw
          cases hw1 : writeValueWithKeyMap v km with
          | error e => rw [hw1] at hw; simp at hw
          | ok vb =>
            rw [hw1] at hw
            simp only [ok_bind] at hw
            cases hw2 : writeArrayItems vs (some km) with
            | error e => rw [hw2] at hw; simp at hw
            | ok rb =>
              rw [hw2] at hw
              simp only [ok_bind] at hw
              injection hw with hw
              subst hw
              have hvb1 : 1 ≤ vb.length :=
                List.length_pos.mpr (writeValueWithKeyMap_ok_ne_nil hw1)
              simp only [List.length_append] at hb
              simp only [List.length_cons, streamItemsF, List.append_assoc]
              rw [ihV v vb (rb ++ rest) hwl.1 hw1 (by omega)]
              simp only [ok_bind]
              rw [ihI vs rb rest hwl.2 hw2 (by omega)]
              rfl
    · intro entries b rest hwe hw hb
      cases entries with
      | nil =>
        have hw2 : b = [] := by
          cases kt with
          | none =>
            have hw3 : writeObjectEntries [] = .ok b := hw
            injection hw3 with hw3
            exact hw3.symm
          | some km =>
            have hw3 : writeObjectEntriesKM [] km = .ok b := hw
            injection hw3 with hw3
            exact hw3.symm
        subst hw2
        rfl
      | cons e es =>
        obtain ⟨k, v⟩ := e
        rw [wfEntries] at hwe
        simp only [Bool.and_eq_true] at hwe
        cases kt with
        | none =>
          have hw2 : writeObjectEntries ((k, v) :: es) = .ok b := hw
          rw [writeObjectEntries] at hw2
          cases hw1 : writeValue v with
          | error e' => rw [hw1] at hw2; simp at hw2
          | ok vb =>
            rw [hw1] at hw2
            simp only [ok_bind] at hw2
            cases hw3 : writeObjectEntries es with
            | error e' => rw [hw3] at hw2; simp at hw2
            | ok rb =>
              rw [hw3] at hw2
              simp only [ok_bind] at hw2
              injection hw2 with hw2
              subst hw2
              have hvb1 : 1 ≤ vb.length := List.length_pos.mpr (writeValue_ok_ne_nil hw1)
              have hwk1 : 1 ≤ (writeKeyString k).length :=
                List.length_pos.mpr (writeKeyString_ne_nil k)
              simp only [List.length_append] at hb
              simp only [List.length_cons, streamEntriesF, List.append_assoc]
              rw [readKeyString_writeKeyString k hwe.1.1]
              simp only [ok_bind]
              rw [ihV v vb (rb ++ rest) hwe.1.2 hw1 (by omega)]
              simp only [ok_bind]
              rw [ihE es rb rest hwe.2 hw3 (by omega)]
              rfl
        | some km =>
          have hw2 : writeObjectEntriesKM ((k, v) :: es) km = .ok b := hw
          cases hlk : lookupIdx km k 0 with
          | none =>
            simp only [writeObjectEntriesKM, hlk] at hw2
            exact Except.noConfusion hw2
          | some i =>
            simp only [writeObjectEntriesKM, hlk] at hw2
            obtain ⟨-, hi2, hget⟩ := lookupIdx_some hlk
            simp only [Nat.sub_zero] at hi2 hget
            cases hw1 : writeValueWithKeyMap v km with
            | error e' => rw [hw1] at hw2; simp at hw2
            | ok vb =>
              rw [hw1] at hw2
              simp only [ok_bind] at hw2
              cases hw3 : writeObjectEntriesKM es km with
              | error e' => rw [hw3] at hw2; simp at hw2
              | ok rb =>
                rw [hw3] at hw2
                simp only [ok_bind] at hw2
                injection hw2 with hw2
                subst hw2
                have hvb1 : 1 ≤ vb.length :=
                  List.length_pos.mpr (writeValueWithKeyMap_ok_ne_nil hw1)
                have hwv1 : 1 ≤ (writeVarint i).length :=
                  List.length_pos.mpr (writeVarint_ne_nil i)
                have hkm : km.length < 2 ^ 28 := hkt km rfl
                simp only [List.length_append] at hb
                simp only [List.length_cons, streamEntriesF, List.append_assoc]
                rw [readVarint_writeVarint_ofNat i (by omega)]
                simp only [ok_bind, hget]
                rw [ihV v vb (rb ++ rest) hwe.1.2 hw1 (by omega)]
                simp only [ok_bind]
                rw [ihE es rb rest hwe.2 hw3 (by omega)]
                rfl

/-! ### String table roundtrip and top-level corollaries -/

theorem readStringTableKeys_write (keys : List (List Nat)) (hk : ∀ k ∈ keys, wfKey k = true)
    (rest : List Nat) :
    readStringTableKeys keys.length
      ((keys.map (fun k => writeVarint (utf8Encode k).length ++ utf8Encode k)).flatten
        ++ rest) = .ok (keys, rest) := by
  induction keys with
  | nil => rfl
  | cons k ks ih =>
    have hkk : wfKey k = true := hk k (List.mem_cons_self _ _)
    have hkk' : wfStr k = true ∧ (utf8Encode k).length ≤ 127 := by
      simpa [wfKey] using hkk
    simp only [List.map_cons, List.flatten_cons, List.length_cons, List.append_assoc]
    rw [readStringTableKeys]
    rw [readVarint_writeVarint_ofNat (utf8Encode k).length (by omega)]
    simp only [ok_bind]
    rw [show (Int.ofNat (utf8Encode k).length).toNat = (utf8Encode k).length from rfl]
    rw [readBytes_append]
    simp only [ok_bind]
    rw [ih (fun k' hk' => hk k' (List.mem_cons_of_mem _ hk'))]
    simp only [ok_bind]
    rw [utf8Decode_encode k hkk'.1]

theorem readStringTable_write (keys : List (List Nat)) (hk : ∀ k ∈ keys, wfKey k = true)
    (hlen : keys.length < 2 ^ 28) (rest : List Nat) :
    readStringTable ((FORMAT_VERSION :: (writeVarint keys.length ++
      (keys.map (fun k => writeVarint (utf8Encode k).length ++ utf8Encode k)).flatten))
        ++ rest) = .ok (keys, rest) := by
  unfold readStringTable
  simp only [List.cons_append, List.append_assoc, readUint8_cons, ok_bind]
  rw [readVarint_writeVarint_ofNat keys.length hlen]
  simp only [ok_bind]
  rw [show (Int.ofNat keys.length).toNat = keys.length from rfl]
  exact readStringTableKeys_write keys hk rest

theorem readValueF_writeValue {v : JSValue} {b : List Nat} (hwf : wfValue v = true)
    (hw : writeValue v = .ok b) (fuel : Nat) (hf : b.length < fuel) :
    readValueF fuel b = .ok (v, []) := by
  have h := (eagerRoundtripAux fuel).1 v b [] hwf hw hf
  rwa [List.append_nil] at h

theorem readValueKTF_writeValueKM {km : List (List Nat)} (hkm : km.length < 2 ^ 28)
    {v : JSValue} {b : List Nat} (hwf : wfValue v = true)
    (hw : writeValueWithKeyMap v km = .ok b) (fuel : Nat) (hf : b.length < fuel) :
    readValueKTF fuel km b = .ok (v, []) := by
  have h := (ktRoundtripAux km hkm fuel).1 v b [] hwf hw hf
  rwa [List.append_nil] at h

theorem streamValueF_writeValue {v : JSValue} {b : List Nat} (hwf : wfValue v = true)
    (hw : writeValue v = .ok b) (fuel : Nat) (hf : b.length < fuel) :
    streamValueF fuel none b = .ok (flattenValue v, []) := by
  have h := (streamRoundtripAux none (fun km h => Option.noConfusion h) fuel).1 v b []
    hwf hw hf
  rwa [List.append_nil] at h

theorem streamValueF_writeValueKM {km : List (List Nat)} (hkm : km.length < 2 ^ 28)
    {v : JSValue} {b : List Nat} (hwf : wfValue v = true)
    (hw : writeValueWithKeyMap v km = .ok b) (fuel : Nat) (hf : b.length < fuel) :
    streamValueF fuel (some km) b = .ok (flattenValue v, []) := by
  have h := (streamRoundtripAux (some km)
    (fun km' h => by injection h with h; exact h ▸ hkm) fuel).1 v b [] hwf hw hf
  rwa [List.append_nil] at h

/-! ### Keys collected from a well-formed value are well-formed -/

theorem addKey_mem {acc : List (List Nat)} {k r : List Nat} (h : r ∈ addKey acc k) :
    r ∈ acc ∨ r = k := by
  unfold addKey at h
  split_ifs at h
  · exact Or.inl h
  · rcases List.mem_append.mp h with h' | h'
    · exact Or.inl h'
    · exact Or.inr (List.mem_singleton.mp h')

theorem collectKeys_wf_aux : ∀ n : Nat,
    (∀ v : JSValue, sizeOf v ≤ n → wfValue v = true → ∀ acc k, k ∈ collectKeys v acc →
      k ∈ acc ∨ wfKey k = true) ∧
    (∀ items : List JSValue, sizeOf items ≤ n → wfList items = true → ∀ acc k,
      k ∈ collectKeysList items acc → k ∈ acc ∨ wfKey k = true) ∧
    (∀ entries : List (List Nat × JSValue), sizeOf entries ≤ n → wfEntries entries = true →
      ∀ acc k, k ∈ collectKeysEntries entries acc → k ∈ acc ∨ wfKey k = true) := by
  intro n
  induction n with
  | zero =>
    refine ⟨fun v hv => absurd hv ?_, fun items hi => absurd hi ?_,
      fun entries he => absurd he ?_⟩
    · cases v <;> simp
    · cases items <;> simp
    · cases entries <;> simp
  | succ n ih =>
    obtain ⟨ihV, ihI, ihE⟩ := ih
    refine ⟨?_, ?_, ?_⟩
    · intro v hv hwf acc k hm
      cases v with
      | arr items =>
        simp only [JSValue.arr.sizeOf_spec] at hv
        rw [wfValue] at hwf
        simp only [Bool.and_eq_true] at hwf
        exact ihI items (by omega) hwf.2 acc k hm
      | obj entries =>
        simp only [JSValue.obj.sizeOf_spec] at hv
        rw [wfValue] at hwf
        simp only [Bool.and_eq_true] at hwf
        exact ihE entries (by omega) hwf.2 acc k hm
      | undef => exact Or.inl hm
      | null => exact Or.inl hm
      | bool b => exact Or.inl hm
      | num m => exact Or.inl hm
      | str s => exact Or.inl hm
      | other s => exact Or.inl hm
    · intro items hi hwl acc k hm
      cases items with
      | nil => exact Or.inl hm
      | cons v vs =>
        simp only [List.cons.sizeOf_spec] at hi
        rw [wfList] at hwl
        simp only [Bool.and_eq_true] at hwl
        rcases ihI vs (by omega) hwl.2 _ k hm with h' | h'
        · exact ihV v (by omega) hwl.1 acc k h'
        · exact Or.inr h'
    · intro entries he hwe acc k hm
      cases entries with
      | nil => exact Or.inl hm
      | cons e es =>
        obtain ⟨k', v⟩ := e
        simp only [List.cons.sizeOf_spec, Prod.mk.sizeOf_spec] at he
        rw [wfEntries] at hwe
        simp only [Bool.and_eq_true] at hwe
        rcases ihE es (by omega) hwe.2 _ k hm with h' | h'
        · rcases ihV v (by omega) hwe.1.2 _ k h' with h'' | h''
          · rcases addKey_mem h'' with h3 | h3
            · exact Or.inl h3
            · exact Or.inr (h3 ▸ hwe.1.1)
          · exact Or.inr h''
        · exact Or.inr h'

theorem collectKeys_wfKey (v : JSValue) (hwf : wfValue v = true) :
    ∀ k ∈ collectKeys v [], wfKey k = true := by
  intro k hm
  rcases (collectKeys_wf_aux (sizeOf v)).1 v le_rfl hwf [] k hm with h | h
  · simp at h
  · exact h

/-! ### Decoding an encoded message (header present) -/

theorem decode_encode_plainAux (v : JSValue) (body : List Nat)
    (dopts : ResolvedDecodeOptions) (heh : dopts.expectHeader = true)
    (hwf : wfValue v = true) (hw : writeValue v = .ok body) :
    decodeValue (MAGIC_NUMBER ++ ([FORMAT_VERSION] ++ body)) dopts = .ok v ∧
    decodeStreamSync (MAGIC_NUMBER ++ ([FORMAT_VERSION] ++ body)) dopts =
      .ok (.header FORMAT_VERSION :: flattenValue v) := by
  constructor
  · simp only [decodeValue, heh, if_true]
    generalize hfuel : (MAGIC_NUMBER ++ ([FORMAT_VERSION] ++ body)).length + 1 = fuel
    have hbf : body.length < fuel := by
      rw [← hfuel]
      simp only [List.length_append]
      omega
    simp only [MAGIC_NUMBER, FORMAT_VERSION, List.cons_append, List.nil_append,
      readUint8_cons, ok_bind]
    norm_num
    rw [readValueF_writeValue hwf hw fuel hbf]
    rfl
  · simp only [decodeStreamSync, heh, if_true]
    generalize hfuel : (MAGIC_NUMBER ++ ([FORMAT_VERSION] ++ body)).length + 1 = fuel
    have hbf : body.length < fuel := by
      rw [← hfuel]
      simp only [List.length_append]
      omega
    unfold readHeaderEvents
    have h4 := readBytes_append MAGIC_NUMBER ([FORMAT_VERSION] ++ body)
    rw [show MAGIC_NUMBER.length = 4 from rfl] at h4
    rw [h4]
    simp only [ok_bind, if_true]
    simp only [FORMAT_VERSION, List.cons_append, List.nil_append, readUint8_cons, ok_bind]
    norm_num
    rw [streamValueF_writeValue hwf hw fuel hbf]
    rfl

theorem decode_encode_tableAux (v : JSValue) (keys : List (List Nat)) (body : List Nat)
    (dopts : ResolvedDecodeOptions) (heh : dopts.expectHeader = true)
    (hkwf : ∀ k ∈ keys, wfKey k = true) (hkl : keys.length < 2 ^ 28)
    (hwf : wfValue v = true) (hw : writeValueWithKeyMap v keys = .ok body) :
    decodeValue (MAGIC_NUMBER ++ (writeStringTable keys ++ body)) dopts = .ok v ∧
    decodeStreamSync (MAGIC_NUMBER ++ (writeStringTable keys ++ body)) dopts =
      .ok (.header FORMAT_VERSION :: flattenValue v) := by
  have hst := readStringTable_write keys hkwf hkl body
  simp only [FORMAT_VERSION, List.cons_append, List.append_assoc] at hst
  have hstk := readStringTableKeys_write keys hkwf body
  constructor
  · simp only [decodeValue, heh, if_true]
    generalize hfuel : (MAGIC_NUMBER ++ (writeStringTable keys ++ body)).length + 1 = fuel
    have hbf : body.length < fuel := by
      rw [← hfuel]
      simp only [List.length_append]
      omega
    simp only [MAGIC_NUMBER, writeStringTable, List.cons_append, List.nil_append,
      List.append_assoc, readUint8_cons, ok_bind]
    norm_num
    rw [hst]
    simp only [ok_bind]
    rw [readValueKTF_writeValueKM hkl hwf hw fuel hbf]
    rfl
  · simp only [decodeStreamSync, heh, if_true]
    generalize hfuel : (MAGIC_NUMBER ++ (writeStringTable keys ++ body)).length + 1 = fuel
    have hbf : body.length < fuel := by
      rw [← hfuel]
      simp only [List.length_append]
      omega
    unfold readHeaderEvents
    have h4 := readBytes_append MAGIC_NUMBER (writeStringTable keys ++ body)
    rw [show MAGIC_NUMBER.length = 4 from rfl] at h4
    rw [h4]
    simp only [ok_bind, if_true]
    simp only [writeStringTable, List.cons_append, List.nil_append, List.append_assoc,
      readUint8_cons, ok_bind]
    norm_num
    rw [readVarint_writeVarint_ofNat keys.length hkl]
    simp only [ok_bind]
    rw [show (Int.ofNat keys.length).toNat = keys.length from rfl]
    rw [hstk]
    simp only [ok_bind]
    rw [streamValueF_writeValueKM hkl hwf hw fuel hbf]
    rfl

/-! ### Both decoders invert `encodeValue` when the header is included -/

theorem decode_stream_encode (v : JSValue) (opts : ResolvedEncodeOptions)
    (dopts : ResolvedDecodeOptions) (hwf : wfValue v = true)
    (hkeys : (collectKeys v []).length < 2 ^ 28)
    (hih : opts.includeHeader = true) (heh : dopts.expectHeader = true)
    (bytes : List Nat) (henc : encodeValue v opts = .ok bytes) :
    decodeValue bytes dopts = .ok v ∧
    decodeStreamSync bytes dopts = .ok (.header FORMAT_VERSION :: flattenValue v) := by
  by_cases hu : opts.useStringTable = true
  · simp only [encodeValue, hu, hih, if_true] at henc
    by_cases hc : ((10 + ((collectKeys v []).map (fun k => utf16Len k + 2)).sum : Nat) : Int)
        < estimateRepetitionSavings v (collectKeys v [])
    · rw [if_pos hc] at henc
      cases hw : writeValueWithKeyMap v (collectKeys v []) with
      | error e => rw [hw] at henc; simp at henc
      | ok body =>
        rw [hw] at henc
        simp only [ok_bind] at henc
        injection henc with henc
        subst henc
        exact decode_encode_tableAux v (collectKeys v []) body dopts heh
          (collectKeys_wfKey v hwf) hkeys hwf hw
    · rw [if_neg hc] at henc
      cases hw : writeValue v with
      | error e => rw [hw] at henc; simp at henc
      | ok body =>
        rw [hw] at henc
        simp only [ok_bind] at henc
        injection henc with henc
        subst henc
        rw [show writeHeader ++ body = MAGIC_NUMBER ++ ([FORMAT_VERSION] ++ body) from by
          simp [writeHeader]]
        exact decode_encode_plainAux v body dopts heh hwf hw
  · simp only [encodeValue, hu, hih, Bool.false_eq_true, if_false, if_true] at henc
    cases hw : writeValue v with
    | error e => rw [hw] at henc; simp at henc
    | ok body =>
      rw [hw] at henc
      simp only [ok_bind] at henc
      injection henc with henc
      subst henc
      rw [show writeHeader ++ body = MAGIC_NUMBER ++ ([FORMAT_VERSION] ++ body) from by
        simp [writeHeader]]
      exact decode_encode_plainAux v body dopts heh hwf hw

/-! ## Claim theorems -/

set_option maxRecDepth 100000 in
/-- Claim C1 (code bug): the claimed encode/decode roundtrip fails on an object
whose single key is 128 repetitions of `a` (UTF-8 length 128, within the
abstract model).  The encoder emits the two-byte length marker `254`, but the
decoder classifies any first byte in `0x80..0xFF` — including `254` — as a
common-key id, so the bytes decode to an object keyed by the dictionary entry
`"style"` (code points `[115, 116, 121, 108, 101]`) instead of the original
key. -/
theorem c1_long_key_collision :
    (do
      let bytes ← encodeValue (.obj [(List.replicate 128 97, .null)]) defaultEncodeOptions
      (decodeValue bytes defaultDecodeOptions).mapError (fun _ => EncodeError.unsupportedType))
      = .ok (.obj [([115, 116, 121, 108, 101], .null)]) ∧
    ([115, 116, 121, 108, 101] : List Nat) ≠ List.replicate 128 97 := by
  constructor
  · rfl
  · decide

/-- Claim C2 (amended): for a well-formed value encoded with the header
included, both decoders succeed under header-expecting decode options, and
consuming the streaming decoder yields exactly the header event followed by
the flattening of the tree the eager decoder returns — the claimed
equivalence, restricted to messages that carry the magic header (headerless
string-table messages are accepted by the eager decoder but rejected by the
streaming decoder; see the counterexample). -/
theorem c2_streaming_matches_eager (v : JSValue) (opts : ResolvedEncodeOptions)
    (dopts : ResolvedDecodeOptions) (hwf : wfValue v = true)
    (hkeys : (collectKeys v []).length < 2 ^ 28)
    (hih : opts.includeHeader = true) (heh : dopts.expectHeader = true)
    (bytes : List Nat) (henc : encodeValue v opts = .ok bytes) :
    ∃ w, decodeValue bytes dopts = .ok w ∧
      decodeStreamSync bytes dopts = .ok (.header FORMAT_VERSION :: flattenValue w) := by
  obtain ⟨h1, h2⟩ := decode_stream_encode v opts dopts hwf hkeys hih heh bytes henc
  exact ⟨v, h1, h2⟩

/-- Witness for C2 at `null` under default options. -/
theorem c2_witness :
    encodeValue .null defaultEncodeOptions = .ok [66, 79, 79, 78, 1, 0] ∧
    (∃ w, decodeValue [66, 79, 79, 78, 1, 0] defaultDecodeOptions = .ok w ∧
      decodeStreamSync [66, 79, 79, 78, 1, 0] defaultDecodeOptions =
        .ok (.header FORMAT_VERSION :: flattenValue w)) :=
  ⟨rfl, c2_streaming_matches_eager .null defaultEncodeOptions defaultDecodeOptions
    (by decide) (by decide) rfl rfl [66, 79, 79, 78, 1, 0] rfl⟩

/-- Counterexample for C2 as stated: a message encoded in string-table mode
without a header is decoded by the eager decoder (whose header sniffing
accepts a bare string-table tag) but rejected by the streaming decoder under
either value of `expectHeader`, so the equivalence does not hold for "messages
encoded without a header". -/
theorem c2_counterexample :
    encodeValue (.arr [.obj [([97, 98], .num (.int 1))], .obj [([97, 98], .num (.int 1))],
        .obj [([97, 98], .num (.int 1))]]) ⟨false, 4096, true⟩ =
      .ok [96, 1, 1, 2, 97, 98, 65, 3, 81, 1, 0, 16, 1, 81, 1, 0, 16, 1, 81, 1, 0, 16, 1] ∧
    decodeValue [96, 1, 1, 2, 97, 98, 65, 3, 81, 1, 0, 16, 1, 81, 1, 0, 16, 1,
        81, 1, 0, 16, 1] ⟨true, true⟩ =
      .ok (.arr [.obj [([97, 98], .num (.int 1))], .obj [([97, 98], .num (.int 1))],
        .obj [([97, 98], .num (.int 1))]]) ∧
    decodeStreamSync [96, 1, 1, 2, 97, 98, 65, 3, 81, 1, 0, 16, 1, 81, 1, 0, 16, 1,
        81, 1, 0, 16, 1] ⟨true, true⟩ = .error .invalidData ∧
    decodeStreamSync [96, 1, 1, 2, 97, 98, 65, 3, 81, 1, 0, 16, 1, 81, 1, 0, 16, 1,
        81, 1, 0, 16, 1] ⟨false, true⟩ = .error .invalidData :=
  ⟨rfl, rfl, rfl, rfl⟩

/-- Claim C3 (amended): `writeNumber` on an integral value picks the smallest
signed width among 8/16/32 bits that fits, then falls to UINT32 for the
remaining values below `2 ^ 32`, then INT64 — the UINT8 and UINT16 branches of
the source are dead because every value in their guard ranges already fits the
same-size signed width checked first.  (The claim's "smallest representation,
unsigned preferred at equal size for non-negative values that don't fit
signed" is wrong for `128..255` and `32768..65535`, which take the wider
signed form; see the counterexample.) -/
theorem c3_signed_width_first (n : Int) :
    writeNumber (.int n) =
      (if -128 ≤ n ∧ n ≤ 127 then TYPE_TAG.INT8 :: intBytesBE 1 n
      else if -32768 ≤ n ∧ n ≤ 32767 then TYPE_TAG.INT16 :: intBytesBE 2 n
      else if -2147483648 ≤ n ∧ n ≤ 2147483647 then TYPE_TAG.INT32 :: intBytesBE 4 n
      else if 0 ≤ n ∧ n ≤ 4294967295 then TYPE_TAG.UINT32 :: intBytesBE 4 n
      else TYPE_TAG.INT64 :: intBytesBE 8 n) := by
  show writeIntNumber n = _
  unfold writeIntNumber
  simp only [INT8_MIN, INT8_MAX, INT16_MIN, INT16_MAX, INT32_MIN, INT32_MAX,
    UINT8_MAX, UINT16_MAX, UINT32_MAX]
  split_ifs with c1 c2 c3 c4 c5 c6 <;> first | rfl | omega

/-- Counterexample for C3 as stated: the value `200` fits the one-byte UINT8
payload, but the encoder emits the three-byte INT16 form `[0x11, 0x00, 0xC8]`;
the UINT8 tag `0x14` never appears. -/
theorem c3_counterexample :
    writeNumber (.int 200) = [17, 0, 200] ∧
    (writeNumber (.int 200)).head? ≠ some TYPE_TAG.UINT8 ∧
    (writeNumber (.int 200)).length = 3 := by
  refine ⟨rfl, ?_, rfl⟩
  decide

/-- Claim C4 (amended): with string tables enabled, the encoder switches to
table mode — the byte after the magic becomes the string-table tag `0x60`
instead of the version byte — exactly when its internal estimate
`estimateRepetitionSavings` (which returns the sentinels `1000` / `-1000`
from an average-savings-per-key test, not the claimed per-key cost sum)
exceeds the header size `10 + Σ (UTF-16 length + 2)`.  The claimed cost
comparison is `specTableDecision`; the counterexample separates the two. -/
theorem c4_table_decision (v : JSValue) (hj : isJson v = true) :
    ∃ bytes, encodeValue v ⟨true, 4096, true⟩ = .ok bytes ∧
      (bytes.get? 4 = some TYPE_TAG.HEADER_WITH_STRING_TABLE ↔
        ((10 + ((collectKeys v []).map (fun k => utf16Len k + 2)).sum : Nat) : Int)
          < estimateRepetitionSavings v (collectKeys v [])) := by
  by_cases hc : ((10 + ((collectKeys v []).map (fun k => utf16Len k + 2)).sum : Nat) : Int)
      < estimateRepetitionSavings v (collectKeys v [])
  · obtain ⟨body, hb⟩ := writeValueWithKeyMap_total v (collectKeys v []) hj
      (fun k hk => collectKeys_complete v [] k hk)
    refine ⟨MAGIC_NUMBER ++ (writeStringTable (collectKeys v []) ++ body), ?_, ?_⟩
    · simp only [encodeValue, if_true]
      rw [if_pos hc, hb]
      rfl
    · refine iff_of_true ?_ hc
      simp only [MAGIC_NUMBER, writeStringTable, List.cons_append, List.nil_append,
        List.append_assoc, List.get?_cons_succ, List.get?_cons_zero]
  · obtain ⟨body, hb⟩ := writeValue_total v hj
    refine ⟨writeHeader ++ body, ?_, ?_⟩
    · simp only [encodeValue, if_true]
      rw [if_neg hc, hb]
      rfl
    · refine iff_of_false ?_ hc
      simp only [writeHeader, MAGIC_NUMBER, FORMAT_VERSION, List.cons_append,
        List.nil_append, List.append_assoc, List.get?_cons_succ, List.get?_cons_zero]
      decide

/-- Witness for C4 at `null` (no keys: the table is never chosen). -/
theorem c4_witness :
    ∃ bytes, encodeValue .null ⟨true, 4096, true⟩ = .ok bytes ∧
      (bytes.get? 4 = some TYPE_TAG.HEADER_WITH_STRING_TABLE ↔
        ((10 + ((collectKeys .null []).map (fun k => utf16Len k + 2)).sum : Nat) : Int)
          < estimateRepetitionSavings .null (collectKeys .null [])) :=
  c4_table_decision .null (by decide)

set_option maxRecDepth 100000 in
/-- Counterexample for C4 as stated: fifty objects `{a: 1}` inside an array.
The claimed cost comparison (`specTableDecision`, modelled from the spec's
words with the code's own header constant) projects positive savings and no
single-use-key veto, so it mandates table mode; the encoder nevertheless
emits a plain header (version byte `1` after the magic, not the table tag
`0x60`), because its real test `avgSavingsPerKey > 2` fails at exactly 2. -/
theorem c4_counterexample :
    specTableDecision (.arr (List.replicate 50 (.obj [([97], .null)]))) = true ∧
    headerByteAfterMagic (encodeValue (.arr (List.replicate 50 (.obj [([97], .null)])))
      defaultEncodeOptions) = some FORMAT_VERSION ∧
    FORMAT_VERSION ≠ TYPE_TAG.HEADER_WITH_STRING_TABLE := by
  refine ⟨?_, ?_, by decide⟩
  · rfl
  · rfl

/-- Claim C5 (amended): the BOON v2 varint decoder (BigInt accumulator with the
wide-shift guard and a final `Number` conversion) returns the exact value for
every encodable magnitude up to `2 ^ 53`, in particular beyond 32 bits.  The
fixed-scheme decoders of decode/decoder.ts and decode/stream.ts do wrap at 32
bits (see the counterexample), so the claim holds only for the v2 codec. -/
theorem c5_v2_varint_exact (n : Nat) (h : n ≤ 2 ^ 53) (rest : List Nat) :
    V2.readVarint (V2.encodeVarint n ++ rest) = .ok (n, rest) :=
  v2_readVarint_encodeVarint n h rest

/-- Witness for C5 at `2 ^ 32`. -/
theorem c5_witness : V2.readVarint (V2.encodeVarint (2 ^ 32) ++ []) = .ok (2 ^ 32, []) :=
  c5_v2_varint_exact (2 ^ 32) (by norm_num) []

/-- Counterexample for C5 as stated for the fixed-scheme decoder: the varint
bytes of `2 ^ 32` decode to `0` — the `(byte & 0x7F) << shift` accumulation is
a 32-bit JavaScript `|`, so the fifth payload group wraps to zero. -/
theorem c5_counterexample :
    V2.encodeVarint (2 ^ 32) = [128, 128, 128, 128, 16] ∧
    readVarint [128, 128, 128, 128, 16] = .ok (0, []) ∧
    (0 : Int) ≠ 2 ^ 32 := by
  refine ⟨?_, rfl, by decide⟩
  rw [V2.encodeVarint]
  norm_num
  rw [V2.encodeVarint]
  norm_num
  rw [V2.encodeVarint]
  norm_num
  rw [V2.encodeVarint]
  norm_num
  rw [V2.encodeVarint]
  norm_num

/-- Claim C6: every typed read fails with the `truncated` error when fewer
bytes remain than it requires — one byte for uint8/int8, two for the 16-bit
reads, four for the 32-bit reads and float32, eight for float64 and the
big-endian 64-bit integer, and `n` for an `n`-byte raw read; in particular a
buffer declaring a 10-byte string but supplying 3 bytes decodes to
`truncated`. -/
theorem c6_truncation :
    (∀ l : List Nat, l.length < 1 → readUint8 l = .error .truncated) ∧
    (∀ l : List Nat, l.length < 1 → readInt8 l = .error .truncated) ∧
    (∀ l : List Nat, l.length < 2 → readUint16 l = .error .truncated) ∧
    (∀ l : List Nat, l.length < 2 → readInt16 l = .error .truncated) ∧
    (∀ l : List Nat, l.length < 4 → readUint32 l = .error .truncated) ∧
    (∀ l : List Nat, l.length < 4 → readInt32 l = .error .truncated) ∧
    (∀ l : List Nat, l.length < 4 → readFloat32 l = .error .truncated) ∧
    (∀ l : List Nat, l.length < 8 → readFloat64 l = .error .truncated) ∧
    (∀ l : List Nat, l.length < 8 → readBigInt64 l = .error .truncated) ∧
    (∀ (n : Nat) (l : List Nat), l.length < n → readBytes n l = .error .truncated) ∧
    decodeValue [49, 10, 97, 98, 99] ⟨false, true⟩ = .error .truncated := by
  have hrb : ∀ (n : Nat) (l : List Nat), l.length < n → readBytes n l = .error .truncated := by
    intro n l h
    unfold readBytes
    rw [if_pos h]
  refine ⟨?_, ?_, ?_, ?_, ?_, ?_, ?_, ?_, ?_, hrb, rfl⟩
  · intro l h
    cases l with
    | nil => rfl
    | cons b r => simp at h
  · intro l h
    cases l with
    | nil => rfl
    | cons b r => simp at h
  · intro l h
    unfold readUint16
    rw [hrb 2 l h]
    rfl
  · intro l h
    unfold readInt16
    rw [hrb 2 l h]
    rfl
  · intro l h
    unfold readUint32
    rw [hrb 4 l h]
    rfl
  · intro l h
    unfold readInt32
    rw [hrb 4 l h]
    rfl
  · intro l h
    unfold readFloat32
    rw [hrb 4 l h]
    rfl
  · intro l h
    unfold readFloat64
    rw [hrb 8 l h]
    rfl
  · intro l h
    unfold readBigInt64
    rw [hrb 8 l h]
    rfl

/-- Witness for C6: the empty buffer truncates a byte read; a one-byte buffer
truncates a 16-bit read. -/
theorem c6_witness :
    readUint8 [] = .error .truncated ∧ readUint16 [0] = .error .truncated :=
  ⟨c6_truncation.1 [] (by decide), c6_truncation.2.2.1 [0] (by decide)⟩

/-- Claim C7: the varint encodings of 0, 127, 128, 16383 and 16384 take
exactly 1, 1, 2, 2 and 3 bytes, in the fixed-width key-index writer and in
the v2 LEB128 encoder alike. -/
theorem c7_varint_lengths :
    ((writeVarint 0).length = 1 ∧ (writeVarint 127).length = 1 ∧
      (writeVarint 128).length = 2 ∧ (writeVarint 16383).length = 2 ∧
      (writeVarint 16384).length = 3) ∧
    ((V2.encodeVarint 0).length = 1 ∧ (V2.encodeVarint 127).length = 1 ∧
      (V2.encodeVarint 128).length = 2 ∧ (V2.encodeVarint 16383).length = 2 ∧
      (V2.encodeVarint 16384).length = 3) := by
  refine ⟨⟨rfl, rfl, rfl, rfl, rfl⟩, ?_, ?_, ?_, ?_, ?_⟩ <;>
    · repeat
        rw [V2.encodeVarint]
        norm_num

/-- Claim C8: the zigzag map sends `n ≥ 0` to `2n` and `n < 0` to `-2n - 1`
(so `0 → 0`, `-1 → 1`, `1 → 2`, `-2 → 3`, `127 → 254`, `-128 → 255`), and the
v2 zigzag decoder inverts it on the supported range. -/
theorem c8_zigzag (n : Int) (h1 : -(2 ^ 52) ≤ n) (h2 : n ≤ 2 ^ 52) (rest : List Nat) :
    V2.readZigzag (V2.encodeZigzagVarint n ++ rest) = .ok (n, rest) ∧
    V2.encodeZigzagVarint 0 = V2.encodeVarint 0 ∧
    V2.encodeZigzagVarint (-1) = V2.encodeVarint 1 ∧
    V2.encodeZigzagVarint 1 = V2.encodeVarint 2 ∧
    V2.encodeZigzagVarint (-2) = V2.encodeVarint 3 ∧
    V2.encodeZigzagVarint 127 = V2.encodeVarint 254 ∧
    V2.encodeZigzagVarint (-128) = V2.encodeVarint 255 :=
  ⟨v2_readZigzag_encodeZigzag n h1 h2 rest, rfl, rfl, rfl, rfl, rfl, rfl⟩

/-- Witness for C8 at `-3`. -/
theorem c8_witness : V2.readZigzag (V2.encodeZigzagVarint (-3) ++ []) = .ok (-3, []) :=
  (c8_zigzag (-3) (by norm_num) (by norm_num) []).1

/-- Claim C9: the integer encoder never emits the UINT8 (`0x14`) or UINT16
(`0x15`) tags; every value up to 65535 lands in a signed branch, and UINT32
(`0x16`) appears exactly for the values in `(2^31 - 1, 2^32 - 1]`. -/
theorem c9_unsigned_tags (n : Int) :
    (writeIntNumber n).head? ≠ some TYPE_TAG.UINT8 ∧
    (writeIntNumber n).head? ≠ some TYPE_TAG.UINT16 ∧
    (0 ≤ n → n ≤ 65535 → ((writeIntNumber n).head? = some TYPE_TAG.INT8 ∨
      (writeIntNumber n).head? = some TYPE_TAG.INT16 ∨
      (writeIntNumber n).head? = some TYPE_TAG.INT32)) ∧
    ((writeIntNumber n).head? = some TYPE_TAG.UINT32 ↔
      2147483647 < n ∧ n ≤ 4294967295) := by
  unfold writeIntNumber
  simp only [INT8_MIN, INT8_MAX, INT16_MIN, INT16_MAX, INT32_MIN, INT32_MAX,
    UINT8_MAX, UINT16_MAX, UINT32_MAX]
  split_ifs with c1 c2 c3 c4 c5 c6
  · exact ⟨by simp, by simp, fun _ _ => Or.inl rfl,
      ⟨fun h => absurd h (by simp), fun h => absurd h (by omega)⟩⟩
  · exact ⟨by simp, by simp, fun _ _ => Or.inr (Or.inl rfl),
      ⟨fun h => absurd h (by simp), fun h => absurd h (by omega)⟩⟩
  · exact ⟨by simp, by simp, fun _ _ => Or.inr (Or.inr rfl),
      ⟨fun h => absurd h (by simp), fun h => absurd h (by omega)⟩⟩
  · exact absurd c4 (by omega)
  · exact absurd c5 (by omega)
  · refine ⟨by simp, by simp, fun h1 h2 => absurd c3 (by omega), ?_⟩
    exact ⟨fun _ => by omega, fun _ => rfl⟩
  · refine ⟨by simp, by simp, fun h1 h2 => absurd c3 (by omega), ?_⟩
    refine ⟨fun h => absurd h (by simp), fun h => (c6 ⟨by omega, h.2⟩).elim⟩

/-- Witness for C9: `3000000000` takes the UINT32 tag; `200` takes a signed
tag. -/
theorem c9_witness :
    (writeIntNumber 3000000000).head? = some TYPE_TAG.UINT32 ∧
    ((writeIntNumber 200).head? = some TYPE_TAG.INT8 ∨
      (writeIntNumber 200).head? = some TYPE_TAG.INT16 ∨
      (writeIntNumber 200).head? = some TYPE_TAG.INT32) :=
  ⟨(c9_unsigned_tags 3000000000).2.2.2.mpr (by norm_num),
    (c9_unsigned_tags 200).2.2.1 (by norm_num) (by norm_num)⟩

/-- Claim C10: `normalizeValue` always lands in the JSON fragment —
`undefined` maps to `null`, `undefined`-valued properties are dropped,
non-JSON primitives become their string rendering — so `writeValue` succeeds
on every normalized value and `encode` never reaches the unsupported-type
error, whatever the options. -/
theorem c10_encode_total (x : JSValue) (opts : ResolvedEncodeOptions) :
    isJson (normalizeValue x) = true ∧
    (∃ b, writeValue (normalizeValue x) = .ok b) ∧
    (∃ b, encode x opts = .ok b) ∧
    normalizeValue .undef = .null ∧
    (∀ (k : List Nat) (es : List (List Nat × JSValue)),
      normalizeEntries ((k, .undef) :: es) = normalizeEntries es) ∧
    (∀ s : List Nat, normalizeValue (.other s) = .str s) :=
  ⟨normalize_isJson x, writeValue_total _ (normalize_isJson x), encode_total x opts,
    rfl, fun _ _ => rfl, fun _ => rfl⟩

end Boon
